import Mathlib

/-
Shallow embedding of the watch-and-normalize pipeline of `unzipper.py`
(functions `process_file` and `DownloadsHandler._wait_for_file`).

Python strings are modelled as `List Char` (`PyStr`); the POSIX path-string
functions used by the code (`os.path.basename`, `os.path.dirname`,
`os.path.join`, `os.path.splitext`) are reimplemented character by character
from their CPython semantics.  The filesystem is a finite association list
from resolved component paths to nodes (regular files carrying content bytes
and a modification time, or directories); the empty component list is the
always-existing root directory.  `zipfile.ZipFile` is abstracted by a
content-indexed oracle `pz : Bytes -> Option (List ZipEntry)`: `none` models
`BadZipFile` (a `.zip`-suffixed file that fails to open), `some entries`
models a successful open with `zf.namelist()` enumerating `entries` in order.
Every fallible OS call returns its updated state together with a success
flag; Python exception handling corresponds to propagating the first `false`
flag to the single `except` handler of `process_file`, which logs an error
event.  Log records are modelled as events with the level the code gives
them.  Wall-clock time in `_wait_for_file` is modelled by the finite list of
poll outcomes that occur before the timeout expires: `none` is a poll where
`os.path.getsize` raises `FileNotFoundError`, `some n` a poll reading size
`n`.
-/


abbrev PyStr := List Char

abbrev Bytes := List Nat

/-- Split a character list at every `/`, keeping empty groups, so that
`splitSlash "a//b" = [[a],[],[b]]`; mirrors how POSIX path strings decompose
into components. -/
def splitSlash : PyStr → List PyStr
  | [] => [[]]
  | c :: rest =>
    match splitSlash rest with
    | [] => [[]]
    | g :: gs => if c = '/' then [] :: g :: gs else (c :: g) :: gs

/-- `os.path.basename`: everything after the last `/` (empty if the string
ends in `/`). -/
def pyBasename (s : PyStr) : PyStr :=
  (splitSlash s).getLastD []

/-- `os.path.dirname` (POSIX): the part before the last `/`, with trailing
slashes stripped unless the result consists only of slashes. -/
def pyDirname (s : PyStr) : PyStr :=
  let r := s.reverse
  let r1 := r.dropWhile (fun c => !decide (c = '/'))
  if r1 = [] then []
  else
    let r2 := r1.dropWhile (fun c => decide (c = '/'))
    if r2 = [] then r1.reverse else r2.reverse

/-- `os.path.join a b` (POSIX, two arguments): `b` if it is absolute,
otherwise `a` and `b` glued with exactly one separator unless `a` is empty or
already ends in `/`. -/
def pyJoin (a b : PyStr) : PyStr :=
  if b.head? = some '/' then b
  else if a = [] ∨ a.getLast? = some '/' then a ++ b
  else a ++ '/' :: b

/-- The stem part of `os.path.splitext`: cut at the last dot, except that
leading dots of the name never start an extension (so `.zip` has no
extension). -/
def pySplitextStem (b : PyStr) : PyStr :=
  match b.reverse.findIdx? (fun c => decide (c = '.')) with
  | none => b
  | some j =>
    let i := b.length - 1 - j
    if (b.take i).all (fun c => decide (c = '.')) then b else b.take i

/-- `src_path.lower().endswith(".zip")`. -/
def endsWithZip (s : PyStr) : Bool :=
  ['.', 'z', 'i', 'p'].isSuffixOf (s.map Char.toLower)

/-- Resolved component paths, as the kernel sees them after collapsing `//`,
`.` and `..` (`os.path.normpath` on the textual side agrees with this for the
paths the program builds). `[]` is the filesystem root. -/
abbrev FPath := List PyStr

/-- Fold one textual component onto a resolved path: empty components and `.`
vanish, `..` pops, anything else is appended. -/
def resolveStep (acc : FPath) (c : PyStr) : FPath :=
  if c = [] ∨ c = ['.'] then acc
  else if c = ['.', '.'] then acc.dropLast
  else acc ++ [c]

/-- Resolve a path string to the component path the OS accesses. -/
def toPath (s : PyStr) : FPath :=
  (splitSlash s).foldl resolveStep []

/-- The documented sanitization `zipfile.ZipFile.extract` applies to a member
name before extraction: split on `/` and drop empty, `.` and `..`
components. -/
def sanitizeName (name : PyStr) : List PyStr :=
  (splitSlash name).filter
    (fun c => !decide (c = [] ∨ c = ['.'] ∨ c = ['.', '.']))

/-- Content and metadata of a regular file; `mtime` stands for the metadata
`shutil.copy2` preserves. -/
structure FileData where
  content : Bytes
  mtime : Nat
deriving DecidableEq

/-- A filesystem node: regular file or directory. -/
inductive Node where
  | file (d : FileData) : Node
  | dir : Node
deriving DecidableEq

/-- Filesystem state: an association list from resolved paths to nodes.  The
root `[]` is implicitly a directory and never stored. -/
structure FS where
  nodes : List (FPath × Node)
deriving DecidableEq

/-- Node at a path (first binding wins); the root always exists as a
directory. -/
def FS.lookup (fs : FS) (p : FPath) : Option Node :=
  if p = [] then some Node.dir
  else (fs.nodes.find? (fun e => decide (e.1 = p))).map (fun e => e.2)

/-- `os.path.exists`. -/
def FS.existsP (fs : FS) (p : FPath) : Bool :=
  (fs.lookup p).isSome

/-- `os.path.isdir`. -/
def FS.isdir (fs : FS) (p : FPath) : Bool :=
  decide (fs.lookup p = some Node.dir)

/-- Bind `p` to `n`, replacing any previous binding; the root cannot be
rebound. -/
def FS.set (fs : FS) (p : FPath) (n : Node) : FS :=
  if p = [] then fs
  else ⟨(p, n) :: fs.nodes.filter (fun e => !decide (e.1 = p))⟩

/-- Walk of `os.makedirs(..., exist_ok=True)`: create each missing component
top-down, stopping with an error at the first component that exists as a
regular file; directories already present are accepted. -/
def FS.mkAux : FS → FPath → List PyStr → FS × Bool
  | fs, _, [] => (fs, true)
  | fs, pre, c :: cs =>
    let q := pre ++ [c]
    match fs.lookup q with
    | some Node.dir => FS.mkAux fs q cs
    | some (Node.file _) => (fs, false)
    | none => FS.mkAux (fs.set q Node.dir) q cs

/-- `os.makedirs` on a resolved component path (the root always exists). -/
def FS.makedirsP (fs : FS) (p : FPath) : FS × Bool :=
  FS.mkAux fs [] p

/-- `os.makedirs(s, exist_ok=True)` on a path string: the empty string is an
error (`FileNotFoundError`), otherwise the resolved path is created. -/
def FS.makedirsS (fs : FS) (s : PyStr) : FS × Bool :=
  if s = [] then (fs, false) else fs.makedirsP (toPath s)

/-- `open(path, "wb")` followed by writing `d`: fails on the root, on an
existing directory (`IsADirectoryError`, which also covers a path string with
a trailing slash), or when the parent is not an existing directory
(`FileNotFoundError` / `NotADirectoryError`); otherwise creates or truncates
the file. -/
def FS.openWrite (fs : FS) (p : FPath) (d : FileData) : FS × Bool :=
  if p = [] then (fs, false)
  else
    match fs.lookup p with
    | some Node.dir => (fs, false)
    | _ =>
      match fs.lookup p.dropLast with
      | some Node.dir => (fs.set p (Node.file d), true)
      | _ => (fs, false)

/-- `os.mkdir`: fails if the path exists or the parent is not a directory. -/
def FS.mkdirOne (fs : FS) (p : FPath) : FS × Bool :=
  if fs.existsP p then (fs, false)
  else
    match fs.lookup p.dropLast with
    | some Node.dir => (fs.set p Node.dir, true)
    | _ => (fs, false)

/-- One archive member: its stored name and the bytes `zf.open` yields. -/
structure ZipEntry where
  name : PyStr
  data : Bytes
deriving DecidableEq

/-- `ZipInfo.is_dir()`: the stored name ends in `/`. -/
def isDirMember (m : ZipEntry) : Bool :=
  decide (m.name.getLast? = some '/')

/-- `zf.extract(member, target_dir)` following CPython `_extract_member`:
sanitize the name, create missing parent directories, then either ensure a
directory (for a directory member) or write the member bytes, stamped with
the current time `now`. -/
def FS.extractMember (fs : FS) (tp : FPath) (m : ZipEntry) (now : Nat) :
    FS × Bool :=
  let tgt := tp ++ sanitizeName m.name
  let parent := tgt.dropLast
  let (fs1, ok1) :=
    if parent ≠ [] ∧ ¬ fs.existsP parent then fs.makedirsP parent
    else (fs, true)
  if ok1 then
    if isDirMember m then
      if fs1.isdir tgt then (fs1, true) else fs1.mkdirOne tgt
    else fs1.openWrite tgt ⟨m.data, now⟩
  else (fs1, false)

/-- The extraction loop `for member in zf.namelist(): zf.extract(...)`; the
first failing member raises out of the loop, keeping the output already
produced. -/
def extractAll (fs : FS) (tp : FPath) (ms : List ZipEntry) (now : Nat) :
    FS × Bool :=
  match ms with
  | [] => (fs, true)
  | m :: rest =>
    let r := fs.extractMember tp m now
    if r.2 then extractAll r.1 tp rest now else (r.1, false)

/-- `shutil.copy2(src, dst)` for a regular source file: if `dst` is an
existing directory the copy lands at `dst/<basename(src)>`; `copyfile`
then raises `SameFileError` when source and destination are the same
path; otherwise the write preserves content and metadata and overwrites
an existing file. -/
def FS.copy2Run (fs : FS) (d : FileData) (sp : FPath) (srcBase : PyStr)
    (tp : FPath) : FS × Bool :=
  let tp1 := if fs.isdir tp then resolveStep tp srcBase else tp
  if tp1 = sp then (fs, false)
  else fs.openWrite tp1 d

/-- The bindings strictly below `src`, as (relative path, node) pairs in
`nodes` order. -/
def FS.subtreeEntries (fs : FS) (src : FPath) : List (FPath × Node) :=
  fs.nodes.filterMap
    (fun e =>
      if src.isPrefixOf e.1 ∧ e.1 ≠ src then some (e.1.drop src.length, e.2)
      else none)

/-- Where copying one subtree binding under `dst` writes, or `none` when it
errors, as `shutil.copytree` treats the entry: a directory entry over an
existing file fails (`os.makedirs` raises `FileExistsError`); a file entry
whose target is an existing directory is handed to `copy2`, which drops it
INSIDE that directory under the source file's base name, failing on
`SameFileError` or when that inner path is itself a directory; a plain
file target fails only on `SameFileError`. -/
def copyTarget (sp dst : FPath) (s : FS) (ent : FPath × Node) :
    Option FPath :=
  match s.lookup (dst ++ ent.1), ent.2 with
  | some (Node.file _), Node.dir => none
  | some Node.dir, Node.file _ =>
    if dst ++ ent.1 ++ [ent.1.getLastD []] = sp ++ ent.1 then none
    else
      match s.lookup (dst ++ ent.1 ++ [ent.1.getLastD []]) with
      | some Node.dir => none
      | _ => some (dst ++ ent.1 ++ [ent.1.getLastD []])
  | _, Node.dir => some (dst ++ ent.1)
  | _, Node.file _ =>
    if dst ++ ent.1 = sp ++ ent.1 then none
    else some (dst ++ ent.1)

/-- Copy one subtree binding: write the node where `copyTarget` says, or
record the error and move on, matching how `shutil.copytree` collects
per-entry errors and raises `Error` at the end. -/
def copyNode (sp dst : FPath) (acc : FS × Bool) (ent : FPath × Node) :
    FS × Bool :=
  match copyTarget sp dst acc.1 ent with
  | none => (acc.1, false)
  | some w => (acc.1.set w ent.2, acc.2)

/-- An entry of the subtree is visited by `copytree`: the `scandir`
recursion reaches it only when every strictly intermediate path below
`src` is a directory. -/
def entryReachable (fs : FS) (src : FPath) (rel : FPath) : Bool :=
  (List.range (rel.length - 1)).all
    (fun j => fs.isdir (src ++ rel.take (j + 1)))

/-- The subtree bindings `copytree` actually visits. -/
def FS.reachableEntries (fs : FS) (src : FPath) : List (FPath × Node) :=
  (fs.subtreeEntries src).filter (fun e => entryReachable fs src e.1)

/-- `shutil.copytree(src, dst, dirs_exist_ok=True)`: create `dst`, then copy
every binding below `src` to the same relative path below `dst`, merging
with what is already there. -/
def FS.copytreeRun (fs : FS) (src : FPath) (dstS : PyStr) : FS × Bool :=
  let r := fs.makedirsS dstS
  if r.2 then
    (fs.reachableEntries src).foldl (copyNode src (toPath dstS)) (r.1, true)
  else (r.1, false)

/-- Severity of a log record. -/
inductive LogLevel where
  | info : LogLevel
  | error : LogLevel
deriving DecidableEq

/-- The log records `process_file` can emit, one per `logging.*` call. -/
inductive LogEvent where
  | extractedSingle : LogEvent
  | extractedMulti : LogEvent
  | copied : LogEvent
  | failedToProcess : LogEvent
deriving DecidableEq

/-- Level of each record as the source assigns it (`logging.info` for the
three success messages, `logging.error` in the `except` handler). -/
def LogEvent.level : LogEvent → LogLevel
  | LogEvent.extractedSingle => LogLevel.info
  | LogEvent.extractedMulti => LogLevel.info
  | LogEvent.copied => LogLevel.info
  | LogEvent.failedToProcess => LogLevel.error

/-- `process_file(src_path, unzipped_dir)` from `unzipper.py`: silently
return if the source vanished; dispatch on the `.zip` suffix
(case-insensitive); a single-member archive is written to
`unzipped_dir/<basename(member)>`, any other member count goes through
`unzipped_dir/<stem(src)>/` member by member; non-archives are copied
(`copytree` for directories, `copy2` for files); the surrounding
`try/except Exception` turns any failure into a single error record, keeping
whatever state the failing operation left behind. -/
def process_file (pz : Bytes → Option (List ZipEntry)) (now : Nat)
    (src unz : PyStr) (fs : FS) : FS × List LogEvent :=
  let sp := toPath src
  if ¬ fs.existsP sp then (fs, [])
  else if endsWithZip src then
    match fs.lookup sp with
    | some (Node.file d) =>
      match pz d.content with
      | some [e] =>
        let tps := pyJoin unz (pyBasename e.name)
        let r1 := fs.makedirsS (pyDirname tps)
        if r1.2 then
          let r2 := r1.1.openWrite (toPath tps) ⟨e.data, now⟩
          if r2.2 then (r2.1, [LogEvent.extractedSingle])
          else (r2.1, [LogEvent.failedToProcess])
        else (r1.1, [LogEvent.failedToProcess])
      | some namelist =>
        let tds := pyJoin unz (pySplitextStem (pyBasename src))
        let r1 := fs.makedirsS tds
        if r1.2 then
          let r2 := extractAll r1.1 (toPath tds) namelist now
          if r2.2 then (r2.1, [LogEvent.extractedMulti])
          else (r2.1, [LogEvent.failedToProcess])
        else (r1.1, [LogEvent.failedToProcess])
      | none => (fs, [LogEvent.failedToProcess])
    | _ => (fs, [LogEvent.failedToProcess])
  else
    let tps := pyJoin unz (pyBasename src)
    if fs.isdir sp then
      let r := fs.copytreeRun sp tps
      if r.2 then (r.1, [LogEvent.copied])
      else (r.1, [LogEvent.failedToProcess])
    else
      match fs.lookup sp with
      | some (Node.file d) =>
        let r := fs.copy2Run d sp (pyBasename src) (toPath tps)
        if r.2 then (r.1, [LogEvent.copied])
        else (r.1, [LogEvent.failedToProcess])
      | _ => (fs, [LogEvent.failedToProcess])

/-- The polling loop of `DownloadsHandler._wait_for_file`, over the list of
poll outcomes observed before the timeout: keep the last seen size
(initially the sentinel `-1`), return `true` as soon as a poll repeats it,
skip polls where the file does not exist without touching the last size. -/
def waitAux : Int → List (Option Nat) → Bool
  | _, [] => false
  | last, p :: rest =>
    match p with
    | some size => if (size : Int) = last then true else waitAux (size : Int) rest
    | none => waitAux last rest

/-- `_wait_for_file(filepath, timeout, interval)`, with `polls` the finite
sequence of poll outcomes the wall clock admits before `timeout` elapses. -/
def wait_for_file (polls : List (Option Nat)) : Bool :=
  waitAux (-1) polls

/-- Two adjacent equal elements occur in the list. -/
def hasAdjEq : List Nat → Bool
  | a :: b :: rest => if a = b then true else hasAdjEq (b :: rest)
  | _ => false

/-! ### Concrete states for counterexamples and witnesses -/

/-- Concrete state: `/d` holds a file `one.zip` with bytes `[9]`, and `/u`
is an existing, empty destination root. -/
def fsA : FS :=
  ⟨[(["d".data], Node.dir),
    (["d".data, "one.zip".data], Node.file ⟨[9], 5⟩),
    (["u".data], Node.dir)]⟩

/-- Oracle: `[9]` is an archive with the single file member
`sub/img.png`. -/
def pzSingle : Bytes → Option (List ZipEntry) :=
  fun b => if b = [9] then some [⟨"sub/img.png".data, [1, 2]⟩] else none

/-- Oracle: `[9]` is an archive whose single member is the directory entry
`data/`. -/
def pzDirEntry : Bytes → Option (List ZipEntry) :=
  fun b => if b = [9] then some [⟨"data/".data, []⟩] else none

/-- Oracle: `[9]` is a valid archive with no members at all. -/
def pzEmpty : Bytes → Option (List ZipEntry) :=
  fun b => if b = [9] then some [] else none

/-- Oracle: `[9]` is an archive with a `..`-escaping member next to a plain
one. -/
def pzSlip : Bytes → Option (List ZipEntry) :=
  fun b =>
    if b = [9] then some [⟨"../a.txt".data, [1]⟩, ⟨"b.txt".data, [2]⟩]
    else none

/-- Oracle under which nothing parses as an archive. -/
def pzNone : Bytes → Option (List ZipEntry) := fun _ => none

/-- Kind-monotone extension between states: directories stay directories and
files stay files (possibly with new content). -/
def KindLE (f g : FS) : Prop :=
  ∀ q : FPath,
    (f.lookup q = some Node.dir → g.lookup q = some Node.dir) ∧
    (∀ d : FileData, f.lookup q = some (Node.file d) →
      ∃ d', g.lookup q = some (Node.file d'))

/-- Every nonempty prefix of `p` is a directory. -/
def dirsOk (fs : FS) (p : FPath) : Prop :=
  ∀ q : FPath, q ≠ [] → q <+: p → fs.lookup q = some Node.dir

/-- Decidable check that every nonempty prefix of `p` is a directory. -/
def FS.dirsOkB (fs : FS) (p : FPath) : Bool :=
  (List.range p.length).all (fun k => fs.isdir (p.take (k + 1)))

/-- A component that `resolveStep` appends verbatim. -/
def cleanComp (c : PyStr) : Prop :=
  c ≠ [] ∧ c ≠ ['.'] ∧ c ≠ ['.', '.']

instance cleanComp_dec (c : PyStr) : Decidable (cleanComp c) := by
  unfold cleanComp
  infer_instance

/-! ### C6: non-archive passthrough -/

/-- Association-list well-formedness: no path is bound twice. -/
def FS.Wf (fs : FS) : Prop :=
  (fs.nodes.map Prod.fst).Nodup

instance fs_wf_dec (fs : FS) : Decidable fs.Wf := by
  unfold FS.Wf
  infer_instance

/-- `q` is the extraction target of some file member of `ms` below `tp`. -/
def fileTarget (tp : FPath) (ms : List ZipEntry) (q : FPath) : Prop :=
  ∃ m, m ∈ ms ∧ isDirMember m = false ∧ q = tp ++ sanitizeName m.name

instance fileTarget_dec (tp : FPath) (ms : List ZipEntry) (q : FPath) :
    Decidable (fileTarget tp ms q) := by
  unfold fileTarget
  infer_instance

/-- The member names of an archive extract independently: every file member
has a nonempty sanitized path that is not a prefix (in particular not a
duplicate) of any other member's sanitized path. -/
def SanOk (msAll : List ZipEntry) : Prop :=
  ∀ m ∈ msAll, isDirMember m = false →
    sanitizeName m.name ≠ [] ∧
    ∀ m' ∈ msAll, m' ≠ m →
      ¬ (sanitizeName m.name <+: sanitizeName m'.name)

instance sanOk_dec (msAll : List ZipEntry) : Decidable (SanOk msAll) := by
  unfold SanOk
  infer_instance

/-- Extraction invariant: the chain of directories down to `tp` is intact
and, strictly below `tp`, a directory never sits at a file-member target
while a file sits only at file-member targets. -/
def ExtractInv (tp : FPath) (msAll : List ZipEntry) (s : FS) : Prop :=
  tp ≠ [] ∧
  dirsOk s tp ∧
  ∀ q : FPath, tp <+: q → q ≠ tp →
    ((s.lookup q = some Node.dir → ¬ fileTarget tp msAll q) ∧
     (∀ d0 : FileData, s.lookup q = some (Node.file d0) →
        fileTarget tp msAll q))

/-- Oracle: `[9]` is the two-member archive `{a.txt, sub/b.txt}`. -/
def pzTwo : Bytes → Option (List ZipEntry) :=
  fun b =>
    if b = [9] then some [⟨"a.txt".data, [1]⟩, ⟨"sub/b.txt".data, [2]⟩]
    else none

/-- State for the C9 counterexample: the source archive `/u/a.zip` sits
inside the destination root `/u`. -/
def fsNine : FS :=
  ⟨[(["u".data], Node.dir),
    (["u".data, "a.zip".data], Node.file ⟨[9], 0⟩)]⟩

/-- Oracle: `[9]` is an archive whose single member is itself named
`a.zip`. -/
def pzNine : Bytes → Option (List ZipEntry) :=
  fun b => if b = [9] then some [⟨"a.zip".data, [5]⟩] else none

/-! ### C5: idempotence machinery -/

/-- Lookup equivalence of filesystem states. -/
def FS.Eqv (s t : FS) : Prop :=
  ∀ q : FPath, s.lookup q = t.lookup q

/-- The makedirs-then-write step of the single-member branch. -/
def wStep (g : FS) (a : PyStr) (T : FPath) (v : FileData) : FS × Bool :=
  if (g.makedirsS a).2 = true then (g.makedirsS a).1.openWrite T v
  else g.makedirsS a

/-- The makedirs-then-extract step of the multi-member branch. -/
def eStep (g : FS) (a : PyStr) (ms : List ZipEntry) (now : Nat) : FS × Bool :=
  if (g.makedirsS a).2 = true then
    extractAll (g.makedirsS a).1 (toPath a) ms now
  else g.makedirsS a

/-- Bytes of the outer archive in the C5 counterexample. -/
def outerB : Bytes := [1]

/-- Bytes of the inner archive in the C5 counterexample. -/
def innerB : Bytes := [2]

/-- Oracle: `[1]` is an archive whose single member `a.zip` carries `[2]`,
itself an archive whose single member is the file `b`. -/
def pzNest : Bytes → Option (List ZipEntry) :=
  fun b =>
    if b = outerB then some [⟨"a.zip".data, innerB⟩]
    else if b = innerB then some [⟨"b".data, [5]⟩] else none

/-- State for the C5 counterexample: the source archive `/u/a.zip` lies
inside the destination root `/u`. -/
def fsNest : FS :=
  ⟨[(["u".data], Node.dir),
    (["u".data, "a.zip".data], Node.file ⟨outerB, 0⟩)]⟩


/-! ### Basic filesystem lemmas -/

lemma FS.lookup_nil (fs : FS) : fs.lookup [] = some Node.dir := by
  simp [FS.lookup]

lemma FS.lookup_set_self (fs : FS) (p : FPath) (n : Node) (hp : p ≠ []) :
    (fs.set p n).lookup p = some n := by
  simp [FS.set, FS.lookup, hp, List.find?]

lemma find?_filter_ne (nodes : List (FPath × Node)) (p q : FPath) (hq : q ≠ p) :
    List.find? (fun e => decide (e.1 = q)) (nodes.filter (fun e => !decide (e.1 = p))) =
    List.find? (fun e => decide (e.1 = q)) nodes := by
  induction nodes with
  | nil => rfl
  | cons e t ih =>
    by_cases hep : e.1 = p
    · have hne : ¬ e.1 = q := fun h => hq (h ▸ hep ▸ rfl)
      have hpq : ¬ p = q := fun h => hq h.symm
      simp [List.filter_cons, hep, List.find?_cons, hne, ih, hpq]
    · by_cases heq : e.1 = q
      · simp [List.filter_cons, hep, List.find?_cons, heq, hq]
      · simp [List.filter_cons, hep, List.find?_cons, heq, ih]

lemma FS.lookup_set_ne (fs : FS) (p q : FPath) (n : Node) (hq : q ≠ p) :
    (fs.set p n).lookup q = fs.lookup q := by
  by_cases hp : p = []
  · simp [FS.set, hp]
  · by_cases hq0 : q = []
    · simp [FS.lookup, hq0]
    · have hpq : ¬ p = q := fun h => hq h.symm
      simp only [FS.set, FS.lookup, if_neg hq0, if_neg hp]
      rw [List.find?_cons]
      simp only [hpq, decide_eq_true_eq, decide_False]
      rw [find?_filter_ne fs.nodes p q hq]

lemma FS.existsP_iff (fs : FS) (p : FPath) :
    fs.existsP p = true ↔ ∃ n, fs.lookup p = some n := by
  simp [FS.existsP, Option.isSome_iff_exists]

/-! ### Stability probe -/

lemma waitAux_eq_adj (p : List (Option Nat)) (l : Int) :
    waitAux l p =
      (match p.filterMap id with
        | [] => false
        | s :: rs => decide ((s : Int) = l) || hasAdjEq (s :: rs)) := by
  induction p generalizing l with
  | nil => rfl
  | cons a p ih =>
    cases a with
    | none =>
      simpa [waitAux] using ih l
    | some s =>
      have hr : (some s :: p).filterMap id = s :: p.filterMap id := by simp
      rw [hr]
      simp only [waitAux]
      by_cases hs : (s : Int) = l
      · simp [hs]
      · have hs' : decide ((s : Int) = l) = false := by simp [hs]
        rw [if_neg hs, ih s, hs']
        simp only [Bool.false_or]
        cases hfp : p.filterMap id with
        | nil => simp [hasAdjEq]
        | cons t rt =>
          by_cases hst : s = t
          · simp [hasAdjEq, hst]
          · have h1 : decide ((t : Int) = (s : Int)) = false := by
              simp
              omega
            have h2 : hasAdjEq (s :: t :: rt) = hasAdjEq (t :: rt) := by
              simp [hasAdjEq, hst]
            show (decide ((t : Int) = (s : Int)) || hasAdjEq (t :: rt)) =
              hasAdjEq (s :: t :: rt)
            rw [h1, h2]
            simp

lemma waitAux_append_true (l : Int) (p q : List (Option Nat))
    (h : waitAux l p = true) : waitAux l (p ++ q) = true := by
  induction p generalizing l with
  | nil => simp [waitAux] at h
  | cons a p ih =>
    cases a with
    | none =>
      simp only [waitAux, List.cons_append] at h ⊢
      exact ih l h
    | some s =>
      simp only [waitAux, List.cons_append] at h ⊢
      by_cases hs : (s : Int) = l
      · simp [hs]
      · rw [if_neg hs] at h ⊢
        exact ih _ h

/-- C4: `_wait_for_file` returns `true` exactly when some two consecutive
size readings taken within the timeout are equal: polls where the path does
not exist are skipped without resetting the last recorded size (they vanish
from `filterMap id`, so readings separated only by missing-file polls still
count as consecutive), the `-1` sentinel can never match a real size, and
exhausting the poll budget without such a pair yields `false`.  The second
conjunct is the immediate return: once a prefix of the poll sequence
succeeds, the remaining polls the timeout would still allow cannot change
the outcome. -/
theorem wait_for_file_stable_iff (polls p q : List (Option Nat)) :
    (wait_for_file polls = hasAdjEq (polls.filterMap id)) ∧
    (wait_for_file p = true → wait_for_file (p ++ q) = true) := by
  constructor
  · rw [wait_for_file, waitAux_eq_adj]
    cases hfp : polls.filterMap id with
    | nil => rfl
    | cons s rs =>
      have h1 : decide ((s : Int) = (-1 : Int)) = false := by
        simp
      show (decide ((s : Int) = (-1 : Int)) || hasAdjEq (s :: rs)) =
        hasAdjEq (s :: rs)
      rw [h1]
      simp
  · exact waitAux_append_true (-1) p q

/-- Witness for C4: a run with a missing-file poll between two equal
readings succeeds, and success is preserved under appending further
polls. -/
theorem wait_for_file_stable_iff_witness :
    wait_for_file [some 5, none, some 5] = true ∧
    wait_for_file ([some 0, some 0] ++ [none, some 3]) = true :=
  ⟨by
    rw [(wait_for_file_stable_iff [some 5, none, some 5] [] []).1]
    decide,
   (wait_for_file_stable_iff [] [some 0, some 0] [none, some 3]).2
    (by decide)⟩

/-! ### C8: vanished source -/

/-- C8 counterexample: processing a path that does not exist returns with
the state untouched and an *empty* log — the claimed log record of the skip
is never emitted (the code is a bare `return`). -/
theorem missing_source_unlogged :
    process_file pzSingle 9 "/d/zzz".data "/u".data fsA = (fsA, []) := by
  decide

/-- C8 (amended): if the source path no longer exists when `process_file`
runs, the item is skipped silently: no output is written, no exception is
raised, no log record is emitted, and the state is returned unchanged. -/
theorem missing_source_skipped (pz : Bytes → Option (List ZipEntry))
    (now : Nat) (src unz : PyStr) (fs : FS)
    (h : fs.existsP (toPath src) = false) :
    process_file pz now src unz fs = (fs, []) := by
  simp [process_file, h]

/-- Witness for C8 at a concrete vanished path. -/
theorem missing_source_skipped_witness :
    process_file pzSingle 9 "/d/zzz".data "/u".data fsA = (fsA, []) :=
  missing_source_skipped pzSingle 9 "/d/zzz".data "/u".data fsA (by decide)

/-! ### C7: failures are contained -/

/-- C7: a `.zip`-suffixed regular file whose bytes fail to open as an
archive leaves the state completely unchanged (no incomplete output) and
logs exactly one record, at error level; and every invocation of
`process_file`, on any input whatsoever, returns normally with at most one
log record — in the embedding, totality of `process_file` is the shallow
form of the guarantee that a per-item failure is confined to that item and
never aborts processing of sibling items. -/
theorem corrupt_zip_skipped (pz : Bytes → Option (List ZipEntry))
    (now : Nat) (src unz : PyStr) (fs : FS) (d : FileData)
    (hz : endsWithZip src = true)
    (hf : fs.lookup (toPath src) = some (Node.file d))
    (hpz : pz d.content = none) :
    (process_file pz now src unz fs = (fs, [LogEvent.failedToProcess]) ∧
      LogEvent.failedToProcess.level = LogLevel.error) ∧
    ∀ (pz' : Bytes → Option (List ZipEntry)) (now' : Nat)
      (src' unz' : PyStr) (fs' : FS),
      (process_file pz' now' src' unz' fs').2.length ≤ 1 := by
  refine ⟨⟨?_, rfl⟩, ?_⟩
  · have hex : fs.existsP (toPath src) = true := by
      simp [FS.existsP, hf]
    simp [process_file, hex, hz, hf, hpz]
  · intro pz' now' src' unz' fs'
    simp only [process_file]
    repeat' split
    all_goals simp

/-- Witness for C7: the concrete archive file under an oracle that refuses
to parse it. -/
theorem corrupt_zip_skipped_witness :
    process_file pzNone 9 "/d/one.zip".data "/u".data fsA =
      (fsA, [LogEvent.failedToProcess]) :=
  ((corrupt_zip_skipped pzNone 9 "/d/one.zip".data "/u".data fsA ⟨[9], 5⟩
    (by decide) (by decide) rfl).1).1

/-! ### Path-string lemmas -/

lemma splitSlash_ne_nil (l : PyStr) : splitSlash l ≠ [] := by
  cases l with
  | nil => simp [splitSlash]
  | cons c rest =>
    simp only [splitSlash]
    cases splitSlash rest with
    | nil => simp
    | cons g gs =>
      by_cases h : c = '/' <;> simp [h]

lemma splitSlash_append (a b : PyStr) :
    splitSlash (a ++ '/' :: b) = splitSlash a ++ splitSlash b := by
  induction a with
  | nil =>
    simp only [List.nil_append, splitSlash]
    cases h : splitSlash b with
    | nil => exact absurd h (splitSlash_ne_nil b)
    | cons g gs => simp
  | cons c a ih =>
    have hu : ∀ l : PyStr, splitSlash (c :: l) =
        match splitSlash l with
        | [] => [[]]
        | g :: gs => if c = '/' then [] :: g :: gs else (c :: g) :: gs :=
      fun _ => rfl
    rw [List.cons_append, hu, hu, ih]
    cases h : splitSlash a with
    | nil => exact absurd h (splitSlash_ne_nil a)
    | cons g gs =>
      by_cases hc : c = '/' <;> simp [hc]

lemma splitSlash_no_slash (l : PyStr) (h : ∀ c ∈ l, c ≠ '/') :
    splitSlash l = [l] := by
  induction l with
  | nil => rfl
  | cons c rest ih =>
    have hc : c ≠ '/' := h c (List.mem_cons_self c rest)
    have hr : splitSlash rest = [rest] :=
      ih (fun x hx => h x (List.mem_cons_of_mem c hx))
    simp [splitSlash, hr, hc]

lemma toPath_nil : toPath [] = [] := by decide

lemma toPath_append_slash (a b : PyStr) :
    toPath (a ++ '/' :: b) = (splitSlash b).foldl resolveStep (toPath a) := by
  rw [toPath, splitSlash_append, List.foldl_append]
  rfl

lemma toPath_concat_slash (a : PyStr) : toPath (a ++ ['/']) = toPath a := by
  have h := toPath_append_slash a []
  simpa [splitSlash, resolveStep] using h

lemma toPath_no_slash (b : PyStr) (h : ∀ c ∈ b, c ≠ '/') :
    toPath b = resolveStep [] b := by
  rw [toPath, splitSlash_no_slash b h]
  rfl

lemma splitSlash_groups_no_slash (l : PyStr) :
    ∀ g ∈ splitSlash l, ∀ c ∈ g, c ≠ '/' := by
  induction l with
  | nil =>
    intro g hg
    simp [splitSlash] at hg
    simp [hg]
  | cons c rest ih =>
    intro g hg
    simp only [splitSlash] at hg
    cases h : splitSlash rest with
    | nil => exact absurd h (splitSlash_ne_nil rest)
    | cons g0 gs =>
      simp only [h] at hg
      by_cases hc : c = '/'
      · simp only [if_pos hc] at hg
        rcases List.mem_cons.mp hg with h1 | h1
        · simp [h1]
        · exact ih g (h ▸ h1)
      · simp only [if_neg hc] at hg
        rcases List.mem_cons.mp hg with h1 | h1
        · subst h1
          intro x hx
          rcases List.mem_cons.mp hx with h2 | h2
          · simpa [h2] using hc
          · exact ih g0 (h ▸ List.mem_cons_self g0 gs) x h2
        · exact ih g (h ▸ List.mem_cons_of_mem g0 h1)

lemma getLastD_mem {α : Type} : ∀ (l : List α) (d : α), l ≠ [] → l.getLastD d ∈ l := by
  intro l
  induction l with
  | nil => exact fun d h => absurd rfl h
  | cons a t ih =>
    intro d _
    rw [List.getLastD_cons]
    cases t with
    | nil => simp [List.getLastD]
    | cons b u => exact List.mem_cons_of_mem a (ih a (by simp))

lemma pyBasename_no_slash (s : PyStr) : ∀ c ∈ pyBasename s, c ≠ '/' := by
  intro c hc
  have hmem : pyBasename s ∈ splitSlash s :=
    getLastD_mem (splitSlash s) [] (splitSlash_ne_nil s)
  exact splitSlash_groups_no_slash s (pyBasename s) hmem c hc

lemma dropWhile_append_of_all {α : Type} (p : α → Bool) (xs ys : List α)
    (h : ∀ x ∈ xs, p x = true) :
    (xs ++ ys).dropWhile p = ys.dropWhile p := by
  induction xs with
  | nil => rfl
  | cons x t ih =>
    rw [List.cons_append, List.dropWhile_cons,
      if_pos (h x (List.mem_cons_self x t)),
      ih (fun y hy => h y (List.mem_cons_of_mem x hy))]

lemma toPath_stripTS (c : PyStr) :
    toPath ((c.reverse.dropWhile (fun x => decide (x = '/'))).reverse) =
      toPath c := by
  have key : ∀ r : PyStr,
      toPath ((r.dropWhile (fun x => decide (x = '/'))).reverse) =
        toPath r.reverse := by
    intro r
    induction r with
    | nil => rfl
    | cons x r ih =>
      by_cases hx : x = '/'
      · rw [List.dropWhile_cons, if_pos (by simp [hx]), ih, List.reverse_cons,
          hx, toPath_concat_slash]
      · rw [List.dropWhile_cons, if_neg (by simp [hx])]
  simpa using key c.reverse

lemma head_slash_mem {b : PyStr} (h : b.head? = some '/') : '/' ∈ b := by
  cases b with
  | nil => simp at h
  | cons x t =>
    simp only [List.head?_cons, Option.some.injEq] at h
    simp [h]

lemma eq_dropLast_slash {a : PyStr} (h : a.getLast? = some '/') :
    a.dropLast ++ '/' :: ([] : PyStr) = a := by
  have ha : a ≠ [] := by
    intro h0
    rw [h0] at h
    simp at h
  have hg : a.getLast ha = '/' := by
    have := List.getLast?_eq_getLast a ha
    rw [this] at h
    exact (Option.some.injEq _ _).mp h
  have hd := List.dropLast_append_getLast ha
  rw [hg] at hd
  simpa using hd

lemma toPath_pyJoin (a b : PyStr) (hb : ∀ x ∈ b, x ≠ '/') :
    toPath (pyJoin a b) = resolveStep (toPath a) b := by
  rw [pyJoin]
  by_cases h1 : b.head? = some '/'
  · exact absurd rfl (hb '/' (head_slash_mem h1))
  · rw [if_neg h1]
    by_cases h2 : a = [] ∨ a.getLast? = some '/'
    · rw [if_pos h2]
      rcases h2 with h2 | h2
      · subst h2
        rw [List.nil_append, toPath_no_slash b hb, toPath_nil]
      · have ha := eq_dropLast_slash h2
        have hsplit : a ++ b = a.dropLast ++ '/' :: b := by
          conv_lhs => rw [← ha]
          simp
        rw [hsplit, toPath_append_slash, splitSlash_no_slash b hb]
        have hpa : toPath a = toPath a.dropLast := by
          conv_lhs => rw [← ha]
          exact toPath_concat_slash a.dropLast
        rw [hpa]
        rfl
    · rw [if_neg h2, toPath_append_slash, splitSlash_no_slash b hb]
      rfl

lemma pyDirname_slash_append (c b : PyStr) (hb : ∀ x ∈ b, x ≠ '/') :
    pyDirname (c ++ '/' :: b) =
      (if c.reverse.dropWhile (fun x => decide (x = '/')) = []
       then c ++ ['/']
       else (c.reverse.dropWhile (fun x => decide (x = '/'))).reverse) := by
  simp only [pyDirname]
  have hrev : (c ++ '/' :: b).reverse = b.reverse ++ '/' :: c.reverse := by
    simp
  rw [hrev]
  have h1 : (b.reverse ++ '/' :: c.reverse).dropWhile
      (fun x => !decide (x = '/')) = '/' :: c.reverse := by
    rw [dropWhile_append_of_all _ b.reverse _
      (fun x hx => by simp [hb x (List.mem_reverse.mp hx)]),
      List.dropWhile_cons]
    simp
  rw [h1]
  rw [if_neg (by simp)]
  have h2 : ('/' :: c.reverse).dropWhile (fun x => decide (x = '/')) =
      c.reverse.dropWhile (fun x => decide (x = '/')) := by
    rw [List.dropWhile_cons]
    simp
  rw [h2]
  by_cases h3 : c.reverse.dropWhile (fun x => decide (x = '/')) = []
  · rw [if_pos h3, if_pos h3]
    simp
  · rw [if_neg h3, if_neg h3]

lemma pyDirname_pyJoin (a b : PyStr) (ha : a ≠ [])
    (hb : ∀ x ∈ b, x ≠ '/') :
    toPath (pyDirname (pyJoin a b)) = toPath a ∧
      pyDirname (pyJoin a b) ≠ [] := by
  rw [pyJoin]
  by_cases h1 : b.head? = some '/'
  · exact absurd rfl (hb '/' (head_slash_mem h1))
  · rw [if_neg h1]
    by_cases h2 : a = [] ∨ a.getLast? = some '/'
    · rw [if_pos h2]
      rcases h2 with h2 | h2
      · exact absurd h2 ha
      · have hae := eq_dropLast_slash h2
        have hsplit : a ++ b = a.dropLast ++ '/' :: b := by
          conv_lhs => rw [← hae]
          simp
        rw [hsplit, pyDirname_slash_append a.dropLast b hb]
        have hpa : toPath a = toPath a.dropLast := by
          conv_lhs => rw [← hae]
          exact toPath_concat_slash a.dropLast
        by_cases h3 : a.dropLast.reverse.dropWhile
            (fun x => decide (x = '/')) = []
        · rw [if_pos h3]
          constructor
          · have : a.dropLast ++ ['/'] = a := by simpa using hae
            rw [this]
          · simp
        · rw [if_neg h3]
          constructor
          · rw [toPath_stripTS, ← hpa]
          · simp [h3]
    · rw [if_neg h2, pyDirname_slash_append a b hb]
      by_cases h3 : a.reverse.dropWhile (fun x => decide (x = '/')) = []
      · rw [if_pos h3]
        exact ⟨toPath_concat_slash a, by simp⟩
      · rw [if_neg h3]
        exact ⟨toPath_stripTS a, by simp [h3]⟩

/-! ### makedirs lemmas -/

lemma mkAux_cons (fs : FS) (pre : FPath) (c : PyStr) (cs : List PyStr) :
    FS.mkAux fs pre (c :: cs) =
      (match fs.lookup (pre ++ [c]) with
       | some Node.dir => FS.mkAux fs (pre ++ [c]) cs
       | some (Node.file _) => (fs, false)
       | none => FS.mkAux (fs.set (pre ++ [c]) Node.dir) (pre ++ [c]) cs) :=
  rfl

lemma mkAux_noop (rest : List PyStr) (fs : FS) (pre : FPath)
    (h : ∀ k : Nat, k < rest.length →
      fs.lookup (pre ++ rest.take (k + 1)) = some Node.dir) :
    FS.mkAux fs pre rest = (fs, true) := by
  induction rest generalizing pre with
  | nil => rfl
  | cons c cs ih =>
    have h0 : fs.lookup (pre ++ [c]) = some Node.dir := by
      simpa using h 0 (by simp)
    rw [mkAux_cons, h0]
    apply ih
    intro k hk
    have := h (k + 1) (by simpa using Nat.succ_lt_succ hk)
    simpa [List.append_assoc] using this

lemma mkAux_frame (rest : List PyStr) (fs : FS) (pre : FPath) (q : FPath)
    (h : ∀ k : Nat, k < rest.length → q ≠ pre ++ rest.take (k + 1)) :
    (FS.mkAux fs pre rest).1.lookup q = fs.lookup q := by
  induction rest generalizing fs pre with
  | nil => rfl
  | cons c cs ih =>
    have hq : q ≠ pre ++ [c] := by simpa using h 0 (by simp)
    have hnext : ∀ k : Nat, k < cs.length →
        q ≠ (pre ++ [c]) ++ cs.take (k + 1) := by
      intro k hk
      have := h (k + 1) (by simpa using Nat.succ_lt_succ hk)
      simpa [List.append_assoc] using this
    rw [mkAux_cons]
    cases hl : fs.lookup (pre ++ [c]) with
    | none =>
      rw [ih (fs.set (pre ++ [c]) Node.dir) (pre ++ [c]) hnext,
        FS.lookup_set_ne _ _ _ _ hq]
    | some n =>
      cases n with
      | dir => exact ih fs (pre ++ [c]) hnext
      | file d => rfl

lemma mkAux_preserve (rest : List PyStr) (fs : FS) (pre : FPath) (q : FPath)
    (n : Node) (h : fs.lookup q = some n) :
    (FS.mkAux fs pre rest).1.lookup q = some n := by
  induction rest generalizing fs pre with
  | nil => exact h
  | cons c cs ih =>
    rw [mkAux_cons]
    cases hl : fs.lookup (pre ++ [c]) with
    | none =>
      have hq : q ≠ pre ++ [c] := by
        intro he
        rw [he, hl] at h
        cases h
      exact ih _ _ (by rw [FS.lookup_set_ne _ _ _ _ hq]; exact h)
    | some n' =>
      cases n' with
      | dir => exact ih fs (pre ++ [c]) h
      | file d => exact h

lemma mkAux_changes (rest : List PyStr) (fs : FS) (pre : FPath) (q : FPath) :
    (FS.mkAux fs pre rest).1.lookup q = fs.lookup q ∨
      ((FS.mkAux fs pre rest).1.lookup q = some Node.dir ∧
        fs.lookup q = none) := by
  induction rest generalizing fs pre with
  | nil => exact Or.inl rfl
  | cons c cs ih =>
    rw [mkAux_cons]
    cases hl : fs.lookup (pre ++ [c]) with
    | none =>
      rcases ih (fs.set (pre ++ [c]) Node.dir) (pre ++ [c]) with h1 | ⟨h1, h2⟩
      · by_cases hq : q = pre ++ [c]
        · subst hq
          refine Or.inr ⟨?_, hl⟩
          rw [h1, FS.lookup_set_self]
          intro he
          rw [he] at hl
          rw [FS.lookup_nil] at hl
          cases hl
        · rw [h1, FS.lookup_set_ne _ _ _ _ hq]
          exact Or.inl rfl
      · by_cases hq : q = pre ++ [c]
        · subst hq
          exact Or.inr ⟨h1, hl⟩
        · rw [FS.lookup_set_ne _ _ _ _ hq] at h2
          exact Or.inr ⟨h1, h2⟩
    | some n' =>
      cases n' with
      | dir => exact ih fs (pre ++ [c])
      | file d => exact Or.inl rfl

lemma kindLE_refl (f : FS) : KindLE f f :=
  fun _ => ⟨fun h => h, fun d h => ⟨d, h⟩⟩

lemma mkAux_stable (rest : List PyStr) (fs f' : FS) (pre : FPath) (ok : Bool)
    (hrun : FS.mkAux fs pre rest = (f', ok)) (g : FS) (hle : KindLE f' g) :
    FS.mkAux g pre rest = (g, ok) := by
  induction rest generalizing fs pre with
  | nil =>
    rw [FS.mkAux] at hrun
    cases hrun
    rfl
  | cons c cs ih =>
    rw [mkAux_cons] at hrun
    cases hl : fs.lookup (pre ++ [c]) with
    | none =>
      rw [hl] at hrun
      have hrun' : FS.mkAux (fs.set (pre ++ [c]) Node.dir) (pre ++ [c]) cs =
          (f', ok) := hrun
      have hd : f'.lookup (pre ++ [c]) = some Node.dir := by
        have hset : (fs.set (pre ++ [c]) Node.dir).lookup (pre ++ [c]) =
            some Node.dir := by
          apply FS.lookup_set_self
          intro he
          rw [he, FS.lookup_nil] at hl
          cases hl
        have := mkAux_preserve cs _ (pre ++ [c]) (pre ++ [c]) Node.dir hset
        rw [hrun'] at this
        exact this
      have hg : g.lookup (pre ++ [c]) = some Node.dir := (hle _).1 hd
      rw [mkAux_cons, hg]
      exact ih _ _ hrun'
    | some n' =>
      cases n' with
      | dir =>
        rw [hl] at hrun
        have hrun' : FS.mkAux fs (pre ++ [c]) cs = (f', ok) := hrun
        have hd : f'.lookup (pre ++ [c]) = some Node.dir := by
          have := mkAux_preserve cs fs (pre ++ [c]) (pre ++ [c]) Node.dir hl
          rw [hrun'] at this
          exact this
        have hg : g.lookup (pre ++ [c]) = some Node.dir := (hle _).1 hd
        rw [mkAux_cons, hg]
        exact ih _ _ hrun'
      | file d =>
        rw [hl] at hrun
        have hrun' : ((fs, false) : FS × Bool) = (f', ok) := hrun
        cases hrun'
        have hf : f'.lookup (pre ++ [c]) = some (Node.file d) := hl
        rcases (hle _).2 d hf with ⟨d', hd'⟩
        rw [mkAux_cons, hd']

lemma makedirsP_noop (fs : FS) (p : FPath) (h : dirsOk fs p) :
    fs.makedirsP p = (fs, true) := by
  apply mkAux_noop
  intro k hk
  rw [List.nil_append]
  apply h
  · have : k + 1 ≤ p.length := hk
    intro he
    have := List.length_take (k + 1) p
    rw [he] at this
    simp at this
    omega
  · exact List.take_prefix _ _

lemma makedirsS_noop (fs : FS) (s : PyStr) (hs : s ≠ [])
    (h : dirsOk fs (toPath s)) : fs.makedirsS s = (fs, true) := by
  rw [FS.makedirsS, if_neg hs]
  exact makedirsP_noop fs (toPath s) h

lemma dirsOk_of_dirsOkB (fs : FS) (p : FPath) (h : fs.dirsOkB p = true) :
    dirsOk fs p := by
  intro q hq hqp
  rcases hqp with ⟨t, ht⟩
  have hlen : q.length ≤ p.length := by
    rw [← ht]
    simp
  have hq1 : 1 ≤ q.length := by
    cases q with
    | nil => exact absurd rfl hq
    | cons a u => simp
  have htake : p.take q.length = q := by
    rw [← ht]
    exact List.take_left q t
  have hk := (List.all_eq_true.mp h) (q.length - 1)
    (by
      rw [List.mem_range]
      omega)
  rw [show q.length - 1 + 1 = q.length from by omega, htake] at hk
  simpa [FS.isdir] using hk

/-! ### C10: single directory entry -/

/-- C10: a `.zip` file whose single member has an empty base name (a
directory entry such as `sub/`) extracts nothing: the computed target path
resolves to the destination root itself, the write of the member fails on
that existing directory (or on the root), the failure is absorbed by the
handler as one error record, and the state — in particular the set of files
under the destination root — is returned completely unchanged. -/
theorem single_dir_entry_extracts_nothing
    (pz : Bytes → Option (List ZipEntry)) (now : Nat) (src unz : PyStr)
    (fs : FS) (d : FileData) (e : ZipEntry)
    (hz : endsWithZip src = true)
    (hf : fs.lookup (toPath src) = some (Node.file d))
    (hpz : pz d.content = some [e])
    (hbn : pyBasename e.name = [])
    (hu : unz ≠ [])
    (hdirs : fs.dirsOkB (toPath unz) = true) :
    process_file pz now src unz fs = (fs, [LogEvent.failedToProcess]) := by
  have hdirs' : dirsOk fs (toPath unz) := dirsOk_of_dirsOkB fs _ hdirs
  have hex : fs.existsP (toPath src) = true := by simp [FS.existsP, hf]
  have hb0 : ∀ x ∈ ([] : PyStr), x ≠ '/' := by simp
  have hjd := pyDirname_pyJoin unz [] hu hb0
  have hmk : fs.makedirsS (pyDirname (pyJoin unz (pyBasename e.name))) =
      (fs, true) := by
    rw [hbn]
    apply makedirsS_noop fs _ hjd.2
    rw [hjd.1]
    exact hdirs'
  have htp : toPath (pyJoin unz (pyBasename e.name)) = toPath unz := by
    rw [hbn, toPath_pyJoin unz [] hb0]
    simp [resolveStep]
  have how : fs.openWrite (toPath (pyJoin unz (pyBasename e.name)))
      ⟨e.data, now⟩ = (fs, false) := by
    rw [htp]
    by_cases hD : toPath unz = []
    · rw [FS.openWrite, if_pos hD]
    · have hdir : fs.lookup (toPath unz) = some Node.dir :=
        hdirs' (toPath unz) hD (List.prefix_refl _)
      rw [FS.openWrite, if_neg hD, hdir]
  simp only [process_file, hex, hz, hf, hpz, hmk, how]
  simp

/-- Witness for C10: the archive whose only member is `data/`. -/
theorem single_dir_entry_extracts_nothing_witness :
    process_file pzDirEntry 7 "/d/one.zip".data "/u".data fsA =
      (fsA, [LogEvent.failedToProcess]) :=
  single_dir_entry_extracts_nothing pzDirEntry 7 "/d/one.zip".data "/u".data
    fsA ⟨[9], 5⟩ ⟨"data/".data, []⟩ (by decide) (by decide) (by decide)
    (by decide) (by decide) (by decide)

/-! ### Creating the per-archive directory -/

lemma mkAux_dirs_then (cs : List PyStr) (fs : FS) (pre : FPath) (c : PyStr)
    (h : ∀ k : Nat, k < cs.length →
      fs.lookup (pre ++ cs.take (k + 1)) = some Node.dir) :
    FS.mkAux fs pre (cs ++ [c]) =
      (match fs.lookup (pre ++ cs ++ [c]) with
       | some Node.dir => (fs, true)
       | some (Node.file _) => (fs, false)
       | none => (fs.set (pre ++ cs ++ [c]) Node.dir, true)) := by
  induction cs generalizing pre with
  | nil =>
    rw [List.nil_append, mkAux_cons]
    cases hl : fs.lookup (pre ++ [c]) with
    | none =>
      have : pre ++ [] ++ [c] = pre ++ [c] := by simp
      rw [this, hl]
      rfl
    | some n =>
      cases n with
      | dir =>
        have : pre ++ [] ++ [c] = pre ++ [c] := by simp
        rw [this, hl]
        rfl
      | file d =>
        have : pre ++ [] ++ [c] = pre ++ [c] := by simp
        rw [this, hl]
  | cons c0 cs ih =>
    have h0 : fs.lookup (pre ++ [c0]) = some Node.dir := by
      simpa using h 0 (by simp)
    rw [List.cons_append, mkAux_cons, h0]
    have hsh : ∀ k : Nat, k < cs.length →
        fs.lookup ((pre ++ [c0]) ++ cs.take (k + 1)) = some Node.dir := by
      intro k hk
      have := h (k + 1) (by simpa using Nat.succ_lt_succ hk)
      simpa [List.append_assoc] using this
    rw [ih (pre ++ [c0]) hsh]
    have : pre ++ [c0] ++ cs ++ [c] = pre ++ (c0 :: cs) ++ [c] := by simp
    rw [this]

lemma makedirs_into (fs : FS) (D : FPath) (c : PyStr) (hdirs : dirsOk fs D) :
    fs.makedirsP (D ++ [c]) =
      (match fs.lookup (D ++ [c]) with
       | some Node.dir => (fs, true)
       | some (Node.file _) => (fs, false)
       | none => (fs.set (D ++ [c]) Node.dir, true)) := by
  rw [FS.makedirsP]
  have h : ∀ k : Nat, k < D.length →
      fs.lookup ([] ++ D.take (k + 1)) = some Node.dir := by
    intro k hk
    rw [List.nil_append]
    apply hdirs
    · intro he
      have := List.length_take (k + 1) D
      rw [he] at this
      simp at this
      omega
    · exact List.take_prefix _ _
  have := mkAux_dirs_then D fs [] c h
  rw [List.nil_append] at this
  rw [this]

lemma pyJoin_ne_nil (a b : PyStr) (ha : a ≠ []) : pyJoin a b ≠ [] := by
  rw [pyJoin]
  by_cases h1 : b.head? = some '/'
  · rw [if_pos h1]
    intro he
    rw [he] at h1
    simp at h1
  · rw [if_neg h1]
    by_cases h2 : a = [] ∨ a.getLast? = some '/'
    · rw [if_pos h2]
      simp [ha]
    · rw [if_neg h2]
      simp [ha]

lemma pySplitextStem_cases (b : PyStr) :
    pySplitextStem b = b ∨ ∃ i, pySplitextStem b = b.take i := by
  rw [pySplitextStem]
  cases b.reverse.findIdx? (fun c => decide (c = '.')) with
  | none => exact Or.inl rfl
  | some j =>
    by_cases hall : ((b.take (b.length - 1 - j)).all
        fun c => decide (c = '.')) = true
    · exact Or.inl (if_pos hall)
    · exact Or.inr ⟨_, if_neg hall⟩

lemma pySplitextStem_no_slash (b : PyStr) (h : ∀ c ∈ b, c ≠ '/') :
    ∀ c ∈ pySplitextStem b, c ≠ '/' := by
  intro c hc
  rcases pySplitextStem_cases b with hcas | ⟨i, hcas⟩
  · exact h c (hcas ▸ hc)
  · exact h c (List.mem_of_mem_take (hcas ▸ hc))

lemma resolveStep_clean (acc : FPath) (c : PyStr) (h : cleanComp c) :
    resolveStep acc c = acc ++ [c] := by
  rcases h with ⟨h1, h2, h3⟩
  rw [resolveStep, if_neg (by simp [h1, h2]), if_neg h3]

lemma toPath_pyJoin_clean (a b : PyStr) (hb : ∀ x ∈ b, x ≠ '/')
    (hc : cleanComp b) : toPath (pyJoin a b) = toPath a ++ [b] := by
  rw [toPath_pyJoin a b hb, resolveStep_clean _ _ hc]

/-! ### Branch-reduction lemmas for `process_file` -/

lemma process_file_zip_single (pz : Bytes → Option (List ZipEntry)) (now : Nat)
    (src unz : PyStr) (fs : FS) (d : FileData) (e : ZipEntry)
    (hz : endsWithZip src = true)
    (hf : fs.lookup (toPath src) = some (Node.file d))
    (hpz : pz d.content = some [e]) :
    process_file pz now src unz fs =
      (let tps := pyJoin unz (pyBasename e.name)
       let r1 := fs.makedirsS (pyDirname tps)
       if r1.2 then
         let r2 := r1.1.openWrite (toPath tps) ⟨e.data, now⟩
         if r2.2 then (r2.1, [LogEvent.extractedSingle])
         else (r2.1, [LogEvent.failedToProcess])
       else (r1.1, [LogEvent.failedToProcess])) := by
  have hex : fs.existsP (toPath src) = true := by simp [FS.existsP, hf]
  simp only [process_file, hex, hz, hf, hpz]
  simp

lemma process_file_zip_multi (pz : Bytes → Option (List ZipEntry)) (now : Nat)
    (src unz : PyStr) (fs : FS) (d : FileData) (ms : List ZipEntry)
    (hz : endsWithZip src = true)
    (hf : fs.lookup (toPath src) = some (Node.file d))
    (hpz : pz d.content = some ms)
    (hnot1 : ∀ e : ZipEntry, ms ≠ [e]) :
    process_file pz now src unz fs =
      (let tds := pyJoin unz (pySplitextStem (pyBasename src))
       let r1 := fs.makedirsS tds
       if r1.2 then
         let r2 := extractAll r1.1 (toPath tds) ms now
         if r2.2 then (r2.1, [LogEvent.extractedMulti])
         else (r2.1, [LogEvent.failedToProcess])
       else (r1.1, [LogEvent.failedToProcess])) := by
  have hex : fs.existsP (toPath src) = true := by simp [FS.existsP, hf]
  simp only [process_file, hex, hz, hf, hpz]
  cases ms with
  | nil => simp
  | cons m rest =>
    cases rest with
    | nil => exact absurd rfl (hnot1 m)
    | cons m2 r2 => simp

lemma process_file_nonzip_dir (pz : Bytes → Option (List ZipEntry)) (now : Nat)
    (src unz : PyStr) (fs : FS)
    (hz : endsWithZip src = false)
    (hd : fs.lookup (toPath src) = some Node.dir) :
    process_file pz now src unz fs =
      (let r := fs.copytreeRun (toPath src) (pyJoin unz (pyBasename src))
       if r.2 then (r.1, [LogEvent.copied])
       else (r.1, [LogEvent.failedToProcess])) := by
  have hex : fs.existsP (toPath src) = true := by simp [FS.existsP, hd]
  have hisdir : fs.isdir (toPath src) = true := by simp [FS.isdir, hd]
  simp only [process_file, hex, hz, hisdir]
  simp

lemma process_file_nonzip_file (pz : Bytes → Option (List ZipEntry))
    (now : Nat) (src unz : PyStr) (fs : FS) (d : FileData)
    (hz : endsWithZip src = false)
    (hf : fs.lookup (toPath src) = some (Node.file d)) :
    process_file pz now src unz fs =
      (let r := fs.copy2Run d (toPath src) (pyBasename src)
        (toPath (pyJoin unz (pyBasename src)))
       if r.2 then (r.1, [LogEvent.copied])
       else (r.1, [LogEvent.failedToProcess])) := by
  have hex : fs.existsP (toPath src) = true := by simp [FS.existsP, hf]
  have hisdir : fs.isdir (toPath src) = false := by simp [FS.isdir, hf]
  simp only [process_file, hex, hz, hisdir, hf]
  simp

/-! ### C3: archives with zero entries -/

/-- C3 counterexample: a valid archive with zero entries does produce output
under the destination root — the per-archive directory `destination/one/` is
created (empty), so "no file and no directory is created" fails; the run is
logged as an ordinary multi-entry extraction, not an error. -/
theorem empty_zip_creates_directory :
    (process_file pzEmpty 7 "/d/one.zip".data "/u".data fsA).1.lookup
      ["u".data, "one".data] = some Node.dir ∧
    (process_file pzEmpty 7 "/d/one.zip".data "/u".data fsA).2 =
      [LogEvent.extractedMulti] := by
  decide

/-- C3 (amended): a valid `.zip` archive with zero entries is handled by the
multi-entry branch: the (empty) directory `destination/<archive-stem>` is
created if absent, nothing else in the filesystem changes — in particular no
file is written — the run is logged at info level as a multi-entry
extraction, and no error is raised. -/
theorem empty_zip_makes_empty_dir (pz : Bytes → Option (List ZipEntry))
    (now : Nat) (src unz : PyStr) (fs : FS) (d : FileData)
    (hz : endsWithZip src = true)
    (hf : fs.lookup (toPath src) = some (Node.file d))
    (hpz : pz d.content = some [])
    (hu : unz ≠ [])
    (hdirs : fs.dirsOkB (toPath unz) = true)
    (hstem : cleanComp (pySplitextStem (pyBasename src)))
    (hnf : fs.lookup
        (toPath unz ++ [pySplitextStem (pyBasename src)]) = none ∨
      fs.lookup
        (toPath unz ++ [pySplitextStem (pyBasename src)]) = some Node.dir) :
    (process_file pz now src unz fs).2 = [LogEvent.extractedMulti] ∧
    LogEvent.extractedMulti.level = LogLevel.info ∧
    (process_file pz now src unz fs).1.lookup
      (toPath unz ++ [pySplitextStem (pyBasename src)]) = some Node.dir ∧
    ∀ q : FPath, q ≠ toPath unz ++ [pySplitextStem (pyBasename src)] →
      (process_file pz now src unz fs).1.lookup q = fs.lookup q := by
  have hdirs' : dirsOk fs (toPath unz) := dirsOk_of_dirsOkB fs _ hdirs
  have hsl : ∀ x ∈ pySplitextStem (pyBasename src), x ≠ '/' :=
    pySplitextStem_no_slash _ (pyBasename_no_slash src)
  have htds : toPath (pyJoin unz (pySplitextStem (pyBasename src))) =
      toPath unz ++ [pySplitextStem (pyBasename src)] :=
    toPath_pyJoin_clean unz _ hsl hstem
  have htdsne : pyJoin unz (pySplitextStem (pyBasename src)) ≠ [] :=
    pyJoin_ne_nil unz _ hu
  have hred := process_file_zip_multi pz now src unz fs d [] hz hf hpz
    (by intro e he; cases he)
  rw [hred]
  have hmk := makedirs_into fs (toPath unz)
    (pySplitextStem (pyBasename src)) hdirs'
  cases hnf with
  | inl hnone =>
    rw [hnone] at hmk
    have hmk' : fs.makedirsS (pyJoin unz (pySplitextStem (pyBasename src))) =
        (fs.set (toPath unz ++ [pySplitextStem (pyBasename src)]) Node.dir,
          true) := by
      rw [FS.makedirsS, if_neg htdsne, htds]
      exact hmk
    simp only [hmk', extractAll]
    have htpne : toPath unz ++ [pySplitextStem (pyBasename src)] ≠ [] := by
      simp
    refine ⟨rfl, rfl, ?_, ?_⟩
    · exact FS.lookup_set_self fs _ _ htpne
    · intro q hq
      exact FS.lookup_set_ne fs _ q _ hq
  | inr hdir =>
    rw [hdir] at hmk
    have hmk' : fs.makedirsS (pyJoin unz (pySplitextStem (pyBasename src))) =
        (fs, true) := by
      rw [FS.makedirsS, if_neg htdsne, htds]
      exact hmk
    simp only [hmk', extractAll]
    exact ⟨rfl, rfl, hdir, fun q _ => rfl⟩

/-- Witness for C3 (amended) at the concrete empty archive. -/
theorem empty_zip_makes_empty_dir_witness :
    (process_file pzEmpty 7 "/d/one.zip".data "/u".data fsA).2 =
      [LogEvent.extractedMulti] ∧
    (process_file pzEmpty 7 "/d/one.zip".data "/u".data fsA).1.lookup
      (toPath "/u".data ++
        [pySplitextStem (pyBasename "/d/one.zip".data)]) = some Node.dir :=
  ⟨(empty_zip_makes_empty_dir pzEmpty 7 "/d/one.zip".data "/u".data fsA
      ⟨[9], 5⟩ (by decide) (by decide) (by decide) (by decide) (by decide)
      (by decide) (by decide)).1,
   (empty_zip_makes_empty_dir pzEmpty 7 "/d/one.zip".data "/u".data fsA
      ⟨[9], 5⟩ (by decide) (by decide) (by decide) (by decide) (by decide)
      (by decide) (by decide)).2.2.1⟩

/-! ### C1: single-entry archives -/

lemma openWrite_ok (fs : FS) (p : FPath) (d : FileData) (hp : p ≠ [])
    (hnd : fs.lookup p ≠ some Node.dir)
    (hpar : fs.lookup p.dropLast = some Node.dir) :
    fs.openWrite p d = (fs.set p (Node.file d), true) := by
  rw [FS.openWrite, if_neg hp]
  cases hl : fs.lookup p with
  | none => rw [hpar]
  | some n =>
    cases n with
    | dir => exact absurd hl hnd
    | file d0 => rw [hpar]

/-- C1 counterexample: an archive whose entry list is exactly one entry,
the directory entry `data/`, makes `process_file` write no file at all —
the state comes back untouched with one error record — while the claim
demands exactly one file at `destination/<basename(entry)>`. -/
theorem single_entry_dir_counterexample :
    process_file pzDirEntry 7 "/d/one.zip".data "/u".data fsA =
      (fsA, [LogEvent.failedToProcess]) := by
  decide

/-- C1 (amended): for an archive with exactly one entry whose base name is a
nonempty plain file name (not empty as for a directory entry, nor `.` or
`..`), and a destination root whose path exists as a directory chain with no
directory already sitting at the target name, `process_file` writes exactly
one file, at `destination/<basename(entry)>` — the entry's internal subpath
is discarded — overwriting any file there, creating no per-archive
subdirectory and touching nothing else. -/
theorem single_entry_extracts_to_basename
    (pz : Bytes → Option (List ZipEntry)) (now : Nat) (src unz : PyStr)
    (fs : FS) (d : FileData) (e : ZipEntry)
    (hz : endsWithZip src = true)
    (hf : fs.lookup (toPath src) = some (Node.file d))
    (hpz : pz d.content = some [e])
    (hb : cleanComp (pyBasename e.name))
    (hu : unz ≠ [])
    (hdirs : fs.dirsOkB (toPath unz) = true)
    (htgt : fs.lookup (toPath unz ++ [pyBasename e.name]) ≠ some Node.dir) :
    process_file pz now src unz fs =
      (fs.set (toPath unz ++ [pyBasename e.name]) (Node.file ⟨e.data, now⟩),
        [LogEvent.extractedSingle]) ∧
    (process_file pz now src unz fs).1.lookup
      (toPath unz ++ [pyBasename e.name]) =
        some (Node.file ⟨e.data, now⟩) ∧
    ∀ q : FPath, q ≠ toPath unz ++ [pyBasename e.name] →
      (process_file pz now src unz fs).1.lookup q = fs.lookup q := by
  have hdirs' : dirsOk fs (toPath unz) := dirsOk_of_dirsOkB fs _ hdirs
  have hbs : ∀ x ∈ pyBasename e.name, x ≠ '/' := pyBasename_no_slash e.name
  have hjd := pyDirname_pyJoin unz (pyBasename e.name) hu hbs
  have hmk : fs.makedirsS (pyDirname (pyJoin unz (pyBasename e.name))) =
      (fs, true) := by
    apply makedirsS_noop fs _ hjd.2
    rw [hjd.1]
    exact hdirs'
  have htp : toPath (pyJoin unz (pyBasename e.name)) =
      toPath unz ++ [pyBasename e.name] :=
    toPath_pyJoin_clean unz _ hbs hb
  have htpne : toPath unz ++ [pyBasename e.name] ≠ [] := by simp
  have hpar : fs.lookup (toPath unz ++ [pyBasename e.name]).dropLast =
      some Node.dir := by
    rw [List.dropLast_concat]
    by_cases hD : toPath unz = []
    · rw [hD, FS.lookup_nil]
    · exact hdirs' (toPath unz) hD (List.prefix_refl _)
  have how : fs.openWrite (toPath (pyJoin unz (pyBasename e.name)))
      ⟨e.data, now⟩ =
      (fs.set (toPath unz ++ [pyBasename e.name]) (Node.file ⟨e.data, now⟩),
        true) := by
    rw [htp]
    exact openWrite_ok fs _ _ htpne htgt hpar
  have hred := process_file_zip_single pz now src unz fs d e hz hf hpz
  rw [hred]
  simp only [hmk, how, extractAll]
  refine ⟨by simp, ?_, ?_⟩
  · exact FS.lookup_set_self fs _ _ htpne
  · intro q hq
    exact FS.lookup_set_ne fs _ q _ hq

/-- Witness for C1 (amended): the single file member `sub/img.png` lands at
`/u/img.png`. -/
theorem single_entry_extracts_to_basename_witness :
    process_file pzSingle 7 "/d/one.zip".data "/u".data fsA =
      (fsA.set (toPath "/u".data ++ [pyBasename "sub/img.png".data])
        (Node.file ⟨[1, 2], 7⟩), [LogEvent.extractedSingle]) :=
  (single_entry_extracts_to_basename pzSingle 7 "/d/one.zip".data "/u".data
    fsA ⟨[9], 5⟩ ⟨"sub/img.png".data, [1, 2]⟩ (by decide) (by decide)
    (by decide) (by decide) (by decide) (by decide) (by decide)).1

lemma mem_of_lookup (fs : FS) (p : FPath) (n : Node)
    (hp : p ≠ []) (h : fs.lookup p = some n) : (p, n) ∈ fs.nodes := by
  rw [FS.lookup, if_neg hp] at h
  cases hfind : fs.nodes.find? (fun e => decide (e.1 = p)) with
  | none => rw [hfind] at h; cases h
  | some e =>
    rw [hfind] at h
    have hpred := List.find?_some hfind
    have hmem := List.mem_of_find?_eq_some hfind
    have he1 : e.1 = p := by simpa using hpred
    have he2 : e.2 = n := by simpa using h
    have : e = (p, n) := by
      cases e
      simp only at he1 he2
      rw [he1, he2]
    rw [← this]
    exact hmem

lemma find?_key_of_mem_nodup (l : List (FPath × Node)) (p : FPath) (n : Node)
    (hw : (l.map Prod.fst).Nodup) (hmem : (p, n) ∈ l) :
    l.find? (fun e => decide (e.1 = p)) = some (p, n) := by
  induction l with
  | nil => cases hmem
  | cons e t ih =>
    rw [List.map_cons, List.nodup_cons] at hw
    by_cases hep : e.1 = p
    · have he : e = (p, n) := by
        rcases List.mem_cons.mp hmem with h1 | h1
        · exact h1.symm
        · exfalso
          apply hw.1
          rw [hep]
          exact List.mem_map.mpr ⟨(p, n), h1, rfl⟩
      simp [List.find?_cons, hep, he]
    · have hd : decide (e.1 = p) = false := by simp [hep]
      rw [List.find?_cons, hd]
      show List.find? (fun e => decide (e.1 = p)) t = some (p, n)
      apply ih hw.2
      rcases List.mem_cons.mp hmem with h1 | h1
      · exfalso
        apply hep
        rw [← h1]
      · exact h1

lemma lookup_eq_of_mem (fs : FS) (p : FPath) (n : Node) (hw : fs.Wf)
    (hp : p ≠ []) (hmem : (p, n) ∈ fs.nodes) : fs.lookup p = some n := by
  rw [FS.lookup, if_neg hp, find?_key_of_mem_nodup fs.nodes p n hw hmem]
  rfl

lemma filterMap_sub_keys_nodup (sp : FPath) (l : List (FPath × Node))
    (h : (l.map Prod.fst).Nodup) :
    ((l.filterMap (fun e =>
      if sp.isPrefixOf e.1 ∧ e.1 ≠ sp then some (e.1.drop sp.length, e.2)
      else none)).map Prod.fst).Nodup := by
  induction l with
  | nil => simp
  | cons e t ih =>
    rw [List.map_cons, List.nodup_cons] at h
    rw [List.filterMap_cons]
    by_cases hc : sp.isPrefixOf e.1 ∧ e.1 ≠ sp
    · rw [if_pos hc]
      rw [List.map_cons, List.nodup_cons]
      constructor
      · intro hin
        rcases List.mem_map.mp hin with ⟨r, hrmem, hr1⟩
        rcases List.mem_filterMap.mp hrmem with ⟨e', he'mem, he'⟩
        by_cases hc' : sp.isPrefixOf e'.1 ∧ e'.1 ≠ sp
        · rw [if_pos hc'] at he'
          have he'r : e'.1.drop sp.length = r.1 := by
            have := congrArg Prod.fst (Option.some.injEq _ _ |>.mp he')
            simpa using this
          rcases List.isPrefixOf_iff_prefix.mp hc.1 with ⟨t1, ht1⟩
          rcases List.isPrefixOf_iff_prefix.mp hc'.1 with ⟨t2, ht2⟩
          have hd1 : e.1.drop sp.length = t1 := by
            rw [← ht1]
            simp
          have hd2 : e'.1.drop sp.length = t2 := by
            rw [← ht2]
            simp
          have heq : e.1 = e'.1 := by
            rw [← ht1, ← ht2]
            rw [hd1] at hr1
            rw [hd2] at he'r
            have hr1' : r.1 = t1 := hr1
            rw [he'r, hr1']
          exact h.1 (heq ▸ List.mem_map.mpr ⟨e', he'mem, rfl⟩)
        · rw [if_neg hc'] at he'
          cases he'
      · exact ih h.2
    · rw [if_neg hc]
      exact ih h.2

lemma subtreeEntries_keys_nodup (fs : FS) (sp : FPath) (h : fs.Wf) :
    ((fs.subtreeEntries sp).map Prod.fst).Nodup :=
  filterMap_sub_keys_nodup sp fs.nodes h

lemma subtreeEntries_rel_ne (fs : FS) (sp : FPath) :
    ∀ r ∈ fs.subtreeEntries sp, r.1 ≠ ([] : FPath) := by
  intro r hr
  rcases List.mem_filterMap.mp hr with ⟨e, _, he⟩
  by_cases hc : sp.isPrefixOf e.1 ∧ e.1 ≠ sp
  · rw [if_pos hc] at he
    rcases List.isPrefixOf_iff_prefix.mp hc.1 with ⟨t, ht⟩
    have hr1 : r.1 = t := by
      have := congrArg Prod.fst (Option.some.injEq _ _ |>.mp he)
      rw [← ht] at this
      simpa using this.symm
    rw [hr1]
    intro ht0
    apply hc.2
    rw [← ht, ht0, List.append_nil]
  · rw [if_neg hc] at he
    cases he

lemma mkAux_ok (rest : List PyStr) (fs : FS) (pre : FPath)
    (h : ∀ k : Nat, k < rest.length → ∀ d0 : FileData,
      fs.lookup (pre ++ rest.take (k + 1)) ≠ some (Node.file d0)) :
    (FS.mkAux fs pre rest).2 = true := by
  induction rest generalizing fs pre with
  | nil => rfl
  | cons c cs ih =>
    rw [mkAux_cons]
    cases hl : fs.lookup (pre ++ [c]) with
    | none =>
      apply ih
      intro k hk d0
      rw [FS.lookup_set_ne]
      · have := h (k + 1) (by simpa using Nat.succ_lt_succ hk) d0
        simpa [List.append_assoc] using this
      · intro he
        have h0 : List.take (k + 1) cs = [] :=
          List.append_cancel_left (he.trans (List.append_nil _).symm)
        have hlt := List.length_take (k + 1) cs
        rw [h0] at hlt
        simp at hlt
        omega
    | some n =>
      cases n with
      | dir =>
        apply ih
        intro k hk d0
        have := h (k + 1) (by simpa using Nat.succ_lt_succ hk) d0
        simpa [List.append_assoc] using this
      | file d0 =>
        exfalso
        exact h 0 (by simp) d0 (by simpa using hl)

lemma mkAux_sets_dirs (rest : List PyStr) (fs : FS) (pre : FPath)
    (hok : (FS.mkAux fs pre rest).2 = true) :
    ∀ k : Nat, k < rest.length →
      (FS.mkAux fs pre rest).1.lookup (pre ++ rest.take (k + 1)) =
        some Node.dir := by
  induction rest generalizing fs pre with
  | nil => intro k hk; simp at hk
  | cons c cs ih =>
    rw [mkAux_cons] at hok ⊢
    intro k hk
    cases hl : fs.lookup (pre ++ [c]) with
    | none =>
      rw [hl] at hok
      cases k with
      | zero =>
        simp only [List.take_succ_cons, List.take_zero]
        apply mkAux_preserve
        apply FS.lookup_set_self
        intro hce
        rw [hce, FS.lookup_nil] at hl
        cases hl
      | succ k0 =>
        have := ih (fs.set (pre ++ [c]) Node.dir) (pre ++ [c]) hok k0
          (by simpa using Nat.lt_of_succ_lt_succ hk)
        simpa [List.append_assoc] using this
    | some n =>
      cases n with
      | dir =>
        rw [hl] at hok
        cases k with
        | zero =>
          simp only [List.take_succ_cons, List.take_zero]
          exact mkAux_preserve cs fs (pre ++ [c]) _ Node.dir hl
        | succ k0 =>
          have := ih fs (pre ++ [c]) hok k0
            (by simpa using Nat.lt_of_succ_lt_succ hk)
          simpa [List.append_assoc] using this
      | file d0 =>
        rw [hl] at hok
        cases hok

lemma prefix_length_lt {α : Type} {a b : List α} (h : a <+: b) (hne : a ≠ b) :
    a.length < b.length := by
  rcases h with ⟨t, ht⟩
  subst ht
  cases t with
  | nil => simp at hne
  | cons x u => simp

/-- No strict interior position on the way to a file-member target can hold
a file. -/
lemma no_file_on_way (tp : FPath) (msAll : List ZipEntry) (s : FS)
    (hsan : SanOk msAll) (hinv : ExtractInv tp msAll s)
    (m : ZipEntry) (hm : m ∈ msAll)
    (q : FPath) (hq1 : q <+: tp ++ sanitizeName m.name)
    (hq2 : q ≠ tp ++ sanitizeName m.name) :
    ∀ d0 : FileData, s.lookup q ≠ some (Node.file d0) := by
  intro d0 hfile
  rcases hinv with ⟨htpne, hdirs, hkinds⟩
  by_cases hqtp : q <+: tp
  · by_cases hq0 : q = []
    · rw [hq0, FS.lookup_nil] at hfile
      cases hfile
    · rw [hdirs q hq0 hqtp] at hfile
      cases hfile
  · have hcmp := List.prefix_or_prefix_of_prefix
      (List.prefix_append tp (sanitizeName m.name)) hq1
    have htpq : tp <+: q := by
      rcases hcmp with h | h
      · exact h
      · exact absurd h hqtp
    have hqne : q ≠ tp := fun he => hqtp (he ▸ List.prefix_refl q)
    have hft := (hkinds q htpq hqne).2 d0 hfile
    rcases hft with ⟨mf, hmf, hmffile, hmfq⟩
    have hsanmf := hsan mf hmf hmffile
    have hmne : m ≠ mf := by
      intro he
      apply hq2
      rw [hmfq, he]
    apply hsanmf.2 m hm hmne
    -- san mf <+: san m
    rw [hmfq] at hq1
    rcases hq1 with ⟨t, ht⟩
    rw [List.append_assoc] at ht
    exact ⟨t, List.append_cancel_left ht⟩

lemma dir_on_way (tp : FPath) (msAll : List ZipEntry) (s : FS)
    (hsan : SanOk msAll) (hinv : ExtractInv tp msAll s)
    (m : ZipEntry) (hm : m ∈ msAll)
    (q : FPath) (hq1 : q <+: tp ++ sanitizeName m.name)
    (hq2 : q ≠ tp ++ sanitizeName m.name)
    (hex : s.existsP q = true) : s.lookup q = some Node.dir := by
  rcases (FS.existsP_iff s q).mp hex with ⟨n, hn⟩
  cases n with
  | dir => exact hn
  | file d0 =>
    exact absurd hn (no_file_on_way tp msAll s hsan hinv m hm q hq1 hq2 d0)

lemma take_ne_nil_of_lt {α : Type} (l : List α) (k : Nat) (hk : k < l.length) :
    l.take (k + 1) ≠ [] := by
  intro he
  have := List.length_take (k + 1) l
  rw [he] at this
  simp at this
  omega

lemma makedirs_way (tp : FPath) (msAll : List ZipEntry) (s : FS)
    (hsan : SanOk msAll) (hinv : ExtractInv tp msAll s)
    (m : ZipEntry) (hm : m ∈ msAll) (P : FPath)
    (htpP : tp <+: P) (hP1 : P <+: tp ++ sanitizeName m.name)
    (hP2 : P ≠ tp ++ sanitizeName m.name) (hPne : P ≠ []) :
    (s.makedirsP P).2 = true ∧
    (s.makedirsP P).1.lookup P = some Node.dir ∧
    (∀ q : FPath, (s.makedirsP P).1.lookup q = s.lookup q ∨
      ((s.makedirsP P).1.lookup q = some Node.dir ∧ s.lookup q = none ∧
        q <+: P ∧ tp <+: q ∧ q ≠ tp)) := by
  obtain ⟨htpne, hdirs, hkinds⟩ := hinv
  have hPlen : P.length < (tp ++ sanitizeName m.name).length :=
    prefix_length_lt hP1 hP2
  have hok : (s.makedirsP P).2 = true := by
    apply mkAux_ok
    intro k hk d0
    rw [List.nil_append]
    apply no_file_on_way tp msAll s hsan ⟨htpne, hdirs, hkinds⟩ m hm
    · exact (List.take_prefix _ _).trans hP1
    · intro he
      have := congrArg List.length he
      rw [List.length_take] at this
      omega
  refine ⟨hok, ?_, ?_⟩
  · have hlen1 : 1 ≤ P.length := by
      cases P with
      | nil => exact absurd rfl hPne
      | cons a t => simp
    have := mkAux_sets_dirs P s [] hok (P.length - 1) (by omega)
    rw [List.nil_append, show P.length - 1 + 1 = P.length from by omega,
      List.take_length] at this
    exact this
  · intro q
    by_cases hch : (s.makedirsP P).1.lookup q = s.lookup q
    · exact Or.inl hch
    · right
      have hex : ∃ k : Nat, k < P.length ∧ q = [] ++ P.take (k + 1) := by
        by_contra hnk
        push_neg at hnk
        exact hch (mkAux_frame P s [] q (fun k hk => hnk k hk))
      rcases hex with ⟨k, hk, hq⟩
      rw [List.nil_append] at hq
      have hqP : q <+: P := hq ▸ List.take_prefix _ _
      have hqne : q ≠ [] := hq ▸ take_ne_nil_of_lt P k hk
      rcases mkAux_changes P s [] q with hc | ⟨hc1, hc2⟩
      · exact absurd hc hch
      · have hqtp : tp <+: q := by
          rcases List.prefix_or_prefix_of_prefix hqP htpP with h | h
          · exfalso
            by_cases hqtp0 : q = tp
            · rw [hqtp0, hdirs tp htpne (List.prefix_refl tp)] at hc2
              cases hc2
            · rw [hdirs q hqne h] at hc2
              cases hc2
          · exact h
        have hqnetp : q ≠ tp := by
          intro he
          rw [he, hdirs tp htpne (List.prefix_refl tp)] at hc2
          cases hc2
        exact ⟨hc1, hc2, hqP, hqtp, hqnetp⟩

lemma not_fileTarget_on_way (tp : FPath) (msAll : List ZipEntry)
    (hsan : SanOk msAll) (m : ZipEntry) (hm : m ∈ msAll) (q : FPath)
    (hq1 : q <+: tp ++ sanitizeName m.name)
    (hq2 : q ≠ tp ++ sanitizeName m.name) :
    ¬ fileTarget tp msAll q := by
  rintro ⟨mf, hmf, hmffile, rfl⟩
  have hmne : m ≠ mf := by
    intro he
    exact hq2 (by rw [he])
  apply (hsan mf hmf hmffile).2 m hm hmne
  rcases hq1 with ⟨t, ht⟩
  rw [List.append_assoc] at ht
  exact ⟨t, List.append_cancel_left ht⟩

lemma extractMember_eq (fs : FS) (tp : FPath) (m : ZipEntry) (now : Nat) :
    fs.extractMember tp m now =
      (let tgt := tp ++ sanitizeName m.name
       let r1 := if tgt.dropLast ≠ [] ∧ ¬ fs.existsP tgt.dropLast
         then fs.makedirsP tgt.dropLast else (fs, true)
       if r1.2 then
         (if isDirMember m then
           (if r1.1.isdir tgt then (r1.1, true) else r1.1.mkdirOne tgt)
          else r1.1.openWrite tgt ⟨m.data, now⟩)
       else (r1.1, false)) := rfl

lemma extractMember_inv (tp : FPath) (now : Nat) (msAll : List ZipEntry)
    (hsan : SanOk msAll) (m : ZipEntry) (hm : m ∈ msAll) (s : FS)
    (hinv : ExtractInv tp msAll s) :
    (s.extractMember tp m now).2 = true ∧
    ((s.extractMember tp m now).1.lookup (tp ++ sanitizeName m.name) =
      (if isDirMember m then some Node.dir
       else some (Node.file ⟨m.data, now⟩))) ∧
    (∀ q : FPath, (s.extractMember tp m now).1.lookup q = s.lookup q ∨
      (tp <+: q ∧ q ≠ tp ∧ q <+: tp ++ sanitizeName m.name ∧
        (((s.extractMember tp m now).1.lookup q = some Node.dir ∧
            (q = tp ++ sanitizeName m.name → isDirMember m = true)) ∨
          (isDirMember m = false ∧ q = tp ++ sanitizeName m.name ∧
            (s.extractMember tp m now).1.lookup q =
              some (Node.file ⟨m.data, now⟩))))) ∧
    ExtractInv tp msAll (s.extractMember tp m now).1 := by
  obtain ⟨htpne, hdirs, hkinds⟩ := hinv
  by_cases hsn : sanitizeName m.name = []
  · -- empty sanitized path: only possible for a directory member; nothing
    -- changes because the target directory already exists
    have hdm : isDirMember m = true := by
      by_contra hdm
      have := (hsan m hm (by simpa using hdm)).1
      exact this hsn
    have htgt : tp ++ sanitizeName m.name = tp := by rw [hsn, List.append_nil]
    have hpar : (tp ++ sanitizeName m.name).dropLast = tp.dropLast := by
      rw [htgt]
    have hguard : ¬ ((tp ++ sanitizeName m.name).dropLast ≠ [] ∧
        ¬ s.existsP ((tp ++ sanitizeName m.name).dropLast) = true) := by
      rw [hpar]
      rintro ⟨h1, h2⟩
      apply h2
      have hpre : tp.dropLast <+: tp := List.dropLast_prefix tp
      rw [FS.existsP, hdirs tp.dropLast h1 hpre]
      rfl
    have hisdir : s.isdir (tp ++ sanitizeName m.name) = true := by
      rw [htgt, FS.isdir, hdirs tp htpne (List.prefix_refl tp)]
      rfl
    have hres : s.extractMember tp m now = (s, true) := by
      rw [extractMember_eq]
      simp only [hguard, if_false, hdm, if_true, hisdir]
    rw [hres]
    refine ⟨rfl, ?_, fun q => Or.inl rfl, htpne, hdirs, hkinds⟩
    rw [hdm, if_pos rfl, htgt]
    exact hdirs tp htpne (List.prefix_refl tp)
  · -- nonempty sanitized path
    have htgtne : tp ++ sanitizeName m.name ≠ [] := by
      intro he
      exact htpne (List.append_eq_nil.mp he).1
    have hparval : (tp ++ sanitizeName m.name).dropLast =
        tp ++ (sanitizeName m.name).dropLast :=
      List.dropLast_append_of_ne_nil tp hsn
    have hpartp : tp <+: (tp ++ sanitizeName m.name).dropLast := by
      rw [hparval]
      exact List.prefix_append _ _
    have hparpre : (tp ++ sanitizeName m.name).dropLast <+:
        tp ++ sanitizeName m.name := List.dropLast_prefix _
    have hparlt : ((tp ++ sanitizeName m.name).dropLast).length <
        (tp ++ sanitizeName m.name).length := by
      rw [List.length_dropLast]
      have : 0 < (tp ++ sanitizeName m.name).length := by
        cases he : tp ++ sanitizeName m.name with
        | nil => exact absurd he htgtne
        | cons a t => simp
      omega
    have hparne : (tp ++ sanitizeName m.name).dropLast ≠
        tp ++ sanitizeName m.name := by
      intro he
      rw [he] at hparlt
      omega
    have htgttp : tp ++ sanitizeName m.name ≠ tp := by
      intro he
      have := congrArg List.length he
      simp only [List.length_append] at this
      have hs1 : 1 ≤ (sanitizeName m.name).length := by
        cases hx : sanitizeName m.name with
        | nil => exact absurd hx hsn
        | cons a t => simp
      omega
    have hparne0 : (tp ++ sanitizeName m.name).dropLast ≠ [] := by
      intro he
      rcases hpartp with ⟨t, ht⟩
      rw [← ht] at he
      exact htpne (List.append_eq_nil.mp he).1
    -- stage one: the state after the conditional makedirs
    have hstage : ∃ fs1 : FS,
        (if (tp ++ sanitizeName m.name).dropLast ≠ [] ∧
            ¬ s.existsP ((tp ++ sanitizeName m.name).dropLast) = true
         then s.makedirsP ((tp ++ sanitizeName m.name).dropLast)
         else (s, true)) = (fs1, true) ∧
        fs1.lookup ((tp ++ sanitizeName m.name).dropLast) = some Node.dir ∧
        fs1.lookup (tp ++ sanitizeName m.name) =
          s.lookup (tp ++ sanitizeName m.name) ∧
        (∀ q : FPath, fs1.lookup q = s.lookup q ∨
          (fs1.lookup q = some Node.dir ∧ s.lookup q = none ∧
            q <+: (tp ++ sanitizeName m.name).dropLast ∧ tp <+: q ∧
            q ≠ tp)) ∧
        ExtractInv tp msAll fs1 := by
      by_cases hguard : (tp ++ sanitizeName m.name).dropLast ≠ [] ∧
          ¬ s.existsP ((tp ++ sanitizeName m.name).dropLast) = true
      · rcases makedirs_way tp msAll s hsan ⟨htpne, hdirs, hkinds⟩ m hm
          ((tp ++ sanitizeName m.name).dropLast) hpartp hparpre hparne
          hparne0 with ⟨hok, hpdir, hchg⟩
        refine ⟨(s.makedirsP ((tp ++ sanitizeName m.name).dropLast)).1,
          ?_, hpdir, ?_, ?_, ?_, ?_, ?_⟩
        · rw [if_pos hguard]
          exact Prod.ext rfl hok
        · rcases hchg (tp ++ sanitizeName m.name) with h | ⟨_, _, hpre, _, _⟩
          · exact h
          · exfalso
            have hne : tp ++ sanitizeName m.name ≠
                (tp ++ sanitizeName m.name).dropLast := by
              intro he
              rw [← he] at hparlt
              omega
            have := prefix_length_lt hpre hne
            omega
        · intro q
          rcases hchg q with h | ⟨h1, h2, h3, h4, h5⟩
          · exact Or.inl h
          · exact Or.inr ⟨h1, h2, h3, h4, h5⟩
        · exact htpne
        · intro q hq0 hqtp
          rcases hchg q with h | ⟨h1, h2, h3, h4, h5⟩
          · rw [h]
            exact hdirs q hq0 hqtp
          · exfalso
            rw [hdirs q hq0 hqtp] at h2
            cases h2
        · intro q hq1 hq2
          rcases hchg q with h | ⟨h1, h2, h3, h4, h5⟩
          · rw [h]
            exact hkinds q hq1 hq2
          · constructor
            · intro _
              exact not_fileTarget_on_way tp msAll hsan m hm q
                (h3.trans hparpre) (fun he => by
                  rw [he] at h3
                  have := prefix_length_lt h3 hparne.symm
                  omega)
            · intro d0 hfile
              rw [h1] at hfile
              cases hfile
      · refine ⟨s, by rw [if_neg hguard], ?_, rfl, fun q => Or.inl rfl,
          htpne, hdirs, hkinds⟩
        rw [not_and_or] at hguard
        rcases hguard with h | h
        · exact absurd hparne0 (by simpa using h)
        · have hex : s.existsP ((tp ++ sanitizeName m.name).dropLast) =
              true := not_not.mp h
          exact dir_on_way tp msAll s hsan ⟨htpne, hdirs, hkinds⟩ m hm _
            hparpre hparne hex
    rcases hstage with ⟨fs1, hr1, hpdir, htgt1, hchg1, hinv1⟩
    have hEM : s.extractMember tp m now =
        (if isDirMember m then
          (if fs1.isdir (tp ++ sanitizeName m.name) then (fs1, true)
           else fs1.mkdirOne (tp ++ sanitizeName m.name))
         else fs1.openWrite (tp ++ sanitizeName m.name) ⟨m.data, now⟩) := by
      rw [extractMember_eq]
      simp only [hr1]
      simp
    have htgtlen : ∀ q : FPath, q <+: tp →
        q ≠ tp ++ sanitizeName m.name := by
      intro q hq he
      have h1 := List.IsPrefix.length_le hq
      have h2 := congrArg List.length he
      rw [List.length_append] at h2
      have hs1 : 1 ≤ (sanitizeName m.name).length := by
        cases hx : sanitizeName m.name with
        | nil => exact absurd hx hsn
        | cons a t => simp
      omega
    have hchgne : ∀ q : FPath, q <+: (tp ++ sanitizeName m.name).dropLast →
        q ≠ tp ++ sanitizeName m.name := by
      intro q hq he
      have h1 := List.IsPrefix.length_le hq
      rw [he] at h1
      omega
    obtain ⟨htpne1, hdirs1, hkinds1⟩ := hinv1
    by_cases hdm : isDirMember m = true
    · -- directory member
      have hnotft : ¬ fileTarget tp msAll (tp ++ sanitizeName m.name) := by
        rintro ⟨mf, hmf, hmffile, hmfq⟩
        have hsanf : sanitizeName m.name = sanitizeName mf.name :=
          List.append_cancel_left hmfq
        have hmne : m ≠ mf := by
          intro he
          rw [← he, hdm] at hmffile
          cases hmffile
        exact (hsan mf hmf hmffile).2 m hm hmne (by rw [hsanf])
      cases hkind : s.lookup (tp ++ sanitizeName m.name) with
      | some n =>
        cases n with
        | file d0 =>
          exact absurd (hkinds _ (List.prefix_append _ _) htgttp |>.2 d0
            hkind) hnotft
        | dir =>
          have hisdir : fs1.isdir (tp ++ sanitizeName m.name) = true := by
            rw [FS.isdir, htgt1, hkind]
            rfl
          have hres : s.extractMember tp m now = (fs1, true) := by
            rw [hEM, if_pos hdm, if_pos hisdir]
          rw [hres]
          refine ⟨rfl, ?_, ?_, htpne1, hdirs1, hkinds1⟩
          · rw [if_pos hdm, htgt1, hkind]
          · intro q
            rcases hchg1 q with h | ⟨h1, h2, h3, h4, h5⟩
            · exact Or.inl h
            · exact Or.inr ⟨h4, h5, h3.trans hparpre,
                Or.inl ⟨h1, fun he => absurd he (hchgne q h3)⟩⟩
      | none =>
        have hisdir : fs1.isdir (tp ++ sanitizeName m.name) = false := by
          rw [FS.isdir, htgt1, hkind]
          rfl
        have hmk1 : fs1.mkdirOne (tp ++ sanitizeName m.name) =
            (fs1.set (tp ++ sanitizeName m.name) Node.dir, true) := by
          rw [FS.mkdirOne]
          have hexf : ¬ fs1.existsP (tp ++ sanitizeName m.name) = true := by
            rw [FS.existsP, htgt1, hkind]
            simp
          rw [if_neg hexf, hpdir]
        have hres : s.extractMember tp m now =
            (fs1.set (tp ++ sanitizeName m.name) Node.dir, true) := by
          rw [hEM, if_pos hdm, if_neg (by rw [hisdir]; simp), hmk1]
        rw [hres]
        refine ⟨rfl, ?_, ?_, htpne1, ?_, ?_⟩
        · rw [if_pos hdm, FS.lookup_set_self _ _ _ htgtne]
        · intro q
          by_cases hq : q = tp ++ sanitizeName m.name
          · subst hq
            exact Or.inr ⟨List.prefix_append _ _, htgttp,
              List.prefix_refl _,
              Or.inl ⟨FS.lookup_set_self _ _ _ htgtne, fun _ => hdm⟩⟩
          · rw [FS.lookup_set_ne _ _ _ _ hq]
            rcases hchg1 q with h | ⟨h1, h2, h3, h4, h5⟩
            · exact Or.inl h
            · exact Or.inr ⟨h4, h5, h3.trans hparpre,
                Or.inl ⟨h1, fun he => absurd he (hchgne q h3)⟩⟩
        · intro q hq0 hqtp
          rw [FS.lookup_set_ne _ _ _ _ (htgtlen q hqtp)]
          exact hdirs1 q hq0 hqtp
        · intro q hq1 hq2
          by_cases hq : q = tp ++ sanitizeName m.name
          · subst hq
            rw [FS.lookup_set_self _ _ _ htgtne]
            exact ⟨fun _ => hnotft, fun d0 hd0 => by cases hd0⟩
          · rw [FS.lookup_set_ne _ _ _ _ hq]
            exact hkinds1 q hq1 hq2
    · -- file member
      have hfm : isDirMember m = false := by simpa using hdm
      have hft : fileTarget tp msAll (tp ++ sanitizeName m.name) :=
        ⟨m, hm, hfm, rfl⟩
      have hnd : s.lookup (tp ++ sanitizeName m.name) ≠ some Node.dir :=
        fun hd => (hkinds _ (List.prefix_append _ _) htgttp).1 hd hft
      have how : fs1.openWrite (tp ++ sanitizeName m.name) ⟨m.data, now⟩ =
          (fs1.set (tp ++ sanitizeName m.name)
            (Node.file ⟨m.data, now⟩), true) := by
        apply openWrite_ok fs1 _ _ htgtne
        · rw [htgt1]
          exact hnd
        · exact hpdir
      have hres : s.extractMember tp m now =
          (fs1.set (tp ++ sanitizeName m.name)
            (Node.file ⟨m.data, now⟩), true) := by
        rw [hEM, if_neg (by rw [hfm]; simp), how]
      rw [hres]
      refine ⟨rfl, ?_, ?_, htpne1, ?_, ?_⟩
      · rw [if_neg (by rw [hfm]; simp), FS.lookup_set_self _ _ _ htgtne]
      · intro q
        by_cases hq : q = tp ++ sanitizeName m.name
        · subst hq
          exact Or.inr ⟨List.prefix_append _ _, htgttp, List.prefix_refl _,
            Or.inr ⟨hfm, rfl, FS.lookup_set_self _ _ _ htgtne⟩⟩
        · rw [FS.lookup_set_ne _ _ _ _ hq]
          rcases hchg1 q with h | ⟨h1, h2, h3, h4, h5⟩
          · exact Or.inl h
          · exact Or.inr ⟨h4, h5, h3.trans hparpre,
              Or.inl ⟨h1, fun he => absurd he (hchgne q h3)⟩⟩
      · intro q hq0 hqtp
        rw [FS.lookup_set_ne _ _ _ _ (htgtlen q hqtp)]
        exact hdirs1 q hq0 hqtp
      · intro q hq1 hq2
        by_cases hq : q = tp ++ sanitizeName m.name
        · subst hq
          rw [FS.lookup_set_self _ _ _ htgtne]
          constructor
          · intro hd
            simp at hd
          · intro d0 _
            exact hft
        · rw [FS.lookup_set_ne _ _ _ _ hq]
          exact hkinds1 q hq1 hq2

lemma extractAll_inv (tp : FPath) (now : Nat) (msAll : List ZipEntry)
    (hsan : SanOk msAll) :
    ∀ (ms : List ZipEntry) (s : FS), (∀ m ∈ ms, m ∈ msAll) →
      ExtractInv tp msAll s →
      (extractAll s tp ms now).2 = true ∧
      (∀ m ∈ ms, (extractAll s tp ms now).1.lookup
          (tp ++ sanitizeName m.name) =
        (if isDirMember m then some Node.dir
         else some (Node.file ⟨m.data, now⟩))) ∧
      (∀ q : FPath, (extractAll s tp ms now).1.lookup q = s.lookup q ∨
        (tp <+: q ∧ q ≠ tp ∧ ∃ m', m' ∈ ms ∧
          q <+: tp ++ sanitizeName m'.name ∧
          (((extractAll s tp ms now).1.lookup q = some Node.dir ∧
              (q = tp ++ sanitizeName m'.name → isDirMember m' = true)) ∨
            (isDirMember m' = false ∧ q = tp ++ sanitizeName m'.name ∧
              (extractAll s tp ms now).1.lookup q =
                some (Node.file ⟨m'.data, now⟩))))) ∧
      ExtractInv tp msAll (extractAll s tp ms now).1 := by
  intro ms
  induction ms with
  | nil =>
    intro s _ hinv
    exact ⟨rfl, fun m hm => absurd hm (List.not_mem_nil m),
      fun q => Or.inl rfl, hinv⟩
  | cons m rest ih =>
    intro s hsub hinv
    have hmAll : m ∈ msAll := hsub m (List.mem_cons_self m rest)
    rcases extractMember_inv tp now msAll hsan m hmAll s hinv with
      ⟨hok1, hval1, hchg1, hinv1⟩
    have hstep : extractAll s tp (m :: rest) now =
        extractAll (s.extractMember tp m now).1 tp rest now := by
      rw [extractAll, hok1]
      simp
    rcases ih (s.extractMember tp m now).1
      (fun m' hm' => hsub m' (List.mem_cons_of_mem m hm')) hinv1 with
      ⟨hok2, hvals2, hchg2, hinv2⟩
    rw [hstep]
    refine ⟨hok2, ?_, ?_, hinv2⟩
    · intro m0 hm0
      rcases List.mem_cons.mp hm0 with he | hm0r
      · subst he
        -- the head member's value survives the rest of the extraction
        rcases hchg2 (tp ++ sanitizeName m0.name) with h | h
        · rw [h, hval1]
        · rcases h with ⟨_, _, m2, hm2, hpre2, hcase2⟩
          have hm2All : m2 ∈ msAll :=
            hsub m2 (List.mem_cons_of_mem m0 hm2)
          rcases hcase2 with ⟨hdirval, himp⟩ | ⟨hfm2, heq2, hval2⟩
          · -- overwritten by a directory: only possible if m0 itself is a
            -- directory member, and then the value is unchanged
            by_cases hdm0 : isDirMember m0 = true
            · rw [hdirval, if_pos hdm0]
            · exfalso
              have hfm0 : isDirMember m0 = false := by simpa using hdm0
              by_cases hq2 : tp ++ sanitizeName m0.name =
                  tp ++ sanitizeName m2.name
              · have hdm2 : isDirMember m2 = true := himp hq2
                have hm02 : m0 ≠ m2 := by
                  intro he
                  rw [he, hdm2] at hfm0
                  cases hfm0
                exact (hsan m0 hmAll hfm0).2 m2 hm2All
                  (fun he => hm02 he.symm)
                  (by
                    have := List.append_cancel_left hq2
                    rw [this])
              · have hm02 : m0 ≠ m2 := by
                  intro he
                  exact hq2 (by rw [he])
                apply (hsan m0 hmAll hfm0).2 m2 hm2All
                  (fun he => hm02 he.symm)
                rcases hpre2 with ⟨t, ht⟩
                rw [List.append_assoc] at ht
                exact ⟨t, List.append_cancel_left ht⟩
          · -- overwritten by a file member with the same sanitized path:
            -- it must be the same member, writing the same value
            have hsaneq : sanitizeName m0.name = sanitizeName m2.name :=
              List.append_cancel_left heq2
            by_cases hm02 : m0 = m2
            · rw [hval2, hm02, hfm2]
              simp
            · exfalso
              by_cases hdm0 : isDirMember m0 = true
              · exact (hsan m2 hm2All hfm2).2 m0 hmAll hm02
                  (by rw [hsaneq])
              · have hfm0 : isDirMember m0 = false := by simpa using hdm0
                exact (hsan m0 hmAll hfm0).2 m2 hm2All
                  (fun he => hm02 he.symm) (by rw [hsaneq])
      · exact hvals2 m0 hm0r
    · intro q
      rcases hchg2 q with h2 | ⟨hq1, hq2, m2, hm2, hpre2, hcase2⟩
      · rw [h2]
        rcases hchg1 q with h1 | ⟨hq1, hq2, hpre1, hcase1⟩
        · exact Or.inl h1
        · refine Or.inr ⟨hq1, hq2, m, List.mem_cons_self m rest, hpre1, ?_⟩
          rcases hcase1 with ⟨ha, hb⟩ | ⟨ha, hb, hc⟩
          · exact Or.inl ⟨h2 ▸ ha, hb⟩
          · exact Or.inr ⟨ha, hb, h2 ▸ hc⟩
      · exact Or.inr ⟨hq1, hq2, m2, List.mem_cons_of_mem m hm2, hpre2,
          hcase2⟩

/-- C2 counterexample: the archive `/d/one.zip` has two entries, one of them
`../a.txt`.  Nothing appears at the entry's internal relative path below the
per-archive directory (textually `/u/one/../a.txt`, i.e. `/u/a.txt`): the
documented sanitization of `ZipFile.extract` drops the `..` component and
the bytes land at `/u/one/a.txt` instead. -/
theorem zip_slip_not_at_internal_path :
    (process_file pzSlip 7 "/d/one.zip".data "/u".data fsA).1.lookup
      (toPath (pyJoin (pyJoin "/u".data
        (pySplitextStem (pyBasename "/d/one.zip".data))) "../a.txt".data)) =
      none ∧
    (process_file pzSlip 7 "/d/one.zip".data "/u".data fsA).1.lookup
      ["u".data, "one".data, "a.txt".data] = some (Node.file ⟨[1], 7⟩) := by
  decide

/-- C2 (amended): a `.zip` archive with more than one entry is extracted
into the fresh directory `destination/<archive-stem>`; every entry lands at
its *sanitized* internal relative path below that directory — empty, `.`
and `..` components of the stored name are removed, exactly as
`ZipFile.extract` documents, so a clean name is preserved verbatim — file
entries becoming files with the entry's bytes (overwriting a file already
present there) and directory entries directories; paths outside the
per-archive directory are untouched.  Hypotheses: the destination root
chain exists, the sanitized member paths do not collide (no file member's
path is a prefix of another member's path), and below the target directory
the prior state has files only at file-member targets and directories
nowhere on a member's path. -/
theorem multi_entry_extracts_sanitized (pz : Bytes → Option (List ZipEntry))
    (now : Nat) (src unz : PyStr) (fs : FS) (d : FileData)
    (ms : List ZipEntry)
    (hz : endsWithZip src = true)
    (hf : fs.lookup (toPath src) = some (Node.file d))
    (hpz : pz d.content = some ms)
    (hlen : 1 < ms.length)
    (hu : unz ≠ [])
    (hdirs : fs.dirsOkB (toPath unz) = true)
    (hstem : cleanComp (pySplitextStem (pyBasename src)))
    (hsan : SanOk ms)
    (htp0 : fs.lookup
        (toPath unz ++ [pySplitextStem (pyBasename src)]) = none ∨
      fs.lookup
        (toPath unz ++ [pySplitextStem (pyBasename src)]) = some Node.dir)
    (hbelow : ∀ e ∈ fs.nodes,
      (toPath unz ++ [pySplitextStem (pyBasename src)]) <+: e.1 →
      e.1 ≠ toPath unz ++ [pySplitextStem (pyBasename src)] →
      (e.2 = Node.dir →
        ¬ fileTarget (toPath unz ++ [pySplitextStem (pyBasename src)]) ms
          e.1) ∧
      (e.2 ≠ Node.dir →
        fileTarget (toPath unz ++ [pySplitextStem (pyBasename src)]) ms
          e.1)) :
    (process_file pz now src unz fs).2 = [LogEvent.extractedMulti] ∧
    (process_file pz now src unz fs).1.lookup
      (toPath unz ++ [pySplitextStem (pyBasename src)]) = some Node.dir ∧
    (∀ m ∈ ms, (process_file pz now src unz fs).1.lookup
        ((toPath unz ++ [pySplitextStem (pyBasename src)]) ++
          sanitizeName m.name) =
      (if isDirMember m then some Node.dir
       else some (Node.file ⟨m.data, now⟩))) ∧
    (∀ q : FPath,
      ¬ (toPath unz ++ [pySplitextStem (pyBasename src)]) <+: q →
      (process_file pz now src unz fs).1.lookup q = fs.lookup q) := by
  have hdirs' : dirsOk fs (toPath unz) := dirsOk_of_dirsOkB fs _ hdirs
  have hsl : ∀ x ∈ pySplitextStem (pyBasename src), x ≠ '/' :=
    pySplitextStem_no_slash _ (pyBasename_no_slash src)
  have htds : toPath (pyJoin unz (pySplitextStem (pyBasename src))) =
      toPath unz ++ [pySplitextStem (pyBasename src)] :=
    toPath_pyJoin_clean unz _ hsl hstem
  have htdsne : pyJoin unz (pySplitextStem (pyBasename src)) ≠ [] :=
    pyJoin_ne_nil unz _ hu
  have htpne : toPath unz ++ [pySplitextStem (pyBasename src)] ≠ [] := by
    simp
  have hnot1 : ∀ e : ZipEntry, ms ≠ [e] := by
    intro e he
    rw [he] at hlen
    simp at hlen
  have hred := process_file_zip_multi pz now src unz fs d ms hz hf hpz hnot1
  have hmk := makedirs_into fs (toPath unz)
    (pySplitextStem (pyBasename src)) hdirs'
  -- the lookup-level kind facts below the target directory
  have hkindsfs : ∀ q : FPath,
      (toPath unz ++ [pySplitextStem (pyBasename src)]) <+: q →
      q ≠ toPath unz ++ [pySplitextStem (pyBasename src)] →
      ((fs.lookup q = some Node.dir →
        ¬ fileTarget (toPath unz ++ [pySplitextStem (pyBasename src)]) ms
          q) ∧
       (∀ d0 : FileData, fs.lookup q = some (Node.file d0) →
        fileTarget (toPath unz ++ [pySplitextStem (pyBasename src)]) ms
          q)) := by
    intro q hq1 hq2
    have hqne : q ≠ [] := by
      intro he
      rw [he] at hq1
      exact htpne (List.prefix_nil.mp hq1)
    constructor
    · intro hdir
      have hmem := mem_of_lookup fs q Node.dir hqne hdir
      exact (hbelow (q, Node.dir) hmem hq1 hq2).1 rfl
    · intro d0 hfile
      have hmem := mem_of_lookup fs q (Node.file d0) hqne hfile
      exact (hbelow (q, Node.file d0) hmem hq1 hq2).2 (by simp)
  rcases htp0 with hnone | hdir0
  · rw [hnone] at hmk
    have hmk' : fs.makedirsS (pyJoin unz (pySplitextStem (pyBasename src))) =
        (fs.set (toPath unz ++ [pySplitextStem (pyBasename src)]) Node.dir,
          true) := by
      rw [FS.makedirsS, if_neg htdsne, htds]
      exact hmk
    have hinv0 : ExtractInv
        (toPath unz ++ [pySplitextStem (pyBasename src)]) ms
        (fs.set (toPath unz ++ [pySplitextStem (pyBasename src)])
          Node.dir) := by
      refine ⟨htpne, ?_, ?_⟩
      · intro q hq0 hq
        by_cases hqe : q = toPath unz ++ [pySplitextStem (pyBasename src)]
        · rw [hqe, FS.lookup_set_self _ _ _ htpne]
        · rw [FS.lookup_set_ne _ _ _ _ hqe]
          rcases List.prefix_concat_iff.mp hq with h | h
          · exact absurd h hqe
          · exact hdirs' q hq0 h
      · intro q hq1 hq2
        rw [FS.lookup_set_ne _ _ _ _ hq2]
        exact hkindsfs q hq1 hq2
    rcases extractAll_inv (toPath unz ++ [pySplitextStem (pyBasename src)])
      now ms hsan ms
      (fs.set (toPath unz ++ [pySplitextStem (pyBasename src)]) Node.dir)
      (fun m hm => hm) hinv0 with
      ⟨hok, hvals, hchgs, hinvF⟩
    have hfinal : process_file pz now src unz fs =
        ((extractAll
          (fs.set (toPath unz ++ [pySplitextStem (pyBasename src)])
            Node.dir)
          (toPath unz ++ [pySplitextStem (pyBasename src)]) ms now).1,
          [LogEvent.extractedMulti]) := by
      rw [hred]
      simp only [hmk', htds, hok]
      simp
    rw [hfinal]
    refine ⟨rfl, ?_, hvals, ?_⟩
    · exact hinvF.2.1 _ htpne (List.prefix_refl _)
    · intro q hq
      have hqne : q ≠ toPath unz ++ [pySplitextStem (pyBasename src)] := by
        intro he
        exact hq (he ▸ List.prefix_refl q)
      rcases hchgs q with h | ⟨h1, _, _⟩
      · rw [h, FS.lookup_set_ne _ _ _ _ hqne]
      · exact absurd h1 hq
  · have hmk' : fs.makedirsS (pyJoin unz (pySplitextStem (pyBasename src))) =
        (fs, true) := by
      rw [FS.makedirsS, if_neg htdsne, htds, hmk, hdir0]
    have hinv0 : ExtractInv
        (toPath unz ++ [pySplitextStem (pyBasename src)]) ms fs := by
      refine ⟨htpne, ?_, hkindsfs⟩
      intro q hq0 hq
      rcases List.prefix_concat_iff.mp hq with h | h
      · rw [h]
        exact hdir0
      · exact hdirs' q hq0 h
    rcases extractAll_inv (toPath unz ++ [pySplitextStem (pyBasename src)])
      now ms hsan ms fs (fun m hm => hm) hinv0 with
      ⟨hok, hvals, hchgs, hinvF⟩
    have hfinal : process_file pz now src unz fs =
        ((extractAll fs
          (toPath unz ++ [pySplitextStem (pyBasename src)]) ms now).1,
          [LogEvent.extractedMulti]) := by
      rw [hred]
      simp only [hmk', htds, hok]
      simp
    rw [hfinal]
    refine ⟨rfl, ?_, hvals, ?_⟩
    · exact hinvF.2.1 _ htpne (List.prefix_refl _)
    · intro q hq
      rcases hchgs q with h | ⟨h1, _, _⟩
      · exact h
      · exact absurd h1 hq

/-- Witness for C2 (amended): in the spec's own example, `sub/b.txt` lands
at `destination/one/sub/b.txt`. -/
theorem multi_entry_extracts_sanitized_witness :
    (process_file pzTwo 7 "/d/one.zip".data "/u".data fsA).1.lookup
      ((toPath "/u".data ++
        [pySplitextStem (pyBasename "/d/one.zip".data)]) ++
        sanitizeName "sub/b.txt".data) = some (Node.file ⟨[2], 7⟩) :=
  ((multi_entry_extracts_sanitized pzTwo 7 "/d/one.zip".data "/u".data fsA
      ⟨[9], 5⟩ [⟨"a.txt".data, [1]⟩, ⟨"sub/b.txt".data, [2]⟩] (by decide)
      (by decide) (by decide) (by decide) (by decide) (by decide)
      (by decide) (by decide) (Or.inl (by decide)) (by decide)).2.2.1
    ⟨"sub/b.txt".data, [2]⟩ (by decide)).trans (by decide)

/-! ### C9: the source is never written -/

lemma getLastD_irrel {α : Type} (a : α) (l : List α) (d d' : α) :
    (a :: l).getLastD d = (a :: l).getLastD d' := by
  induction l generalizing a with
  | nil => rfl
  | cons b t ih => exact ih b

lemma pyBasename_cons (x : Char) (l : PyStr) :
    pyBasename (x :: l) =
      (if (splitSlash l).length = 1 ∧ x ≠ '/' then x :: pyBasename l
       else pyBasename l) := by
  cases h : splitSlash l with
  | nil => exact absurd h (splitSlash_ne_nil l)
  | cons g gs =>
    have hu : splitSlash (x :: l) =
        (if x = '/' then [] :: g :: gs else (x :: g) :: gs) := by
      have hm : splitSlash (x :: l) =
          (match splitSlash l with
           | [] => [[]]
           | g :: gs => if x = '/' then [] :: g :: gs else (x :: g) :: gs) :=
        rfl
      rw [hm, h]
    rw [pyBasename, hu]
    by_cases hx : x = '/'
    · rw [if_pos hx, if_neg (by simp [hx])]
      rw [pyBasename, h]
      rw [List.getLastD_cons]
    · rw [if_neg hx]
      cases gs with
      | nil =>
        rw [if_pos (by simp [hx])]
        rw [pyBasename, h]
        rfl
      | cons g2 gs2 =>
        rw [if_neg (by simp)]
        rw [pyBasename, h]
        simp only [List.getLastD_cons]

lemma splitSlash_length_concat (t : PyStr) (c : Char) (hc : c ≠ '/') :
    (splitSlash (t ++ [c])).length = (splitSlash t).length := by
  induction t with
  | nil =>
    have hu : splitSlash [c] =
        (match splitSlash ([] : PyStr) with
         | [] => [[]]
         | g :: gs => if c = '/' then [] :: g :: gs else (c :: g) :: gs) :=
      rfl
    rw [List.nil_append, hu]
    simp [splitSlash, hc]
  | cons x t ih =>
    have hu : ∀ l : PyStr, splitSlash (x :: l) =
        (match splitSlash l with
         | [] => [[]]
         | g :: gs => if x = '/' then [] :: g :: gs else (x :: g) :: gs) :=
      fun _ => rfl
    rw [List.cons_append, hu, hu]
    cases h1 : splitSlash (t ++ [c]) with
    | nil => exact absurd h1 (splitSlash_ne_nil _)
    | cons g gs =>
      cases h2 : splitSlash t with
      | nil => exact absurd h2 (splitSlash_ne_nil t)
      | cons g' gs' =>
        rw [h1, h2] at ih
        by_cases hx : x = '/' <;> simp [hx]
        · simpa using ih
        · simpa using ih

lemma pyBasename_concat (t : PyStr) (c : Char) (hc : c ≠ '/') :
    pyBasename (t ++ [c]) = pyBasename t ++ [c] := by
  induction t with
  | nil =>
    have hu : splitSlash [c] =
        (match splitSlash ([] : PyStr) with
         | [] => [[]]
         | g :: gs => if c = '/' then [] :: g :: gs else (c :: g) :: gs) :=
      rfl
    rw [List.nil_append, pyBasename, hu]
    simp [splitSlash, hc, pyBasename]
  | cons x t ih =>
    rw [List.cons_append, pyBasename_cons, pyBasename_cons,
      splitSlash_length_concat t c hc]
    by_cases hcond : (splitSlash t).length = 1 ∧ x ≠ '/'
    · rw [if_pos hcond, if_pos hcond, ih]
      rfl
    · rw [if_neg hcond, if_neg hcond, ih]

lemma pySplitextStem_cases_strong (b : PyStr) :
    pySplitextStem b = b ∨
      ∃ i, pySplitextStem b = b.take i ∧
        ¬ ((b.take i).all (fun c => decide (c = '.')) = true) := by
  rw [pySplitextStem]
  cases b.reverse.findIdx? (fun c => decide (c = '.')) with
  | none => exact Or.inl rfl
  | some j =>
    by_cases hall : ((b.take (b.length - 1 - j)).all
        fun c => decide (c = '.')) = true
    · exact Or.inl (if_pos hall)
    · exact Or.inr ⟨_, if_neg hall, hall⟩

lemma cleanComp_of_not_all_dots (l : PyStr)
    (h : ¬ (l.all (fun c => decide (c = '.')) = true)) : cleanComp l := by
  rw [List.all_eq_true] at h
  push_neg at h
  obtain ⟨x, hx, hxd⟩ := h
  have hx' : x ≠ '.' := by simpa using hxd
  refine ⟨?_, ?_, ?_⟩
  · intro he; rw [he] at hx; simp at hx
  · intro he; rw [he] at hx; simp at hx; exact hx' hx
  · intro he; rw [he] at hx; simp at hx; exact hx' hx

lemma endsWithZip_stem_clean (s : PyStr) (hz : endsWithZip s = true) :
    cleanComp (pySplitextStem (pyBasename s)) := by
  rw [endsWithZip, List.isSuffixOf_iff_suffix] at hz
  obtain ⟨u, hu⟩ := hz
  have hsne : s ≠ [] := by
    intro he
    rw [he] at hu
    simp at hu
  set c := s.getLast hsne with hcdef
  have hs : s.dropLast ++ [c] = s := List.dropLast_append_getLast hsne
  have hlow : Char.toLower c = 'p' := by
    have h1 : (s.map Char.toLower).getLast? = some 'p' := by
      rw [← hu]
      simp
    have h2 : (s.map Char.toLower).getLast? = some (Char.toLower c) := by
      rw [← hs]
      simp
    rw [h1] at h2
    exact (Option.some_inj.mp h2).symm
  have hcs : c ≠ '/' := by
    intro he
    rw [he] at hlow
    exact absurd hlow (by decide)
  have hcd : c ≠ '.' := by
    intro he
    rw [he] at hlow
    exact absurd hlow (by decide)
  have hb : pyBasename s = pyBasename s.dropLast ++ [c] := by
    rw [← hs, pyBasename_concat _ _ hcs]
    rw [hs]
  rcases pySplitextStem_cases_strong (pyBasename s) with hcas | ⟨i, hcas, hall⟩
  · rw [hcas, hb]
    have hgl : (pyBasename s.dropLast ++ [c]).getLast? = some c :=
      List.getLast?_concat _
    refine ⟨by simp, ?_, ?_⟩
    · intro he
      rw [he] at hgl
      simp at hgl
      exact hcd hgl.symm
    · intro he
      rw [he] at hgl
      simp at hgl
      exact hcd hgl.symm
  · rw [hcas]
    exact cleanComp_of_not_all_dots _ hall

lemma makedirsP_frame (fs : FS) (p : FPath) (q : FPath) (h : ¬ q <+: p) :
    (fs.makedirsP p).1.lookup q = fs.lookup q := by
  apply mkAux_frame
  intro k hk he
  apply h
  rw [he, List.nil_append]
  exact List.take_prefix (k + 1) p

lemma makedirsS_frame (fs : FS) (s : PyStr) (q : FPath)
    (h : ¬ q <+: toPath s) :
    (fs.makedirsS s).1.lookup q = fs.lookup q := by
  rw [FS.makedirsS]
  by_cases hs : s = []
  · rw [if_pos hs]
  · rw [if_neg hs]
    exact makedirsP_frame fs _ q h

lemma openWrite_frame (fs : FS) (p : FPath) (d : FileData) (q : FPath)
    (h : q ≠ p) : (fs.openWrite p d).1.lookup q = fs.lookup q := by
  rw [FS.openWrite]
  repeat' split
  all_goals first
  | rfl
  | exact FS.lookup_set_ne _ _ _ _ h

lemma mkdirOne_frame (fs : FS) (p q : FPath) (h : q ≠ p) :
    (fs.mkdirOne p).1.lookup q = fs.lookup q := by
  rw [FS.mkdirOne]
  repeat' split
  all_goals first
  | rfl
  | exact FS.lookup_set_ne _ _ _ _ h

lemma extractMember_frame (fs : FS) (tp : FPath) (m : ZipEntry) (now : Nat)
    (q : FPath) (h : ¬ q <+: tp ++ sanitizeName m.name) :
    (fs.extractMember tp m now).1.lookup q = fs.lookup q := by
  have hq : q ≠ tp ++ sanitizeName m.name := by
    intro he
    exact h (he ▸ List.prefix_rfl)
  have hpar : ¬ q <+: (tp ++ sanitizeName m.name).dropLast := by
    intro hp
    exact h (hp.trans (List.dropLast_prefix _))
  rw [extractMember_eq]
  by_cases h1 : (tp ++ sanitizeName m.name).dropLast ≠ [] ∧
      ¬ fs.existsP (tp ++ sanitizeName m.name).dropLast
  · simp only [if_pos h1]
    have hmd := makedirsP_frame fs (tp ++ sanitizeName m.name).dropLast q hpar
    by_cases h2 : (fs.makedirsP (tp ++ sanitizeName m.name).dropLast).2 = true
    · simp only [h2, if_pos]
      split
      · split
        · exact hmd
        · rw [mkdirOne_frame _ _ _ hq]
          exact hmd
      · rw [openWrite_frame _ _ _ _ hq]
        exact hmd
    · simp only [Bool.not_eq_true] at h2
      simp only [h2]
      exact hmd
  · simp only [if_neg h1]
    simp only [if_pos]
    split
    · split
      · rfl
      · exact mkdirOne_frame _ _ _ hq
    · exact openWrite_frame _ _ _ _ hq

lemma extractAll_frame (tp : FPath) (now : Nat) (ms : List ZipEntry) (fs : FS)
    (q : FPath) (h : ∀ m ∈ ms, ¬ q <+: tp ++ sanitizeName m.name) :
    (extractAll fs tp ms now).1.lookup q = fs.lookup q := by
  induction ms generalizing fs with
  | nil => rfl
  | cons m rest ih =>
    rw [extractAll]
    have hm := extractMember_frame fs tp m now q (h m (by simp))
    by_cases h2 : (fs.extractMember tp m now).2 = true
    · simp only [h2, if_pos]
      rw [ih _ (fun m' hm' => h m' (by simp [hm']))]
      exact hm
    · simp only [Bool.not_eq_true] at h2
      simp only [h2]
      simpa using hm

lemma copyTarget_extends_dst (sp dst : FPath) (s : FS) (ent : FPath × Node)
    (w : FPath) (h : copyTarget sp dst s ent = some w) : dst <+: w := by
  have hp1 : dst <+: dst ++ ent.1 := List.prefix_append _ _
  have hp2 : dst <+: dst ++ ent.1 ++ [ent.1.getLastD []] := by
    rw [List.append_assoc]
    exact List.prefix_append _ _
  rw [copyTarget] at h
  split at h
  · cases h
  · split at h
    · cases h
    · split at h
      · cases h
      · exact (Option.some.injEq _ _ |>.mp h) ▸ hp2
  · exact (Option.some.injEq _ _ |>.mp h) ▸ hp1
  · split at h
    · cases h
    · exact (Option.some.injEq _ _ |>.mp h) ▸ hp1

lemma foldl_copyNode_frame (sp dst : FPath) (ents : List (FPath × Node))
    (acc : FS × Bool) (q : FPath) (h : ¬ dst <+: q) :
    (ents.foldl (copyNode sp dst) acc).1.lookup q = acc.1.lookup q := by
  induction ents generalizing acc with
  | nil => rfl
  | cons r rest ih =>
    rw [List.foldl_cons]
    rw [ih _]
    rw [copyNode]
    cases hct : copyTarget sp dst acc.1 r with
    | none => rfl
    | some w =>
      refine FS.lookup_set_ne _ _ _ _ ?_
      intro he
      exact h (he ▸ copyTarget_extends_dst sp dst acc.1 r w hct)

lemma resolveStep_cases (acc : FPath) (b : PyStr) :
    resolveStep acc b = acc ++ [b] ∧ cleanComp b ∨
    resolveStep acc b = acc ∧ (b = [] ∨ b = ['.']) ∨
    resolveStep acc b = acc.dropLast ∧ b = ['.', '.'] := by
  rw [resolveStep]
  by_cases h1 : b = [] ∨ b = ['.']
  · exact Or.inr (Or.inl ⟨if_pos h1, h1⟩)
  · rw [if_neg h1]
    by_cases h2 : b = ['.', '.']
    · exact Or.inr (Or.inr ⟨if_pos h2, h2⟩)
    · push_neg at h1
      exact Or.inl ⟨if_neg h2, h1.1, h1.2, h2⟩

lemma ne_resolveStep_of_incomp (D : FPath) (b : PyStr) (q : FPath)
    (hqd : ¬ D <+: q) (hdq : ¬ q <+: D) : q ≠ resolveStep D b := by
  intro he
  rcases resolveStep_cases D b with ⟨h1, -⟩ | ⟨h1, -⟩ | ⟨h1, -⟩
  · rw [h1] at he
    subst he
    exact hqd (List.prefix_append D [b])
  · rw [h1] at he
    subst he
    exact hdq List.prefix_rfl
  · rw [h1] at he
    subst he
    exact hdq (List.dropLast_prefix D)

lemma not_prefix_of_ext (D q E : FPath) (hqd : ¬ D <+: q) (hdq : ¬ q <+: D)
    (hDE : D <+: E) : ¬ q <+: E := by
  intro hq
  rcases List.prefix_or_prefix_of_prefix hq hDE with h | h
  · exact hdq h
  · exact hqd h

lemma ne_resolveStep2 (D : FPath) (b : PyStr) (q : FPath)
    (hbn : b ≠ ['.', '.'])
    (hqd : ¬ D <+: q) (hdq : ¬ q <+: D) :
    q ≠ resolveStep (resolveStep D b) b := by
  rcases resolveStep_cases D b with ⟨h1, hc⟩ | ⟨h1, hc⟩ | ⟨h1, hc⟩
  · rw [h1, resolveStep_clean _ _ hc]
    intro he
    subst he
    exact hqd ((List.prefix_append D [b]).trans (List.prefix_append _ [b]))
  · rw [h1]
    exact ne_resolveStep_of_incomp D b q hqd hdq
  · exact absurd hc hbn

lemma copytreeRun_frame (fs : FS) (sp : FPath) (dstS : PyStr) (q : FPath)
    (hmk : ¬ q <+: toPath dstS)
    (hfold : ¬ toPath dstS <+: q) :
    (fs.copytreeRun sp dstS).1.lookup q = fs.lookup q := by
  simp only [FS.copytreeRun]
  split
  · rw [foldl_copyNode_frame _ _ _ _ _ hfold]
    exact makedirsS_frame fs dstS q hmk
  · exact makedirsS_frame fs dstS q hmk

lemma copy2Run_frame (fs : FS) (d : FileData) (sp : FPath) (srcBase : PyStr)
    (tp : FPath) (q : FPath) (h1 : q ≠ tp)
    (h2 : q ≠ resolveStep tp srcBase) :
    (fs.copy2Run d sp srcBase tp).1.lookup q = fs.lookup q := by
  simp only [FS.copy2Run]
  by_cases hd : fs.isdir tp = true
  · simp only [hd, if_true]
    split
    · rfl
    · exact openWrite_frame _ _ _ _ h2
  · rw [Bool.not_eq_true] at hd
    simp only [hd, Bool.false_eq_true, if_false]
    split
    · rfl
    · exact openWrite_frame _ _ _ _ h1

lemma process_file_frame (pz : Bytes → Option (List ZipEntry)) (now : Nat)
    (src unz : PyStr) (fs : FS) (q : FPath)
    (hbn : pyBasename src ≠ ['.', '.'])
    (hqd : ¬ toPath unz <+: q) (hdq : ¬ q <+: toPath unz) :
    (process_file pz now src unz fs).1.lookup q = fs.lookup q := by
  have hu : unz ≠ [] := by
    intro he
    apply hqd
    rw [he, toPath_nil]
    exact List.nil_prefix
  simp only [process_file]
  split
  · rfl
  split
  · next hz =>
    split
    · next d heq =>
      split
      · next e heq2 =>
        have hbs : ∀ x ∈ pyBasename e.name, x ≠ '/' :=
          pyBasename_no_slash e.name
        have hdirj := pyDirname_pyJoin unz (pyBasename e.name) hu hbs
        have hmk : ∀ s : FS,
            (s.makedirsS
              (pyDirname (pyJoin unz (pyBasename e.name)))).1.lookup q =
              s.lookup q := by
          intro s
          apply makedirsS_frame
          rw [hdirj.1]
          exact hdq
        have how : ∀ (s : FS) (dd : FileData),
            (s.openWrite (toPath (pyJoin unz (pyBasename e.name)))
              dd).1.lookup q = s.lookup q := by
          intro s dd
          apply openWrite_frame
          rw [toPath_pyJoin _ _ hbs]
          exact ne_resolveStep_of_incomp _ _ _ hqd hdq
        split
        · split
          · rw [how, hmk]
          · rw [how, hmk]
        · rw [hmk]
      · next ms hx1 hx2 =>
        have hclean := endsWithZip_stem_clean src hz
        have hbs : ∀ x ∈ pySplitextStem (pyBasename src), x ≠ '/' :=
          pySplitextStem_no_slash _ (pyBasename_no_slash src)
        have htds : toPath (pyJoin unz (pySplitextStem (pyBasename src))) =
            toPath unz ++ [pySplitextStem (pyBasename src)] :=
          toPath_pyJoin_clean _ _ hbs hclean
        have hmk : ∀ s : FS,
            (s.makedirsS
              (pyJoin unz (pySplitextStem (pyBasename src)))).1.lookup q =
              s.lookup q := by
          intro s
          apply makedirsS_frame
          rw [htds]
          exact not_prefix_of_ext _ _ _ hqd hdq (List.prefix_append _ _)
        have hex : ∀ s : FS,
            (extractAll s
              (toPath (pyJoin unz (pySplitextStem (pyBasename src))))
              ms now).1.lookup q = s.lookup q := by
          intro s
          apply extractAll_frame
          intro m hm
          rw [htds]
          exact not_prefix_of_ext _ _ _ hqd hdq
            ((List.prefix_append _ _).trans (List.prefix_append _ _))
        split
        · split
          · rw [hex, hmk]
          · rw [hex, hmk]
        · rw [hmk]
      · rfl
    · rfl
  · have hbs : ∀ x ∈ pyBasename src, x ≠ '/' := pyBasename_no_slash src
    have htp : toPath (pyJoin unz (pyBasename src)) =
        resolveStep (toPath unz) (pyBasename src) := toPath_pyJoin _ _ hbs
    split
    · have hct : (fs.copytreeRun (toPath src)
          (pyJoin unz (pyBasename src))).1.lookup q = fs.lookup q := by
        apply copytreeRun_frame
        · rw [htp]
          intro hpre
          rcases resolveStep_cases (toPath unz) (pyBasename src) with
            ⟨h1, hc⟩ | ⟨h1, hc⟩ | ⟨h1, hc⟩
          · rw [h1] at hpre
            exact not_prefix_of_ext _ _ _ hqd hdq
              (List.prefix_append _ _) hpre
          · rw [h1] at hpre
            exact hdq hpre
          · exact hbn hc
        · rw [htp]
          rcases resolveStep_cases (toPath unz) (pyBasename src) with
            ⟨h1, hc⟩ | ⟨h1, hc⟩ | ⟨h1, hc⟩
          · rw [h1]
            intro hpre
            exact hqd ((List.prefix_append _ _).trans hpre)
          · rw [h1]
            exact hqd
          · exact absurd hc hbn
      split
      · exact hct
      · exact hct
    · split
      · next d heq =>
        have hcp : (fs.copy2Run d (toPath src) (pyBasename src)
            (toPath (pyJoin unz (pyBasename src)))).1.lookup q =
            fs.lookup q := by
          apply copy2Run_frame
          · rw [htp]
            exact ne_resolveStep_of_incomp _ _ _ hqd hdq
          · rw [htp]
            exact ne_resolveStep2 _ _ _ hbn hqd hdq
        split
        · exact hcp
        · exact hcp
      · rfl

/-- C9 counterexample: when the source archive lies inside the destination
root and its single member carries the archive's own base name, extraction
overwrites the source file: its bytes after the call differ from before, so
`process_file` does mutate its source. -/
theorem source_overwritten_counterexample :
    fsNine.lookup ["u".data, "a.zip".data] = some (Node.file ⟨[9], 0⟩) ∧
    (process_file pzNine 7 ('/' :: "u/a.zip".data) ('/' :: "u".data)
        fsNine).1.lookup ["u".data, "a.zip".data] =
      some (Node.file ⟨[5], 7⟩) := by
  constructor
  · decide
  · decide

/-- C9 (amended): `process_file` never mutates its source provided the
resolved source path and destination root are not nested either way and the
source's base name is not `..`: every binding at or below the source path is
the same after the call as before. -/
theorem source_not_mutated (pz : Bytes → Option (List ZipEntry)) (now : Nat)
    (src unz : PyStr) (fs : FS)
    (hbn : pyBasename src ≠ ['.', '.'])
    (h1 : ¬ toPath unz <+: toPath src)
    (h2 : ¬ toPath src <+: toPath unz) :
    ∀ q, toPath src <+: q →
      (process_file pz now src unz fs).1.lookup q = fs.lookup q := by
  intro q hq
  apply process_file_frame pz now src unz fs q hbn
  · intro hDq
    rcases List.prefix_or_prefix_of_prefix hq hDq with h | h
    · exact h2 h
    · exact h1 h
  · intro hqD
    exact h2 (hq.trans hqD)

theorem source_not_mutated_witness :
    (process_file pzSingle 7 ('/' :: "d/one.zip".data) ('/' :: "u".data)
        fsA).1.lookup (toPath ('/' :: "d/one.zip".data)) =
      fsA.lookup (toPath ('/' :: "d/one.zip".data)) :=
  source_not_mutated pzSingle 7 ('/' :: "d/one.zip".data) ('/' :: "u".data)
    fsA (by decide) (by decide) (by decide)
    (toPath ('/' :: "d/one.zip".data)) (by decide)

lemma eqv_refl (s : FS) : FS.Eqv s s := fun _ => rfl

lemma eqv_trans {s t u : FS} (h1 : FS.Eqv s t) (h2 : FS.Eqv t u) :
    FS.Eqv s u := fun q => (h1 q).trans (h2 q)

lemma set_eqv {s t : FS} (h : FS.Eqv s t) (p : FPath) (n : Node) :
    FS.Eqv (s.set p n) (t.set p n) := by
  intro q
  by_cases hp : p = []
  · subst hp
    rw [FS.set, FS.set, if_pos rfl, if_pos rfl]
    exact h q
  · by_cases hq : q = p
    · subst hq
      rw [FS.lookup_set_self _ _ _ hp, FS.lookup_set_self _ _ _ hp]
    · rw [FS.lookup_set_ne _ _ _ _ hq, FS.lookup_set_ne _ _ _ _ hq]
      exact h q

lemma mkAux_eqv (rest : List PyStr) (pre : FPath) {s t : FS}
    (h : FS.Eqv s t) :
    FS.Eqv (FS.mkAux s pre rest).1 (FS.mkAux t pre rest).1 ∧
      (FS.mkAux s pre rest).2 = (FS.mkAux t pre rest).2 := by
  induction rest generalizing s t pre with
  | nil => exact ⟨h, rfl⟩
  | cons c cs ih =>
    rw [mkAux_cons, mkAux_cons, ← h (pre ++ [c])]
    cases hl : s.lookup (pre ++ [c]) with
    | none => exact ih _ (set_eqv h _ _)
    | some n =>
      cases n with
      | dir => exact ih _ h
      | file d => exact ⟨h, rfl⟩

lemma makedirsP_eqv {s t : FS} (h : FS.Eqv s t) (p : FPath) :
    FS.Eqv (s.makedirsP p).1 (t.makedirsP p).1 ∧
      (s.makedirsP p).2 = (t.makedirsP p).2 :=
  mkAux_eqv p [] h

lemma makedirsS_eqv {s t : FS} (h : FS.Eqv s t) (str : PyStr) :
    FS.Eqv (s.makedirsS str).1 (t.makedirsS str).1 ∧
      (s.makedirsS str).2 = (t.makedirsS str).2 := by
  rw [FS.makedirsS, FS.makedirsS]
  by_cases hs : str = []
  · rw [if_pos hs, if_pos hs]
    exact ⟨h, rfl⟩
  · rw [if_neg hs, if_neg hs]
    exact makedirsP_eqv h _

lemma openWrite_eqv {s t : FS} (h : FS.Eqv s t) (p : FPath) (d : FileData) :
    FS.Eqv (s.openWrite p d).1 (t.openWrite p d).1 ∧
      (s.openWrite p d).2 = (t.openWrite p d).2 := by
  rw [FS.openWrite, FS.openWrite, ← h p, ← h p.dropLast]
  by_cases hp : p = []
  · rw [if_pos hp, if_pos hp]
    exact ⟨h, rfl⟩
  · rw [if_neg hp, if_neg hp]
    cases hl : s.lookup p with
    | none =>
      cases hl2 : s.lookup p.dropLast with
      | none => exact ⟨h, rfl⟩
      | some n =>
        cases n with
        | dir => exact ⟨set_eqv h _ _, rfl⟩
        | file d2 => exact ⟨h, rfl⟩
    | some n =>
      cases n with
      | dir => exact ⟨h, rfl⟩
      | file d2 =>
        cases hl2 : s.lookup p.dropLast with
        | none => exact ⟨h, rfl⟩
        | some n2 =>
          cases n2 with
          | dir => exact ⟨set_eqv h _ _, rfl⟩
          | file d3 => exact ⟨h, rfl⟩

lemma mkdirOne_eqv {s t : FS} (h : FS.Eqv s t) (p : FPath) :
    FS.Eqv (s.mkdirOne p).1 (t.mkdirOne p).1 ∧
      (s.mkdirOne p).2 = (t.mkdirOne p).2 := by
  rw [FS.mkdirOne, FS.mkdirOne, FS.existsP, FS.existsP, ← h p, ← h p.dropLast]
  by_cases hp : (s.lookup p).isSome = true
  · rw [if_pos hp, if_pos hp]
    exact ⟨h, rfl⟩
  · rw [if_neg hp, if_neg hp]
    cases hl2 : s.lookup p.dropLast with
    | none => exact ⟨h, rfl⟩
    | some n =>
      cases n with
      | dir => exact ⟨set_eqv h _ _, rfl⟩
      | file d2 => exact ⟨h, rfl⟩

lemma extractMember_eqv {s t : FS} (h : FS.Eqv s t) (tp : FPath)
    (m : ZipEntry) (now : Nat) :
    FS.Eqv (s.extractMember tp m now).1 (t.extractMember tp m now).1 ∧
      (s.extractMember tp m now).2 = (t.extractMember tp m now).2 := by
  rw [extractMember_eq, extractMember_eq]
  have hex : t.existsP (tp ++ sanitizeName m.name).dropLast =
      s.existsP (tp ++ sanitizeName m.name).dropLast := by
    rw [FS.existsP, FS.existsP, h]
  simp only [hex]
  by_cases hc : (tp ++ sanitizeName m.name).dropLast ≠ [] ∧
      ¬ s.existsP (tp ++ sanitizeName m.name).dropLast = true
  · simp only [if_pos hc]
    obtain ⟨hmk, hflag⟩ := makedirsP_eqv h (tp ++ sanitizeName m.name).dropLast
    rw [← hflag]
    by_cases hb : (s.makedirsP (tp ++ sanitizeName m.name).dropLast).2 = true
    · simp only [hb, if_pos]
      have hdir : (t.makedirsP (tp ++ sanitizeName m.name).dropLast).1.isdir
          (tp ++ sanitizeName m.name) =
          (s.makedirsP (tp ++ sanitizeName m.name).dropLast).1.isdir
          (tp ++ sanitizeName m.name) := by
        rw [FS.isdir, FS.isdir, hmk]
      split
      · rw [hdir]
        by_cases hd : (s.makedirsP (tp ++ sanitizeName m.name).dropLast).1.isdir
            (tp ++ sanitizeName m.name) = true
        · simp only [hd, if_pos]
          exact ⟨hmk, trivial⟩
        · simp only [Bool.not_eq_true] at hd
          simp only [hd]
          simp only [Bool.false_eq_true, if_false]
          exact mkdirOne_eqv hmk _
      · exact openWrite_eqv hmk _ _
    · simp only [Bool.not_eq_true] at hb
      simp only [hb]
      simp only [Bool.false_eq_true, if_false]
      exact ⟨hmk, trivial⟩
  · simp only [if_neg hc]
    simp only [if_pos]
    split
    · have hdir : t.isdir (tp ++ sanitizeName m.name) =
          s.isdir (tp ++ sanitizeName m.name) := by
        rw [FS.isdir, FS.isdir, h]
      rw [hdir]
      by_cases hd : s.isdir (tp ++ sanitizeName m.name) = true
      · simp only [hd, if_pos]
        exact ⟨h, trivial⟩
      · simp only [Bool.not_eq_true] at hd
        simp only [hd]
        simp only [Bool.false_eq_true, if_false]
        exact mkdirOne_eqv h _
    · exact openWrite_eqv h _ _

lemma extractAll_eqv (tp : FPath) (now : Nat) (ms : List ZipEntry)
    {s t : FS} (h : FS.Eqv s t) :
    FS.Eqv (extractAll s tp ms now).1 (extractAll t tp ms now).1 ∧
      (extractAll s tp ms now).2 = (extractAll t tp ms now).2 := by
  induction ms generalizing s t with
  | nil => exact ⟨h, rfl⟩
  | cons m rest ih =>
    rw [extractAll, extractAll]
    obtain ⟨hm, hflag⟩ := extractMember_eqv h tp m now
    rw [← hflag]
    by_cases hb : (s.extractMember tp m now).2 = true
    · simp only [hb, if_pos]
      exact ih hm
    · simp only [Bool.not_eq_true] at hb
      simp only [hb]
      simp only [Bool.false_eq_true, if_false]
      exact ⟨hm, trivial⟩

lemma kindLE_trans {f g h : FS} (h1 : KindLE f g) (h2 : KindLE g h) :
    KindLE f h := by
  intro q
  refine ⟨fun hd => (h2 q).1 ((h1 q).1 hd), fun d hf => ?_⟩
  rcases (h1 q).2 d hf with ⟨d', hd'⟩
  exact (h2 q).2 d' hd'

lemma mkAux_kindLE (rest : List PyStr) (fs : FS) (pre : FPath) :
    KindLE fs (FS.mkAux fs pre rest).1 := by
  intro q
  rcases mkAux_changes rest fs pre q with h | ⟨h1, h2⟩
  · exact ⟨fun hd => by rw [h, hd], fun d hf => ⟨d, by rw [h, hf]⟩⟩
  · constructor
    · intro hd
      rw [hd] at h2
      cases h2
    · intro d hf
      rw [hf] at h2
      cases h2

lemma makedirsS_kindLE (fs : FS) (s : PyStr) :
    KindLE fs (fs.makedirsS s).1 := by
  rw [FS.makedirsS]
  by_cases hs : s = []
  · rw [if_pos hs]
    exact kindLE_refl fs
  · rw [if_neg hs]
    exact mkAux_kindLE _ fs []

lemma openWrite_eq_cases (fs : FS) (p : FPath) (d : FileData) :
    fs.openWrite p d = (fs, false) ∨
      (p ≠ [] ∧ fs.lookup p ≠ some Node.dir ∧
        fs.lookup p.dropLast = some Node.dir ∧
        fs.openWrite p d = (fs.set p (Node.file d), true)) := by
  rw [FS.openWrite]
  by_cases hp : p = []
  · rw [if_pos hp]
    exact Or.inl rfl
  · rw [if_neg hp]
    cases hl : fs.lookup p with
    | none =>
      cases hl2 : fs.lookup p.dropLast with
      | none => exact Or.inl rfl
      | some n =>
        cases n with
        | dir => exact Or.inr ⟨hp, by simp, rfl, rfl⟩
        | file d2 => exact Or.inl rfl
    | some n =>
      cases n with
      | dir => exact Or.inl rfl
      | file d2 =>
        cases hl2 : fs.lookup p.dropLast with
        | none => exact Or.inl rfl
        | some n2 =>
          cases n2 with
          | dir => exact Or.inr ⟨hp, by simp, rfl, rfl⟩
          | file d3 => exact Or.inl rfl

lemma mkdirOne_eq_cases (fs : FS) (p : FPath) :
    fs.mkdirOne p = (fs, false) ∨
      (p ≠ [] ∧ fs.lookup p = none ∧
        fs.mkdirOne p = (fs.set p Node.dir, true)) := by
  rw [FS.mkdirOne]
  by_cases hp : fs.existsP p = true
  · rw [if_pos hp]
    exact Or.inl rfl
  · rw [if_neg hp]
    have hnone : fs.lookup p = none := by
      rw [FS.existsP] at hp
      cases hlq : fs.lookup p
      · rfl
      · rw [hlq] at hp
        simp at hp
    have hpne : p ≠ [] := by
      intro he
      rw [he, FS.lookup_nil] at hnone
      cases hnone
    cases hl2 : fs.lookup p.dropLast with
    | none => exact Or.inl rfl
    | some n =>
      cases n with
      | dir => exact Or.inr ⟨hpne, hnone, rfl⟩
      | file d2 => exact Or.inl rfl

lemma set_kindLE_of_not_dir (fs : FS) (p : FPath) (d : FileData)
    (h : fs.lookup p ≠ some Node.dir) :
    KindLE fs (fs.set p (Node.file d)) := by
  intro q
  by_cases hp : p = []
  · rw [FS.set, if_pos hp]
    exact ⟨fun hd => hd, fun d2 hf => ⟨d2, hf⟩⟩
  · by_cases hq : q = p
    · subst hq
      rw [FS.lookup_set_self _ _ _ hp]
      exact ⟨fun hd => absurd hd h, fun d2 _ => ⟨d, rfl⟩⟩
    · rw [FS.lookup_set_ne _ _ _ _ hq]
      exact ⟨fun hd => hd, fun d2 hf => ⟨d2, hf⟩⟩

lemma set_kindLE_of_none (fs : FS) (p : FPath) (n : Node)
    (h : fs.lookup p = none) :
    KindLE fs (fs.set p n) := by
  intro q
  by_cases hp : p = []
  · rw [FS.set, if_pos hp]
    exact ⟨fun hd => hd, fun d2 hf => ⟨d2, hf⟩⟩
  · by_cases hq : q = p
    · subst hq
      exact ⟨fun hd => absurd hd (by rw [h]; intro hx; cases hx),
        fun d2 hf => absurd hf (by rw [h]; intro hx; cases hx)⟩
    · rw [FS.lookup_set_ne _ _ _ _ hq]
      exact ⟨fun hd => hd, fun d2 hf => ⟨d2, hf⟩⟩

lemma openWrite_kindLE (fs : FS) (p : FPath) (d : FileData) :
    KindLE fs (fs.openWrite p d).1 := by
  rcases openWrite_eq_cases fs p d with h | ⟨hp, hnd, _, h⟩
  · rw [h]
    exact kindLE_refl fs
  · rw [h]
    exact set_kindLE_of_not_dir fs p d hnd

lemma mkdirOne_kindLE (fs : FS) (p : FPath) :
    KindLE fs (fs.mkdirOne p).1 := by
  rcases mkdirOne_eq_cases fs p with h | ⟨hp, hnone, h⟩
  · rw [h]
    exact kindLE_refl fs
  · rw [h]
    exact set_kindLE_of_none fs p Node.dir hnone

lemma extractMember_kindLE (fs : FS) (tp : FPath) (m : ZipEntry) (now : Nat) :
    KindLE fs (fs.extractMember tp m now).1 := by
  rw [extractMember_eq]
  by_cases hc : (tp ++ sanitizeName m.name).dropLast ≠ [] ∧
      ¬ fs.existsP (tp ++ sanitizeName m.name).dropLast = true
  · simp only [if_pos hc]
    have h1 : KindLE fs
        (fs.makedirsP (tp ++ sanitizeName m.name).dropLast).1 :=
      mkAux_kindLE _ fs []
    split
    · split
      · split
        · exact h1
        · exact kindLE_trans h1 (mkdirOne_kindLE _ _)
      · exact kindLE_trans h1 (openWrite_kindLE _ _ _)
    · exact h1
  · simp only [if_neg hc]
    simp only [if_pos]
    split
    · split
      · exact kindLE_refl fs
      · exact mkdirOne_kindLE _ _
    · exact openWrite_kindLE _ _ _

lemma extractAll_kindLE (tp : FPath) (now : Nat) (ms : List ZipEntry)
    (fs : FS) : KindLE fs (extractAll fs tp ms now).1 := by
  induction ms generalizing fs with
  | nil => exact kindLE_refl fs
  | cons m rest ih =>
    rw [extractAll]
    by_cases hb : (fs.extractMember tp m now).2 = true
    · simp only [hb, if_pos]
      exact kindLE_trans (extractMember_kindLE fs tp m now) (ih _)
    · simp only [Bool.not_eq_true] at hb
      simp only [hb]
      simp only [Bool.false_eq_true, if_false]
      exact extractMember_kindLE fs tp m now

lemma copyTarget_kind (sp dst : FPath) (s : FS) (ent : FPath × Node)
    (w : FPath) (h : copyTarget sp dst s ent = some w) :
    s.lookup w = none ∨
    (∃ d, s.lookup w = some (Node.file d) ∧ ∃ d', ent.2 = Node.file d') ∨
    (s.lookup w = some Node.dir ∧ ent.2 = Node.dir) := by
  obtain ⟨rel, n⟩ := ent
  cases hl : s.lookup (dst ++ rel) with
  | none =>
    cases n with
    | dir =>
      simp only [copyTarget, hl] at h
      cases h
      exact Or.inl hl
    | file d =>
      simp only [copyTarget, hl] at h
      split at h
      · cases h
      · cases h
        exact Or.inl hl
  | some n0 =>
    cases n0 with
    | dir =>
      cases n with
      | dir =>
        simp only [copyTarget, hl] at h
        cases h
        exact Or.inr (Or.inr ⟨hl, rfl⟩)
      | file d =>
        simp only [copyTarget, hl] at h
        split at h
        · cases h
        · cases hl2 : s.lookup (dst ++ rel ++ [rel.getLastD []]) with
          | none =>
            rw [hl2] at h
            simp only [] at h
            cases h
            exact Or.inl hl2
          | some n2 =>
            rw [hl2] at h
            cases n2 with
            | dir =>
              simp only [] at h
              cases h
            | file d2 =>
              simp only [] at h
              cases h
              exact Or.inr (Or.inl ⟨d2, hl2, d, rfl⟩)
    | file d0 =>
      cases n with
      | dir =>
        simp only [copyTarget, hl] at h
        cases h
      | file d =>
        simp only [copyTarget, hl] at h
        split at h
        · cases h
        · cases h
          exact Or.inr (Or.inl ⟨d0, hl, d, rfl⟩)

lemma copyNode_eq_cases (sp dst : FPath) (acc : FS × Bool)
    (ent : FPath × Node) :
    copyNode sp dst acc ent = (acc.1, false) ∨
      (∃ w, copyTarget sp dst acc.1 ent = some w ∧
       copyNode sp dst acc ent = (acc.1.set w ent.2, acc.2)) := by
  rw [copyNode]
  cases hct : copyTarget sp dst acc.1 ent with
  | none => exact Or.inl rfl
  | some w => exact Or.inr ⟨w, rfl, rfl⟩

lemma copyNode_kindLE (sp dst : FPath) (acc : FS × Bool)
    (ent : FPath × Node) :
    KindLE acc.1 (copyNode sp dst acc ent).1 := by
  rcases copyNode_eq_cases sp dst acc ent with h | ⟨w, hct, h⟩
  · rw [h]
    exact kindLE_refl _
  · rw [h]
    rcases copyTarget_kind sp dst acc.1 ent w hct with
      hn | ⟨d, hf, d', hn⟩ | ⟨hd, hn⟩
    · exact set_kindLE_of_none _ _ _ hn
    · rw [hn]
      apply set_kindLE_of_not_dir
      rw [hf]
      intro hx
      cases hx
    · rw [hn]
      intro q
      by_cases hp : w = []
      · rw [FS.set, if_pos hp]
        exact ⟨fun h2 => h2, fun d2 hf2 => ⟨d2, hf2⟩⟩
      · by_cases hq : q = w
        · subst hq
          rw [FS.lookup_set_self _ _ _ hp]
          exact ⟨fun _ => rfl, fun d2 hf2 => absurd hf2 (by rw [hd]; intro hx; cases hx)⟩
        · rw [FS.lookup_set_ne _ _ _ _ hq]
          exact ⟨fun h2 => h2, fun d2 hf2 => ⟨d2, hf2⟩⟩

lemma foldCN_kindLE (sp dst : FPath) (ents : List (FPath × Node))
    (acc : FS × Bool) :
    KindLE acc.1 (ents.foldl (copyNode sp dst) acc).1 := by
  induction ents generalizing acc with
  | nil => exact kindLE_refl _
  | cons e rest ih =>
    rw [List.foldl_cons]
    exact kindLE_trans (copyNode_kindLE sp dst acc e) (ih _)

lemma makedirsS_stable (fs f' : FS) (s : PyStr) (ok : Bool)
    (hrun : fs.makedirsS s = (f', ok)) (g : FS) (hle : KindLE f' g) :
    g.makedirsS s = (g, ok) := by
  rw [FS.makedirsS] at hrun ⊢
  by_cases hs : s = []
  · rw [if_pos hs] at hrun ⊢
    cases hrun
    rfl
  · rw [if_neg hs] at hrun ⊢
    exact mkAux_stable _ _ _ _ _ hrun g hle

lemma set_set_self (fs : FS) (p : FPath) (n n' : Node) :
    (fs.set p n).set p n' = fs.set p n' := by
  by_cases hp : p = []
  · simp only [FS.set, if_pos hp]
  · simp only [FS.set, if_neg hp]
    congr 1
    rw [List.filter_cons]
    simp [List.filter_filter]

lemma mkAux_fail_end (rest : List PyStr) (fs : FS) (pre : FPath)
    (hfail : (FS.mkAux fs pre rest).2 = false) :
    (FS.mkAux fs pre rest).1.lookup (pre ++ rest) =
      fs.lookup (pre ++ rest) := by
  induction rest generalizing fs pre with
  | nil =>
    rw [FS.mkAux] at hfail
    cases hfail
  | cons c cs ih =>
    rw [mkAux_cons] at hfail ⊢
    cases hl : fs.lookup (pre ++ [c]) with
    | none =>
      rw [hl] at hfail
      have hcs : cs ≠ [] := by
        intro he
        rw [he, FS.mkAux] at hfail
        cases hfail
      have := ih (fs.set (pre ++ [c]) Node.dir) (pre ++ [c]) hfail
      rw [List.append_assoc, List.singleton_append] at this
      rw [this]
      apply FS.lookup_set_ne
      intro he
      have : pre.length + (c :: cs).length = pre.length + 1 := by
        have h2 := congrArg List.length he
        simpa using h2
      simp at this
      exact hcs this
    | some n =>
      cases n with
      | dir =>
        rw [hl] at hfail
        have := ih fs (pre ++ [c]) hfail
        rw [List.append_assoc, List.singleton_append] at this
        rw [this]
      | file d => rfl

lemma extractMember_persist (fs : FS) (tp : FPath) (m : ZipEntry) (now : Nat)
    (q : FPath) (n : Node) (hq : q ≠ tp ++ sanitizeName m.name)
    (h : fs.lookup q = some n) :
    (fs.extractMember tp m now).1.lookup q = some n := by
  rw [extractMember_eq]
  by_cases hc : (tp ++ sanitizeName m.name).dropLast ≠ [] ∧
      ¬ fs.existsP (tp ++ sanitizeName m.name).dropLast = true
  · simp only [if_pos hc]
    have h1 : (fs.makedirsP (tp ++ sanitizeName m.name).dropLast).1.lookup q =
        some n := mkAux_preserve _ _ _ _ _ h
    split
    · split
      · split
        · exact h1
        · rw [mkdirOne_frame _ _ _ hq]
          exact h1
      · rw [openWrite_frame _ _ _ _ hq]
        exact h1
    · exact h1
  · simp only [if_neg hc]
    simp only [if_pos]
    split
    · split
      · exact h
      · rw [mkdirOne_frame _ _ _ hq]
        exact h
    · rw [openWrite_frame _ _ _ _ hq]
      exact h

lemma extractAll_persist (tp : FPath) (now : Nat) (ms : List ZipEntry)
    (fs : FS) (q : FPath) (n : Node)
    (hq : ∀ m ∈ ms, q ≠ tp ++ sanitizeName m.name)
    (h : fs.lookup q = some n) :
    (extractAll fs tp ms now).1.lookup q = some n := by
  induction ms generalizing fs with
  | nil => exact h
  | cons m rest ih =>
    rw [extractAll]
    have hm := extractMember_persist fs tp m now q n (hq m (by simp)) h
    by_cases hb : (fs.extractMember tp m now).2 = true
    · simp only [hb, if_pos]
      exact ih _ (fun m' hm' => hq m' (by simp [hm'])) hm
    · simp only [Bool.not_eq_true] at hb
      simp only [hb]
      simpa using hm

lemma extractMember_noop_file (t : FS) (tp : FPath) (m : ZipEntry)
    (now : Nat) (hm : isDirMember m = false)
    (hv : t.lookup (tp ++ sanitizeName m.name) =
      some (Node.file ⟨m.data, now⟩))
    (hpar : t.lookup (tp ++ sanitizeName m.name).dropLast = some Node.dir) :
    (t.extractMember tp m now).2 = true ∧
      FS.Eqv (t.extractMember tp m now).1 t := by
  have hex : t.existsP (tp ++ sanitizeName m.name).dropLast = true := by
    rw [FS.existsP, hpar]
    rfl
  have htne : tp ++ sanitizeName m.name ≠ [] := by
    intro he
    rw [he, FS.lookup_nil] at hv
    cases hv
  have how : t.openWrite (tp ++ sanitizeName m.name) ⟨m.data, now⟩ =
      (t.set (tp ++ sanitizeName m.name) (Node.file ⟨m.data, now⟩), true) := by
    rw [FS.openWrite, if_neg htne, hv, hpar]
  have hcond : (if (tp ++ sanitizeName m.name).dropLast ≠ [] ∧
      ¬ t.existsP (tp ++ sanitizeName m.name).dropLast = true then
        t.makedirsP (tp ++ sanitizeName m.name).dropLast
      else (t, true)) = (t, true) := by
    apply if_neg
    simp [hex]
  have hres : t.extractMember tp m now =
      (t.set (tp ++ sanitizeName m.name) (Node.file ⟨m.data, now⟩), true) := by
    rw [extractMember_eq]
    simp only [hcond]
    simp only [if_true]
    rw [hm]
    simp only [Bool.false_eq_true, if_false]
    exact how
  rw [hres]
  refine ⟨rfl, ?_⟩
  intro q
  by_cases hq : q = tp ++ sanitizeName m.name
  · subst hq
    rw [FS.lookup_set_self _ _ _ htne, hv]
  · rw [FS.lookup_set_ne _ _ _ _ hq]

lemma extractMember_noop_dir (t : FS) (tp : FPath) (m : ZipEntry)
    (now : Nat) (hm : isDirMember m = true)
    (hv : t.lookup (tp ++ sanitizeName m.name) = some Node.dir)
    (hpar : (tp ++ sanitizeName m.name).dropLast ≠ [] →
      t.existsP (tp ++ sanitizeName m.name).dropLast = true) :
    (t.extractMember tp m now).2 = true ∧
      FS.Eqv (t.extractMember tp m now).1 t := by
  have hd : t.isdir (tp ++ sanitizeName m.name) = true := by
    rw [FS.isdir, hv]
    simp
  have hcond : (if (tp ++ sanitizeName m.name).dropLast ≠ [] ∧
      ¬ t.existsP (tp ++ sanitizeName m.name).dropLast = true then
        t.makedirsP (tp ++ sanitizeName m.name).dropLast
      else (t, true)) = (t, true) := by
    apply if_neg
    intro hcon
    exact absurd (hpar hcon.1) hcon.2
  have hres : t.extractMember tp m now = (t, true) := by
    rw [extractMember_eq]
    simp only [hcond]
    simp only [if_true]
    rw [hm]
    rw [if_pos rfl]
    rw [hd]
    rw [if_pos rfl]
  rw [hres]
  exact ⟨rfl, eqv_refl t⟩

lemma extractMember_skip_eq (s : FS) (tp : FPath) (m : ZipEntry) (now : Nat)
    (hex : s.existsP (tp ++ sanitizeName m.name).dropLast = true ∨
      (tp ++ sanitizeName m.name).dropLast = []) :
    s.extractMember tp m now =
      (if isDirMember m = true then
        (if s.isdir (tp ++ sanitizeName m.name) = true then (s, true)
         else s.mkdirOne (tp ++ sanitizeName m.name))
       else s.openWrite (tp ++ sanitizeName m.name) ⟨m.data, now⟩) := by
  have hcond : (if (tp ++ sanitizeName m.name).dropLast ≠ [] ∧
      ¬ s.existsP (tp ++ sanitizeName m.name).dropLast = true then
        s.makedirsP (tp ++ sanitizeName m.name).dropLast
      else (s, true)) = (s, true) := by
    apply if_neg
    intro hcon
    rcases hex with hex | hex
    · exact hcon.2 hex
    · exact hcon.1 hex
  rw [extractMember_eq]
  simp only [hcond]
  simp only [if_true]

lemma extractMember_mkdirs_eq (s : FS) (tp : FPath) (m : ZipEntry) (now : Nat)
    (hc : (tp ++ sanitizeName m.name).dropLast ≠ [] ∧
      ¬ s.existsP (tp ++ sanitizeName m.name).dropLast = true) :
    s.extractMember tp m now =
      (if (s.makedirsP (tp ++ sanitizeName m.name).dropLast).2 = true then
        (if isDirMember m = true then
          (if (s.makedirsP (tp ++ sanitizeName m.name).dropLast).1.isdir
              (tp ++ sanitizeName m.name) = true then
            ((s.makedirsP (tp ++ sanitizeName m.name).dropLast).1, true)
           else (s.makedirsP (tp ++ sanitizeName m.name).dropLast).1.mkdirOne
              (tp ++ sanitizeName m.name))
         else (s.makedirsP (tp ++ sanitizeName m.name).dropLast).1.openWrite
            (tp ++ sanitizeName m.name) ⟨m.data, now⟩)
       else ((s.makedirsP (tp ++ sanitizeName m.name).dropLast).1, false)) := by
  rw [extractMember_eq]
  simp only [if_pos hc]

lemma extractMember_fail_stable (s : FS) (tp : FPath) (m : ZipEntry)
    (now : Nat) (hfail : (s.extractMember tp m now).2 = false) :
    (s.extractMember tp m now).1.extractMember tp m now =
      ((s.extractMember tp m now).1, false) := by
  by_cases hc : (tp ++ sanitizeName m.name).dropLast ≠ [] ∧
      ¬ s.existsP (tp ++ sanitizeName m.name).dropLast = true
  · by_cases hok : (s.makedirsP (tp ++ sanitizeName m.name).dropLast).2 = true
    · -- makedirs succeeded, the write itself failed
      have hdirp : (s.makedirsP (tp ++ sanitizeName m.name).dropLast).1.lookup
          (tp ++ sanitizeName m.name).dropLast = some Node.dir := by
        have hlen : 0 < (tp ++ sanitizeName m.name).dropLast.length := by
          cases hpl : (tp ++ sanitizeName m.name).dropLast with
          | nil => exact absurd hpl hc.1
          | cons a t => simp
        have hk := mkAux_sets_dirs (tp ++ sanitizeName m.name).dropLast s []
          hok ((tp ++ sanitizeName m.name).dropLast.length - 1)
          (by omega)
        rw [List.nil_append] at hk
        rw [List.take_of_length_le (by omega)] at hk
        exact hk
      have hexg : (s.makedirsP
          (tp ++ sanitizeName m.name).dropLast).1.existsP
          (tp ++ sanitizeName m.name).dropLast = true := by
        rw [FS.existsP, hdirp]
        rfl
      have hr1 : s.extractMember tp m now =
          (if isDirMember m = true then
            (if (s.makedirsP (tp ++ sanitizeName m.name).dropLast).1.isdir
                (tp ++ sanitizeName m.name) = true then
              ((s.makedirsP (tp ++ sanitizeName m.name).dropLast).1, true)
             else (s.makedirsP (tp ++ sanitizeName m.name).dropLast).1.mkdirOne
                (tp ++ sanitizeName m.name))
           else (s.makedirsP (tp ++ sanitizeName m.name).dropLast).1.openWrite
              (tp ++ sanitizeName m.name) ⟨m.data, now⟩) := by
        rw [extractMember_mkdirs_eq s tp m now hc, if_pos hok]
      cases hdm : isDirMember m with
      | true =>
        cases hisd : (s.makedirsP
            (tp ++ sanitizeName m.name).dropLast).1.isdir
            (tp ++ sanitizeName m.name) with
        | true =>
          exfalso
          rw [hr1, if_pos hdm, if_pos hisd] at hfail
          cases hfail
        | false =>
          have hif : (if (s.makedirsP
              (tp ++ sanitizeName m.name).dropLast).1.isdir
              (tp ++ sanitizeName m.name) = true then
                ((s.makedirsP (tp ++ sanitizeName m.name).dropLast).1, true)
              else (s.makedirsP
                (tp ++ sanitizeName m.name).dropLast).1.mkdirOne
                (tp ++ sanitizeName m.name)) =
              (s.makedirsP (tp ++ sanitizeName m.name).dropLast).1.mkdirOne
                (tp ++ sanitizeName m.name) := by
            rw [hisd]
            simp
          rcases mkdirOne_eq_cases
              (s.makedirsP (tp ++ sanitizeName m.name).dropLast).1
              (tp ++ sanitizeName m.name) with hmo | ⟨_, _, hmo⟩
          · have hres : s.extractMember tp m now =
                ((s.makedirsP (tp ++ sanitizeName m.name).dropLast).1,
                  false) := by
              rw [hr1, if_pos hdm, hif, hmo]
            rw [hres]
            rw [extractMember_skip_eq _ tp m now (Or.inl hexg), if_pos hdm,
              hif, hmo]
          · exfalso
            rw [hr1, if_pos hdm, hif, hmo] at hfail
            cases hfail
      | false =>
        have hif2 : (if isDirMember m = true then
            (if (s.makedirsP (tp ++ sanitizeName m.name).dropLast).1.isdir
                (tp ++ sanitizeName m.name) = true then
              ((s.makedirsP (tp ++ sanitizeName m.name).dropLast).1, true)
             else (s.makedirsP (tp ++ sanitizeName m.name).dropLast).1.mkdirOne
                (tp ++ sanitizeName m.name))
           else (s.makedirsP (tp ++ sanitizeName m.name).dropLast).1.openWrite
              (tp ++ sanitizeName m.name) ⟨m.data, now⟩) =
            (s.makedirsP (tp ++ sanitizeName m.name).dropLast).1.openWrite
              (tp ++ sanitizeName m.name) ⟨m.data, now⟩ := by
          rw [hdm]
          simp
        rcases openWrite_eq_cases
            (s.makedirsP (tp ++ sanitizeName m.name).dropLast).1
            (tp ++ sanitizeName m.name) ⟨m.data, now⟩ with how | ⟨_, _, _, how⟩
        · have hres : s.extractMember tp m now =
              ((s.makedirsP (tp ++ sanitizeName m.name).dropLast).1,
                false) := by
            rw [hr1, hif2, how]
          rw [hres]
          rw [extractMember_skip_eq _ tp m now (Or.inl hexg), hif2, how]
        · exfalso
          rw [hr1, hif2, how] at hfail
          cases hfail
    · -- makedirs itself failed
      have hr1 : s.extractMember tp m now =
          ((s.makedirsP (tp ++ sanitizeName m.name).dropLast).1, false) := by
        rw [extractMember_mkdirs_eq s tp m now hc,
          if_neg (by rw [Bool.not_eq_true] at hok; rw [hok]; simp)]
      rw [hr1]
      have h1 : (s.makedirsP (tp ++ sanitizeName m.name).dropLast).1.lookup
          (tp ++ sanitizeName m.name).dropLast =
          s.lookup (tp ++ sanitizeName m.name).dropLast := by
        have h0 := mkAux_fail_end (tp ++ sanitizeName m.name).dropLast s []
          (by rw [Bool.not_eq_true] at hok; exact hok)
        rw [List.nil_append] at h0
        exact h0
      have hparg : (s.makedirsP (tp ++ sanitizeName m.name).dropLast).1.lookup
          (tp ++ sanitizeName m.name).dropLast = none := by
        rw [h1]
        rw [FS.existsP] at hc
        cases hlq : s.lookup (tp ++ sanitizeName m.name).dropLast
        · rfl
        · rw [hlq] at hc
          simp at hc
      have hcg : ((tp ++ sanitizeName m.name).dropLast ≠ [] ∧
          ¬ (s.makedirsP (tp ++ sanitizeName m.name).dropLast).1.existsP
            (tp ++ sanitizeName m.name).dropLast = true) := by
        refine ⟨hc.1, ?_⟩
        rw [FS.existsP, hparg]
        simp
      rw [extractMember_mkdirs_eq _ tp m now hcg]
      have hmkP : FS.mkAux s []
          (tp ++ sanitizeName m.name).dropLast =
          ((s.makedirsP (tp ++ sanitizeName m.name).dropLast).1, false) := by
        rw [Bool.not_eq_true] at hok
        exact Prod.ext rfl hok
      have hst' : (s.makedirsP (tp ++ sanitizeName m.name).dropLast).1.makedirsP
          (tp ++ sanitizeName m.name).dropLast =
          ((s.makedirsP (tp ++ sanitizeName m.name).dropLast).1, false) :=
        mkAux_stable (tp ++ sanitizeName m.name).dropLast s
          (s.makedirsP (tp ++ sanitizeName m.name).dropLast).1 [] false hmkP
          (s.makedirsP (tp ++ sanitizeName m.name).dropLast).1
          (kindLE_refl _)
      rw [hst']
      simp
  · -- no makedirs needed: the state never changed
    have hskip : s.existsP (tp ++ sanitizeName m.name).dropLast = true ∨
        (tp ++ sanitizeName m.name).dropLast = [] := by
      by_cases h1 : (tp ++ sanitizeName m.name).dropLast = []
      · exact Or.inr h1
      · left
        by_cases h2 : s.existsP (tp ++ sanitizeName m.name).dropLast = true
        · exact h2
        · exact absurd ⟨h1, h2⟩ hc
    have hr1 := extractMember_skip_eq s tp m now hskip
    have hres : s.extractMember tp m now = (s, false) := by
      cases hdm : isDirMember m with
      | true =>
        cases hisd : s.isdir (tp ++ sanitizeName m.name) with
        | true =>
          exfalso
          rw [hr1, if_pos hdm, if_pos hisd] at hfail
          cases hfail
        | false =>
          have hif : (if s.isdir (tp ++ sanitizeName m.name) = true
              then (s, true)
              else s.mkdirOne (tp ++ sanitizeName m.name)) =
              s.mkdirOne (tp ++ sanitizeName m.name) := by
            rw [hisd]
            simp
          rcases mkdirOne_eq_cases s (tp ++ sanitizeName m.name) with
            hmo | ⟨_, _, hmo⟩
          · rw [hr1, if_pos hdm, hif, hmo]
          · exfalso
            rw [hr1, if_pos hdm, hif, hmo] at hfail
            cases hfail
      | false =>
        have hif2 : (if isDirMember m = true then
            (if s.isdir (tp ++ sanitizeName m.name) = true then (s, true)
             else s.mkdirOne (tp ++ sanitizeName m.name))
           else s.openWrite (tp ++ sanitizeName m.name) ⟨m.data, now⟩) =
            s.openWrite (tp ++ sanitizeName m.name) ⟨m.data, now⟩ := by
          rw [hdm]
          simp
        rcases openWrite_eq_cases s (tp ++ sanitizeName m.name)
            ⟨m.data, now⟩ with how | ⟨_, _, _, how⟩
        · rw [hr1, hif2, how]
        · exfalso
          rw [hr1, hif2, how] at hfail
          cases hfail
    rw [hres]
    exact hres

lemma kindLE_existsP {f g : FS} (h : KindLE f g) (q : FPath)
    (hq : f.existsP q = true) : g.existsP q = true := by
  rw [FS.existsP] at hq ⊢
  cases hl : f.lookup q with
  | none =>
    rw [hl] at hq
    simp at hq
  | some n =>
    cases n with
    | dir =>
      rw [(h q).1 hl]
      rfl
    | file d =>
      rcases (h q).2 d hl with ⟨d', hd'⟩
      rw [hd']
      rfl

lemma dropLast_ne_self {α : Type} (l : List α) (hl : l ≠ []) :
    l.dropLast ≠ l := by
  intro he
  have h1 : l.dropLast.length = l.length - 1 := List.length_dropLast l
  have h2 : 0 < l.length := List.length_pos.mpr hl
  rw [he] at h1
  omega

lemma extractMember_success_file (s : FS) (tp : FPath) (m : ZipEntry)
    (now : Nat) (hm : isDirMember m = false)
    (hok : (s.extractMember tp m now).2 = true) :
    (s.extractMember tp m now).1.lookup (tp ++ sanitizeName m.name) =
      some (Node.file ⟨m.data, now⟩) ∧
    (s.extractMember tp m now).1.lookup
      (tp ++ sanitizeName m.name).dropLast = some Node.dir := by
  by_cases hc : (tp ++ sanitizeName m.name).dropLast ≠ [] ∧
      ¬ s.existsP (tp ++ sanitizeName m.name).dropLast = true
  · by_cases hmk : (s.makedirsP (tp ++ sanitizeName m.name).dropLast).2 = true
    · have hif2 : (if isDirMember m = true then
          (if (s.makedirsP (tp ++ sanitizeName m.name).dropLast).1.isdir
              (tp ++ sanitizeName m.name) = true then
            ((s.makedirsP (tp ++ sanitizeName m.name).dropLast).1, true)
           else (s.makedirsP (tp ++ sanitizeName m.name).dropLast).1.mkdirOne
              (tp ++ sanitizeName m.name))
         else (s.makedirsP (tp ++ sanitizeName m.name).dropLast).1.openWrite
            (tp ++ sanitizeName m.name) ⟨m.data, now⟩) =
          (s.makedirsP (tp ++ sanitizeName m.name).dropLast).1.openWrite
            (tp ++ sanitizeName m.name) ⟨m.data, now⟩ := by
        rw [hm]
        simp
      have hr1 : s.extractMember tp m now =
          (s.makedirsP (tp ++ sanitizeName m.name).dropLast).1.openWrite
            (tp ++ sanitizeName m.name) ⟨m.data, now⟩ := by
        rw [extractMember_mkdirs_eq s tp m now hc, if_pos hmk, hif2]
      rcases openWrite_eq_cases
          (s.makedirsP (tp ++ sanitizeName m.name).dropLast).1
          (tp ++ sanitizeName m.name) ⟨m.data, now⟩ with
        how | ⟨hne, _, hpar, how⟩
      · exfalso
        rw [hr1, how] at hok
        cases hok
      · rw [hr1, how]
        constructor
        · exact FS.lookup_set_self _ _ _ hne
        · rw [FS.lookup_set_ne _ _ _ _ (dropLast_ne_self _ hne)]
          exact hpar
    · exfalso
      rw [extractMember_mkdirs_eq s tp m now hc,
        if_neg (by rw [Bool.not_eq_true] at hmk; rw [hmk]; simp)] at hok
      cases hok
  · have hskip : s.existsP (tp ++ sanitizeName m.name).dropLast = true ∨
        (tp ++ sanitizeName m.name).dropLast = [] := by
      by_cases h1 : (tp ++ sanitizeName m.name).dropLast = []
      · exact Or.inr h1
      · left
        by_cases h2 : s.existsP (tp ++ sanitizeName m.name).dropLast = true
        · exact h2
        · exact absurd ⟨h1, h2⟩ hc
    have hif2 : (if isDirMember m = true then
        (if s.isdir (tp ++ sanitizeName m.name) = true then (s, true)
         else s.mkdirOne (tp ++ sanitizeName m.name))
       else s.openWrite (tp ++ sanitizeName m.name) ⟨m.data, now⟩) =
        s.openWrite (tp ++ sanitizeName m.name) ⟨m.data, now⟩ := by
      rw [hm]
      simp
    have hr1 : s.extractMember tp m now =
        s.openWrite (tp ++ sanitizeName m.name) ⟨m.data, now⟩ := by
      rw [extractMember_skip_eq s tp m now hskip, hif2]
    rcases openWrite_eq_cases s (tp ++ sanitizeName m.name)
        ⟨m.data, now⟩ with how | ⟨hne, _, hpar, how⟩
    · exfalso
      rw [hr1, how] at hok
      cases hok
    · rw [hr1, how]
      constructor
      · exact FS.lookup_set_self _ _ _ hne
      · rw [FS.lookup_set_ne _ _ _ _ (dropLast_ne_self _ hne)]
        exact hpar

lemma extractMember_success_dir (s : FS) (tp : FPath) (m : ZipEntry)
    (now : Nat) (hm : isDirMember m = true)
    (hok : (s.extractMember tp m now).2 = true) :
    (s.extractMember tp m now).1.lookup (tp ++ sanitizeName m.name) =
      some Node.dir ∧
    ((tp ++ sanitizeName m.name).dropLast = [] ∨
      (s.extractMember tp m now).1.existsP
        (tp ++ sanitizeName m.name).dropLast = true) := by
  by_cases hc : (tp ++ sanitizeName m.name).dropLast ≠ [] ∧
      ¬ s.existsP (tp ++ sanitizeName m.name).dropLast = true
  · by_cases hmk : (s.makedirsP (tp ++ sanitizeName m.name).dropLast).2 = true
    · have hdirp : (s.makedirsP
          (tp ++ sanitizeName m.name).dropLast).1.lookup
          (tp ++ sanitizeName m.name).dropLast = some Node.dir := by
        have hlen : 0 < (tp ++ sanitizeName m.name).dropLast.length := by
          cases hpl : (tp ++ sanitizeName m.name).dropLast with
          | nil => exact absurd hpl hc.1
          | cons a t => simp
        have hk := mkAux_sets_dirs (tp ++ sanitizeName m.name).dropLast s []
          hmk ((tp ++ sanitizeName m.name).dropLast.length - 1)
          (by omega)
        rw [List.nil_append] at hk
        rw [List.take_of_length_le (by omega)] at hk
        exact hk
      have hr1 : s.extractMember tp m now =
          (if (s.makedirsP (tp ++ sanitizeName m.name).dropLast).1.isdir
              (tp ++ sanitizeName m.name) = true then
            ((s.makedirsP (tp ++ sanitizeName m.name).dropLast).1, true)
           else (s.makedirsP (tp ++ sanitizeName m.name).dropLast).1.mkdirOne
              (tp ++ sanitizeName m.name)) := by
        rw [extractMember_mkdirs_eq s tp m now hc, if_pos hmk, if_pos hm]
      cases hisd : (s.makedirsP
          (tp ++ sanitizeName m.name).dropLast).1.isdir
          (tp ++ sanitizeName m.name) with
      | true =>
        have hr2 : s.extractMember tp m now =
            ((s.makedirsP (tp ++ sanitizeName m.name).dropLast).1, true) := by
          rw [hr1, if_pos hisd]
        rw [hr2]
        refine ⟨?_, Or.inr ?_⟩
        · rw [FS.isdir] at hisd
          simpa using hisd
        · rw [FS.existsP, hdirp]
          rfl
      | false =>
        have hif : (if (s.makedirsP
            (tp ++ sanitizeName m.name).dropLast).1.isdir
            (tp ++ sanitizeName m.name) = true then
              ((s.makedirsP (tp ++ sanitizeName m.name).dropLast).1, true)
            else (s.makedirsP
              (tp ++ sanitizeName m.name).dropLast).1.mkdirOne
              (tp ++ sanitizeName m.name)) =
            (s.makedirsP (tp ++ sanitizeName m.name).dropLast).1.mkdirOne
              (tp ++ sanitizeName m.name) := by
          rw [hisd]
          simp
        rcases mkdirOne_eq_cases
            (s.makedirsP (tp ++ sanitizeName m.name).dropLast).1
            (tp ++ sanitizeName m.name) with hmo | ⟨hne, _, hmo⟩
        · exfalso
          rw [hr1, hif, hmo] at hok
          cases hok
        · have hr2 : s.extractMember tp m now =
              ((s.makedirsP (tp ++ sanitizeName m.name).dropLast).1.set
                (tp ++ sanitizeName m.name) Node.dir, true) := by
            rw [hr1, hif, hmo]
          rw [hr2]
          refine ⟨FS.lookup_set_self _ _ _ hne, Or.inr ?_⟩
          rw [FS.existsP,
            FS.lookup_set_ne _ _ _ _ (dropLast_ne_self _ hne), hdirp]
          rfl
    · exfalso
      rw [extractMember_mkdirs_eq s tp m now hc,
        if_neg (by rw [Bool.not_eq_true] at hmk; rw [hmk]; simp)] at hok
      cases hok
  · have hskip : s.existsP (tp ++ sanitizeName m.name).dropLast = true ∨
        (tp ++ sanitizeName m.name).dropLast = [] := by
      by_cases h1 : (tp ++ sanitizeName m.name).dropLast = []
      · exact Or.inr h1
      · left
        by_cases h2 : s.existsP (tp ++ sanitizeName m.name).dropLast = true
        · exact h2
        · exact absurd ⟨h1, h2⟩ hc
    have hr1 : s.extractMember tp m now =
        (if s.isdir (tp ++ sanitizeName m.name) = true then (s, true)
         else s.mkdirOne (tp ++ sanitizeName m.name)) := by
      rw [extractMember_skip_eq s tp m now hskip, if_pos hm]
    cases hisd : s.isdir (tp ++ sanitizeName m.name) with
    | true =>
      have hr2 : s.extractMember tp m now = (s, true) := by
        rw [hr1, if_pos hisd]
      rw [hr2]
      refine ⟨?_, ?_⟩
      · rw [FS.isdir] at hisd
        simpa using hisd
      · rcases hskip with h | h
        · exact Or.inr h
        · exact Or.inl h
    | false =>
      have hif : (if s.isdir (tp ++ sanitizeName m.name) = true then (s, true)
          else s.mkdirOne (tp ++ sanitizeName m.name)) =
          s.mkdirOne (tp ++ sanitizeName m.name) := by
        rw [hisd]
        simp
      rcases mkdirOne_eq_cases s (tp ++ sanitizeName m.name) with
        hmo | ⟨hne, _, hmo⟩
      · exfalso
        rw [hr1, hif, hmo] at hok
        cases hok
      · have hr2 : s.extractMember tp m now =
            (s.set (tp ++ sanitizeName m.name) Node.dir, true) := by
          rw [hr1, hif, hmo]
        rw [hr2]
        refine ⟨FS.lookup_set_self _ _ _ hne, ?_⟩
        rcases hskip with h | h
        · right
          rw [FS.existsP,
            FS.lookup_set_ne _ _ _ _ (dropLast_ne_self _ hne)]
          rw [FS.existsP] at h
          exact h
        · exact Or.inl h

lemma extractAll_replay (tp : FPath) (now : Nat) :
    ∀ ms : List ZipEntry,
      ms.Pairwise
        (fun a b => sanitizeName a.name ≠ sanitizeName b.name) →
      ∀ s : FS,
        (extractAll (extractAll s tp ms now).1 tp ms now).2 =
          (extractAll s tp ms now).2 ∧
        FS.Eqv (extractAll (extractAll s tp ms now).1 tp ms now).1
          (extractAll s tp ms now).1 := by
  intro ms
  induction ms with
  | nil =>
    intro _ s
    exact ⟨rfl, eqv_refl _⟩
  | cons m rest ih =>
    intro hdist s
    rw [List.pairwise_cons] at hdist
    obtain ⟨hmr, hrest⟩ := hdist
    by_cases hb : (s.extractMember tp m now).2 = true
    · -- the head member extracted successfully in the first run
      have he1 : extractAll s tp (m :: rest) now =
          extractAll (s.extractMember tp m now).1 tp rest now := by
        rw [extractAll]
        simp only [hb, if_pos]
      have hle : KindLE (s.extractMember tp m now).1
          (extractAll (s.extractMember tp m now).1 tp rest now).1 :=
        extractAll_kindLE tp now rest _
      have hne_tgt : ∀ m' ∈ rest, tp ++ sanitizeName m.name ≠
          tp ++ sanitizeName m'.name := by
        intro m' hm' he
        exact hmr m' hm' (List.append_cancel_left he)
      -- re-extracting the head member on the final state is a no-op
      have hnoop : ((extractAll (s.extractMember tp m now).1 tp rest
            now).1.extractMember tp m now).2 = true ∧
          FS.Eqv ((extractAll (s.extractMember tp m now).1 tp rest
            now).1.extractMember tp m now).1
          (extractAll (s.extractMember tp m now).1 tp rest now).1 := by
        cases hdm : isDirMember m with
        | false =>
          obtain ⟨hv, hpar⟩ := extractMember_success_file s tp m now hdm hb
          have hv2 := extractAll_persist tp now rest _ _ _ hne_tgt hv
          have hpar2 := (hle _).1 hpar
          exact extractMember_noop_file _ tp m now hdm hv2 hpar2
        | true =>
          obtain ⟨hv, hpar⟩ := extractMember_success_dir s tp m now hdm hb
          have hv2 := (hle _).1 hv
          have hpar2 : (tp ++ sanitizeName m.name).dropLast ≠ [] →
              (extractAll (s.extractMember tp m now).1 tp rest
                now).1.existsP (tp ++ sanitizeName m.name).dropLast =
                true := by
            intro hne
            rcases hpar with h | h
            · exact absurd h hne
            · exact kindLE_existsP hle _ h
          exact extractMember_noop_dir _ tp m now hdm hv2 hpar2
      -- unfold the second run
      have he2 : extractAll (extractAll s tp (m :: rest) now).1 tp
          (m :: rest) now =
          extractAll ((extractAll (s.extractMember tp m now).1 tp rest
            now).1.extractMember tp m now).1 tp rest now := by
        rw [he1, extractAll]
        simp only [hnoop.1, if_pos]
      rw [he2, he1]
      have hcong := extractAll_eqv tp now rest hnoop.2
      have hih := ih hrest (s.extractMember tp m now).1
      refine ⟨?_, ?_⟩
      · rw [hcong.2]
        exact hih.1
      · exact eqv_trans hcong.1 hih.2
    · -- the head member failed in the first run
      rw [Bool.not_eq_true] at hb
      have he1 : extractAll s tp (m :: rest) now =
          ((s.extractMember tp m now).1, false) := by
        rw [extractAll]
        simp only [hb]
        simp
      have hfs := extractMember_fail_stable s tp m now hb
      have he2 : extractAll (s.extractMember tp m now).1 tp
          (m :: rest) now = ((s.extractMember tp m now).1, false) := by
        rw [extractAll, hfs]
        simp
      rw [he1, he2]
      exact ⟨rfl, eqv_refl _⟩

lemma copyTarget_loc (sp dst : FPath) (s : FS) (ent : FPath × Node)
    (w : FPath) (h : copyTarget sp dst s ent = some w) :
    w = dst ++ ent.1 ∨
      (w = dst ++ ent.1 ++ [ent.1.getLastD []] ∧
        (∃ d, ent.2 = Node.file d) ∧
        s.lookup (dst ++ ent.1) = some Node.dir) := by
  obtain ⟨rel, n⟩ := ent
  cases hl : s.lookup (dst ++ rel) with
  | none =>
    cases n with
    | dir =>
      simp only [copyTarget, hl] at h
      cases h
      exact Or.inl rfl
    | file d =>
      simp only [copyTarget, hl] at h
      split at h
      · cases h
      · cases h
        exact Or.inl rfl
  | some n0 =>
    cases n0 with
    | dir =>
      cases n with
      | dir =>
        simp only [copyTarget, hl] at h
        cases h
        exact Or.inl rfl
      | file d =>
        simp only [copyTarget, hl] at h
        split at h
        · cases h
        · split at h
          · cases h
          · cases h
            exact Or.inr ⟨rfl, ⟨d, rfl⟩, rfl⟩
    | file d0 =>
      cases n with
      | dir =>
        simp only [copyTarget, hl] at h
        cases h
      | file d =>
        simp only [copyTarget, hl] at h
        split at h
        · cases h
        · cases h
          exact Or.inl rfl

lemma append_singleton_inj {α : Type} {l1 l2 : List α} {a b : α}
    (h : l1 ++ [a] = l2 ++ [b]) : l1 = l2 ∧ a = b := by
  rcases List.append_inj' h rfl with ⟨h1, h3⟩
  have h4 : a = b := by
    have h5 := congrArg (fun l => l.headD a) h3
    simpa using h5
  exact ⟨h1, h4⟩

lemma copyTarget_congr (sp dst : FPath) (s s' : FS) (ent : FPath × Node)
    (h1 : s.lookup (dst ++ ent.1) = s'.lookup (dst ++ ent.1))
    (h2 : s.lookup (dst ++ ent.1 ++ [ent.1.getLastD []]) =
      s'.lookup (dst ++ ent.1 ++ [ent.1.getLastD []])) :
    copyTarget sp dst s ent = copyTarget sp dst s' ent := by
  rw [copyTarget, copyTarget, h1, h2]

lemma copyTarget_congr_dir (sp dst : FPath) (s s' : FS) (ent : FPath × Node)
    (hd : ent.2 = Node.dir)
    (h1 : s.lookup (dst ++ ent.1) = s'.lookup (dst ++ ent.1)) :
    copyTarget sp dst s ent = copyTarget sp dst s' ent := by
  rw [copyTarget, copyTarget, h1, hd]
  cases s'.lookup (dst ++ ent.1) with
  | none => rfl
  | some n0 =>
    cases n0 with
    | dir => rfl
    | file d => rfl

lemma copyTarget_rewrite (sp dst : FPath) (s : FS) (ent : FPath × Node)
    (w : FPath) (hne : ent.1 ≠ []) (h : copyTarget sp dst s ent = some w) :
    copyTarget sp dst (s.set w ent.2) ent = some w := by
  obtain ⟨rel, n⟩ := ent
  have hrne : rel ≠ [] := hne
  have htne : dst ++ rel ≠ [] := by
    intro hc
    exact hrne (List.append_eq_nil.mp hc).2
  have ht2ne : dst ++ rel ++ [rel.getLastD []] ≠ [] := by simp
  have hts : dst ++ rel ≠ dst ++ rel ++ [rel.getLastD []] := by
    intro hc
    have := congrArg List.length hc
    simp at this
  cases hl : s.lookup (dst ++ rel) with
  | none =>
    cases n with
    | dir =>
      simp only [copyTarget, hl] at h
      cases h
      have hv : (s.set (dst ++ rel) Node.dir).lookup (dst ++ rel) =
          some Node.dir := FS.lookup_set_self _ _ _ htne
      simp only [copyTarget, hv]
    | file d =>
      simp only [copyTarget, hl] at h
      split at h
      · cases h
      · rename_i hc
        cases h
        have hv : (s.set (dst ++ rel) (Node.file d)).lookup (dst ++ rel) =
            some (Node.file d) := FS.lookup_set_self _ _ _ htne
        simp only [copyTarget, hv]
        rw [if_neg hc]
  | some n0 =>
    cases n0 with
    | dir =>
      cases n with
      | dir =>
        simp only [copyTarget, hl] at h
        cases h
        have hv : (s.set (dst ++ rel) Node.dir).lookup (dst ++ rel) =
            some Node.dir := FS.lookup_set_self _ _ _ htne
        simp only [copyTarget, hv]
      | file d =>
        simp only [copyTarget, hl] at h
        split at h
        · cases h
        · rename_i hc
          have hw : w = dst ++ rel ++ [rel.getLastD []] := by
            split at h
            · cases h
            · cases h
              rfl
          subst hw
          have hv1 : (s.set (dst ++ rel ++ [rel.getLastD []])
              (Node.file d)).lookup (dst ++ rel) = some Node.dir := by
            rw [FS.lookup_set_ne _ _ _ _ hts]
            exact hl
          have hv2 : (s.set (dst ++ rel ++ [rel.getLastD []])
              (Node.file d)).lookup (dst ++ rel ++ [rel.getLastD []]) =
              some (Node.file d) := FS.lookup_set_self _ _ _ ht2ne
          simp only [copyTarget, hv1]
          rw [if_neg hc, hv2]
    | file d0 =>
      cases n with
      | dir =>
        simp only [copyTarget, hl] at h
        cases h
      | file d =>
        simp only [copyTarget, hl] at h
        split at h
        · cases h
        · rename_i hc
          cases h
          have hv : (s.set (dst ++ rel) (Node.file d)).lookup (dst ++ rel) =
              some (Node.file d) := FS.lookup_set_self _ _ _ htne
          simp only [copyTarget, hv]
          rw [if_neg hc]

lemma set_eqv_self (s : FS) (p : FPath) (n : Node)
    (h : s.lookup p = some n) : FS.Eqv (s.set p n) s := by
  intro q
  by_cases hp : p = []
  · rw [FS.set, if_pos hp]
  · by_cases hq : q = p
    · subst hq
      rw [FS.lookup_set_self _ _ _ hp, h]
    · rw [FS.lookup_set_ne _ _ _ _ hq]

lemma copyTarget_eqv (sp dst : FPath) {s s' : FS} (h : FS.Eqv s s')
    (ent : FPath × Node) :
    copyTarget sp dst s ent = copyTarget sp dst s' ent :=
  copyTarget_congr sp dst s s' ent (h _) (h _)

lemma foldCN_frame_fine (sp dst : FPath) (ents : List (FPath × Node))
    (q : FPath) :
    ∀ acc : FS × Bool,
      (∀ f ∈ ents, q ≠ dst ++ f.1 ∧
        ((∃ df, f.2 = Node.file df) →
          q ≠ dst ++ f.1 ++ [f.1.getLastD []])) →
      (ents.foldl (copyNode sp dst) acc).1.lookup q = acc.1.lookup q := by
  induction ents with
  | nil =>
    intro acc _
    rfl
  | cons f rest ih =>
    intro acc h
    rw [List.foldl_cons,
      ih _ (fun f' hf' => h f' (List.mem_cons_of_mem _ hf'))]
    rcases copyNode_eq_cases sp dst acc f with hh | ⟨w, hct, hh⟩
    · rw [hh]
    · simp only [hh]
      apply FS.lookup_set_ne
      rcases copyTarget_loc sp dst acc.1 f w hct with hw | ⟨hw, hdf, -⟩
      · rw [hw]
        exact (h f (List.mem_cons_self _ _)).1
      · rw [hw]
        exact (h f (List.mem_cons_self _ _)).2 hdf

lemma foldCN_flag (sp dst : FPath) (ents : List (FPath × Node)) :
    ∀ (s : FS) (b : Bool),
      (ents.foldl (copyNode sp dst) (s, b)).1 =
        (ents.foldl (copyNode sp dst) (s, true)).1 ∧
      (ents.foldl (copyNode sp dst) (s, b)).2 =
        (b && (ents.foldl (copyNode sp dst) (s, true)).2) := by
  induction ents with
  | nil =>
    intro s b
    exact ⟨rfl, by simp⟩
  | cons e rest ih =>
    intro s b
    rw [List.foldl_cons, List.foldl_cons]
    simp only [copyNode]
    cases hct : copyTarget sp dst s e with
    | none =>
      have h2 := (ih s false).2
      rw [Bool.false_and] at h2
      refine ⟨rfl, ?_⟩
      rw [h2]
      simp [h2]
    | some w =>
      exact ih (s.set w e.2) b

lemma foldCN_eqv (sp dst : FPath) (ents : List (FPath × Node)) :
    ∀ {s s' : FS} (b : Bool), FS.Eqv s s' →
      (ents.foldl (copyNode sp dst) (s, b)).2 =
        (ents.foldl (copyNode sp dst) (s', b)).2 ∧
      FS.Eqv (ents.foldl (copyNode sp dst) (s, b)).1
        (ents.foldl (copyNode sp dst) (s', b)).1 := by
  induction ents with
  | nil =>
    intro s s' b h
    exact ⟨rfl, h⟩
  | cons e rest ih =>
    intro s s' b h
    rw [List.foldl_cons, List.foldl_cons]
    simp only [copyNode]
    rw [copyTarget_eqv sp dst h e]
    cases hct : copyTarget sp dst s' e with
    | none => exact ih false h
    | some w => exact ih b (set_eqv h w e.2)

lemma foldCN_replay (sp dst : FPath) :
    ∀ (ents : List (FPath × Node)),
      ents.Pairwise (fun x y => x.1 ≠ y.1) →
      (∀ e ∈ ents, e.1 ≠ ([] : FPath)) →
      (∀ e ∈ ents, ∀ f ∈ ents, (∃ df, f.2 = Node.file df) →
        e.1 ≠ f.1 ++ [f.1.getLastD []]) →
      ∀ (g : FS),
      (ents.foldl (copyNode sp dst)
        ((ents.foldl (copyNode sp dst) (g, true)).1, true)).2 =
        (ents.foldl (copyNode sp dst) (g, true)).2 ∧
      FS.Eqv (ents.foldl (copyNode sp dst)
        ((ents.foldl (copyNode sp dst) (g, true)).1, true)).1
        (ents.foldl (copyNode sp dst) (g, true)).1 := by
  intro ents
  induction ents with
  | nil =>
    intro _ _ _ g
    exact ⟨rfl, eqv_refl _⟩
  | cons e rest ih =>
    intro hkeys hne hsep g
    rw [List.pairwise_cons] at hkeys
    obtain ⟨hehd, hkrest⟩ := hkeys
    have hne0 : e.1 ≠ [] := hne e (List.mem_cons_self _ _)
    have hnerest : ∀ f ∈ rest, f.1 ≠ ([] : FPath) :=
      fun f hf => hne f (List.mem_cons_of_mem _ hf)
    have hseprest : ∀ a ∈ rest, ∀ f ∈ rest, (∃ df, f.2 = Node.file df) →
        a.1 ≠ f.1 ++ [f.1.getLastD []] :=
      fun a ha f hf => hsep a (List.mem_cons_of_mem _ ha) f
        (List.mem_cons_of_mem _ hf)
    have hfineA : ∀ f ∈ rest, dst ++ e.1 ≠ dst ++ f.1 ∧
        ((∃ df, f.2 = Node.file df) →
          dst ++ e.1 ≠ dst ++ f.1 ++ [f.1.getLastD []]) := by
      intro f hf
      constructor
      · intro hc
        exact hehd f hf (List.append_cancel_left hc)
      · intro hdf hc
        rw [List.append_assoc] at hc
        exact hsep e (List.mem_cons_self _ _) f (List.mem_cons_of_mem _ hf)
          hdf (List.append_cancel_left hc)
    have hfineB : (∃ de, e.2 = Node.file de) →
        ∀ f ∈ rest, dst ++ e.1 ++ [e.1.getLastD []] ≠ dst ++ f.1 ∧
        ((∃ df, f.2 = Node.file df) →
          dst ++ e.1 ++ [e.1.getLastD []] ≠
            dst ++ f.1 ++ [f.1.getLastD []]) := by
      intro hde f hf
      constructor
      · intro hc
        rw [List.append_assoc] at hc
        exact hsep f (List.mem_cons_of_mem _ hf) e (List.mem_cons_self _ _)
          hde (List.append_cancel_left hc).symm
      · intro hdf hc
        rw [List.append_assoc, List.append_assoc] at hc
        have h2 := List.append_cancel_left hc
        exact hehd f hf (append_singleton_inj h2).1
    have hdec : ∀ acc : FS × Bool,
        copyTarget sp dst (rest.foldl (copyNode sp dst) acc).1 e =
          copyTarget sp dst acc.1 e := by
      intro acc
      cases hE : e.2 with
      | dir =>
        exact copyTarget_congr_dir sp dst _ _ e hE
          (foldCN_frame_fine sp dst rest _ acc hfineA)
      | file de =>
        exact copyTarget_congr sp dst _ _ e
          (foldCN_frame_fine sp dst rest _ acc hfineA)
          (foldCN_frame_fine sp dst rest _ acc (hfineB ⟨de, hE⟩))
    rcases hcg : copyTarget sp dst g e with - | w
    · have hh : copyNode sp dst (g, true) e = (g, false) := by
        simp only [copyNode, hcg]
      have hR1 : (e :: rest).foldl (copyNode sp dst) (g, true) =
          rest.foldl (copyNode sp dst) (g, false) := by
        rw [List.foldl_cons, hh]
      have hG1flag : (rest.foldl (copyNode sp dst) (g, false)).2 = false := by
        have hx := (foldCN_flag sp dst rest g false).2
        rw [Bool.false_and] at hx
        exact hx
      have hG1state : (rest.foldl (copyNode sp dst) (g, false)).1 =
          (rest.foldl (copyNode sp dst) (g, true)).1 :=
        (foldCN_flag sp dst rest g false).1
      have hdecG : copyTarget sp dst
          (rest.foldl (copyNode sp dst) (g, false)).1 e = none := by
        rw [hdec (g, false)]
        exact hcg
      have hh2 : copyNode sp dst
          ((rest.foldl (copyNode sp dst) (g, false)).1, true) e =
          ((rest.foldl (copyNode sp dst) (g, false)).1, false) := by
        simp only [copyNode, hdecG]
      have hR2 : (e :: rest).foldl (copyNode sp dst)
          (((e :: rest).foldl (copyNode sp dst) (g, true)).1, true) =
          rest.foldl (copyNode sp dst)
            ((rest.foldl (copyNode sp dst) (g, false)).1, false) := by
        rw [hR1, List.foldl_cons, hh2]
      rw [hR2, hR1]
      have h2flag : (rest.foldl (copyNode sp dst)
          ((rest.foldl (copyNode sp dst) (g, false)).1, false)).2 =
          false := by
        have hx := (foldCN_flag sp dst rest
          (rest.foldl (copyNode sp dst) (g, false)).1 false).2
        rw [Bool.false_and] at hx
        exact hx
      have h2state : (rest.foldl (copyNode sp dst)
          ((rest.foldl (copyNode sp dst) (g, false)).1, false)).1 =
          (rest.foldl (copyNode sp dst)
            ((rest.foldl (copyNode sp dst) (g, true)).1, true)).1 := by
        rw [(foldCN_flag sp dst rest _ false).1, hG1state]
      refine ⟨?_, ?_⟩
      · rw [h2flag, hG1flag]
      · rw [h2state, hG1state]
        exact (ih hkrest hnerest hseprest g).2
    · have hh : copyNode sp dst (g, true) e = (g.set w e.2, true) := by
        simp only [copyNode, hcg]
      have hR1 : (e :: rest).foldl (copyNode sp dst) (g, true) =
          rest.foldl (copyNode sp dst) (g.set w e.2, true) := by
        rw [List.foldl_cons, hh]
      have hwloc := copyTarget_loc sp dst g e w hcg
      have hwkeep : ∀ acc : FS × Bool,
          (rest.foldl (copyNode sp dst) acc).1.lookup w =
            acc.1.lookup w := by
        intro acc
        apply foldCN_frame_fine sp dst rest w acc
        rcases hwloc with hw | ⟨hw, hde, -⟩
        · rw [hw]
          exact hfineA
        · rw [hw]
          exact hfineB hde
      have hwne : w ≠ [] := by
        rcases hwloc with hw | ⟨hw, -, -⟩
        · rw [hw]
          intro hc
          exact hne0 (List.append_eq_nil.mp hc).2
        · rw [hw]
          simp
      have hG1w : (rest.foldl (copyNode sp dst)
          (g.set w e.2, true)).1.lookup w = some e.2 := by
        rw [hwkeep (g.set w e.2, true)]
        exact FS.lookup_set_self _ _ _ hwne
      have hdecG : copyTarget sp dst
          (rest.foldl (copyNode sp dst) (g.set w e.2, true)).1 e =
          some w := by
        rw [hdec (g.set w e.2, true)]
        exact copyTarget_rewrite sp dst g e w hne0 hcg
      have hh2 : copyNode sp dst
          ((rest.foldl (copyNode sp dst) (g.set w e.2, true)).1, true) e =
          ((rest.foldl (copyNode sp dst)
            (g.set w e.2, true)).1.set w e.2, true) := by
        simp only [copyNode, hdecG]
      have hR2 : (e :: rest).foldl (copyNode sp dst)
          (((e :: rest).foldl (copyNode sp dst) (g, true)).1, true) =
          rest.foldl (copyNode sp dst)
            ((rest.foldl (copyNode sp dst)
              (g.set w e.2, true)).1.set w e.2, true) := by
        rw [hR1, List.foldl_cons, hh2]
      rw [hR2, hR1]
      have hEq1 : FS.Eqv
          ((rest.foldl (copyNode sp dst)
            (g.set w e.2, true)).1.set w e.2)
          (rest.foldl (copyNode sp dst) (g.set w e.2, true)).1 :=
        set_eqv_self _ _ _ hG1w
      obtain ⟨hfl2, hst2⟩ := foldCN_eqv sp dst rest true hEq1
      obtain ⟨ihfl, ihst⟩ := ih hkrest hnerest hseprest (g.set w e.2)
      refine ⟨?_, ?_⟩
      · rw [hfl2]
        exact ihfl
      · exact eqv_trans hst2 ihst

lemma filterMap_filter_none {α β : Type} (f : α → Option β) (p : α → Bool)
    (l : List α) (h : ∀ a ∈ l, p a = false → f a = none) :
    (l.filter p).filterMap f = l.filterMap f := by
  induction l with
  | nil => rfl
  | cons a t ih =>
    rw [List.filter_cons]
    cases hp : p a with
    | true =>
      simp only [if_pos]
      rw [List.filterMap_cons, List.filterMap_cons]
      cases hf : f a with
      | none => exact ih (fun x hx => h x (by simp [hx]))
      | some b => rw [ih (fun x hx => h x (by simp [hx]))]
    | false =>
      simp only [Bool.false_eq_true, if_false]
      rw [List.filterMap_cons, h a (by simp) hp]
      exact ih (fun x hx => h x (by simp [hx]))

lemma subtreeEntries_set (fs : FS) (sp : FPath) (p : FPath) (n : Node)
    (hp : ¬ sp <+: p) :
    (fs.set p n).subtreeEntries sp = fs.subtreeEntries sp := by
  by_cases hpn : p = []
  · rw [FS.set, if_pos hpn]
  · simp only [FS.subtreeEntries, FS.set, if_neg hpn]
    show List.filterMap _ ((p, n) :: List.filter _ fs.nodes) = _
    rw [List.filterMap_cons_none]
    · apply filterMap_filter_none
      intro a _ hpa
      rw [if_neg]
      intro hcon
      have ha : a.1 = p := by simpa using hpa
      exact hp (ha ▸ List.isPrefixOf_iff_prefix.mp hcon.1)
    · rw [if_neg]
      intro hcon
      exact hp (List.isPrefixOf_iff_prefix.mp hcon.1)

lemma mkAux_subtree (sp : FPath) (rest : List PyStr) (fs : FS) (pre : FPath)
    (h : ∀ k : Nat, k < rest.length → ¬ sp <+: pre ++ rest.take (k + 1)) :
    (FS.mkAux fs pre rest).1.subtreeEntries sp = fs.subtreeEntries sp := by
  induction rest generalizing fs pre with
  | nil => rfl
  | cons c cs ih =>
    have h0 : ¬ sp <+: pre ++ [c] := by simpa using h 0 (by simp)
    have hnext : ∀ k : Nat, k < cs.length →
        ¬ sp <+: (pre ++ [c]) ++ cs.take (k + 1) := by
      intro k hk
      have := h (k + 1) (by simpa using Nat.succ_lt_succ hk)
      simpa [List.append_assoc] using this
    rw [mkAux_cons]
    cases hl : fs.lookup (pre ++ [c]) with
    | none =>
      rw [ih (fs.set (pre ++ [c]) Node.dir) (pre ++ [c]) hnext,
        subtreeEntries_set _ _ _ _ h0]
    | some n =>
      cases n with
      | dir => exact ih fs (pre ++ [c]) hnext
      | file d => rfl

lemma makedirsS_subtree (sp : FPath) (fs : FS) (a : PyStr)
    (h : ∀ q : FPath, q <+: toPath a → ¬ sp <+: q) :
    (fs.makedirsS a).1.subtreeEntries sp = fs.subtreeEntries sp := by
  rw [FS.makedirsS]
  by_cases hs : a = []
  · rw [if_pos hs]
  · rw [if_neg hs]
    apply mkAux_subtree
    intro k hk
    rw [List.nil_append]
    exact h _ (List.take_prefix _ _)

lemma foldCN_subtree (sp spc dst : FPath) (ents : List (FPath × Node))
    (h : ∀ w : FPath, dst <+: w → ¬ sp <+: w) :
    ∀ acc : FS × Bool,
      (ents.foldl (copyNode spc dst) acc).1.subtreeEntries sp =
        acc.1.subtreeEntries sp := by
  induction ents with
  | nil =>
    intro acc
    rfl
  | cons r rest ih =>
    intro acc
    rw [List.foldl_cons, ih _]
    rcases copyNode_eq_cases spc dst acc r with hh | ⟨w, hct, hh⟩
    · rw [hh]
    · simp only [hh]
      exact subtreeEntries_set _ _ _ _
        (h w (copyTarget_extends_dst spc dst acc.1 r w hct))

lemma all_congr_list {α : Type} (l : List α) (f g : α → Bool)
    (h : ∀ x ∈ l, f x = g x) : l.all f = l.all g := by
  induction l with
  | nil => rfl
  | cons a t ih =>
    rw [List.all_cons, List.all_cons, h a (by simp),
      ih (fun x hx => h x (by simp [hx]))]

lemma isdir_congr {g g' : FS} (p : FPath) (h : g'.lookup p = g.lookup p) :
    g'.isdir p = g.isdir p := by
  rw [FS.isdir, FS.isdir, h]

lemma reachableEntries_congr (g g' : FS) (sp : FPath)
    (hsub : g'.subtreeEntries sp = g.subtreeEntries sp)
    (hlook : ∀ q : FPath, sp <+: q → g'.lookup q = g.lookup q) :
    g'.reachableEntries sp = g.reachableEntries sp := by
  rw [FS.reachableEntries, FS.reachableEntries, hsub]
  apply List.filter_congr
  intro e _
  rw [entryReachable, entryReachable]
  apply all_congr_list
  intro j _
  exact isdir_congr _ (hlook _ (List.prefix_append _ _))

lemma subtreeEntries_mem_lookup (fs : FS) (sp : FPath) (hwf : fs.Wf)
    (r : FPath × Node) (hr : r ∈ fs.subtreeEntries sp) :
    fs.lookup (sp ++ r.1) = some r.2 := by
  rw [FS.subtreeEntries] at hr
  rcases List.mem_filterMap.mp hr with ⟨e, hemem, he⟩
  by_cases hc : sp.isPrefixOf e.1 ∧ e.1 ≠ sp
  · rw [if_pos hc] at he
    rcases List.isPrefixOf_iff_prefix.mp hc.1 with ⟨t, ht⟩
    have hX := (Option.some.injEq _ _).mp he
    have hr1 : r.1 = e.1.drop sp.length := by
      have h1 := congrArg Prod.fst hX
      simpa using h1.symm
    have hr2 : r.2 = e.2 := by
      have h2 := congrArg Prod.snd hX
      simpa using h2.symm
    have hdrop : e.1.drop sp.length = t := by
      rw [← ht]
      simp
    have hene : e.1 ≠ [] := by
      intro hnil
      rw [hnil] at ht
      rcases List.append_eq_nil.mp ht with ⟨hs, -⟩
      exact hc.2 (by rw [hnil, hs])
    rw [hr1, hdrop, ht, hr2]
    exact lookup_eq_of_mem fs e.1 e.2 hwf hene hemem
  · rw [if_neg hc] at he
    cases he

lemma mkdirs_write_replay (fs : FS) (a : PyStr) (T : FPath) (v : FileData)
    (F1 : FS) (flag : Bool)
    (hF1 : (if (fs.makedirsS a).2 = true then
        (fs.makedirsS a).1.openWrite T v
       else fs.makedirsS a) = (F1, flag)) :
    (if (F1.makedirsS a).2 = true then F1.makedirsS a |>.1.openWrite T v
     else F1.makedirsS a) = (F1, flag) := by
  have hrun : fs.makedirsS a = ((fs.makedirsS a).1, (fs.makedirsS a).2) :=
    Prod.mk.eta.symm
  by_cases hmk : (fs.makedirsS a).2 = true
  · rw [if_pos hmk] at hF1
    rcases openWrite_eq_cases (fs.makedirsS a).1 T v with
      how | ⟨hne, hnd, hpar, how⟩
    · -- openWrite failed: state is the post-makedirs state
      rw [how] at hF1
      have hF1s : F1 = (fs.makedirsS a).1 :=
        ((Prod.mk.injEq _ _ _ _ ▸ hF1).1).symm
      have hfl : flag = false := ((Prod.mk.injEq _ _ _ _ ▸ hF1).2).symm
      subst hF1s
      subst hfl
      have hst := makedirsS_stable fs (fs.makedirsS a).1 a true
        (by rw [← hmk]) (fs.makedirsS a).1
        (kindLE_refl _)
      rw [hst]
      simp only [if_pos]
      exact how
    · -- openWrite succeeded
      rw [how] at hF1
      have hF1s : F1 = (fs.makedirsS a).1.set T (Node.file v) :=
        ((Prod.mk.injEq _ _ _ _ ▸ hF1).1).symm
      have hfl : flag = true := ((Prod.mk.injEq _ _ _ _ ▸ hF1).2).symm
      subst hfl
      have hle : KindLE (fs.makedirsS a).1 F1 := by
        rw [hF1s]
        exact set_kindLE_of_not_dir _ _ _ hnd
      have hst := makedirsS_stable fs (fs.makedirsS a).1 a true
        (by rw [← hmk]) F1 hle
      rw [hst]
      simp only [if_pos]
      have hvT : F1.lookup T = some (Node.file v) := by
        rw [hF1s]
        exact FS.lookup_set_self _ _ _ hne
      have hparF : F1.lookup T.dropLast = some Node.dir := by
        rw [hF1s, FS.lookup_set_ne _ _ _ _ (dropLast_ne_self _ hne)]
        exact hpar
      have how2 : F1.openWrite T v = (F1.set T (Node.file v), true) := by
        rw [FS.openWrite, if_neg hne, hvT, hparF]
      rw [how2, hF1s, set_set_self]
  · rw [if_neg hmk] at hF1
    rw [Bool.not_eq_true] at hmk
    have hfl : flag = false := by
      have h2 := congrArg Prod.snd hF1
      simp only [] at h2
      rw [← h2]
      exact hmk
    have hF1s : F1 = (fs.makedirsS a).1 := by
      have h1 := congrArg Prod.fst hF1
      simp only [] at h1
      rw [← h1]
    subst hfl
    have hst := makedirsS_stable fs (fs.makedirsS a).1 a false
      (by rw [← hmk]) F1 (by rw [hF1s]; exact kindLE_refl _)
    rw [hst]
    simp

lemma mkdirs_extract_replay (fs : FS) (a : PyStr) (now : Nat)
    (ms : List ZipEntry)
    (hdist : ms.Pairwise
      (fun x y => sanitizeName x.name ≠ sanitizeName y.name))
    (F1 : FS) (flag : Bool)
    (hF1 : (if (fs.makedirsS a).2 = true then
        extractAll (fs.makedirsS a).1 (toPath a) ms now
       else fs.makedirsS a) = (F1, flag)) :
    (if (F1.makedirsS a).2 = true then
        extractAll (F1.makedirsS a).1 (toPath a) ms now
     else F1.makedirsS a).2 = flag ∧
    FS.Eqv (if (F1.makedirsS a).2 = true then
        extractAll (F1.makedirsS a).1 (toPath a) ms now
      else F1.makedirsS a).1 F1 := by
  have hrun : fs.makedirsS a = ((fs.makedirsS a).1, (fs.makedirsS a).2) :=
    Prod.mk.eta.symm
  by_cases hmk : (fs.makedirsS a).2 = true
  · rw [if_pos hmk] at hF1
    have hF1s : F1 = (extractAll (fs.makedirsS a).1 (toPath a) ms now).1 := by
      have h1 := congrArg Prod.fst hF1
      simp only [] at h1
      rw [← h1]
    have hfl : flag = (extractAll (fs.makedirsS a).1 (toPath a) ms now).2 := by
      have h2 := congrArg Prod.snd hF1
      simp only [] at h2
      rw [← h2]
    have hle : KindLE (fs.makedirsS a).1 F1 := by
      rw [hF1s]
      exact extractAll_kindLE _ _ _ _
    have hst := makedirsS_stable fs (fs.makedirsS a).1 a true
      (by rw [← hmk]) F1 hle
    rw [hst]
    simp only [if_pos]
    obtain ⟨hfl2, heqv⟩ := extractAll_replay (toPath a) now ms hdist
      (fs.makedirsS a).1
    constructor
    · rw [hF1s, hfl]
      exact hfl2
    · rw [hF1s]
      exact heqv
  · rw [if_neg hmk] at hF1
    rw [Bool.not_eq_true] at hmk
    have hfl : flag = false := by
      have h2 := congrArg Prod.snd hF1
      simp only [] at h2
      rw [← h2]
      exact hmk
    have hF1s : F1 = (fs.makedirsS a).1 := by
      have h1 := congrArg Prod.fst hF1
      simp only [] at h1
      rw [← h1]
    subst hfl
    have hst := makedirsS_stable fs (fs.makedirsS a).1 a false
      (by rw [← hmk]) F1 (by rw [hF1s]; exact kindLE_refl _)
    rw [hst]
    simp
    exact eqv_refl F1

lemma copy2_replay (fs : FS) (d : FileData) (sp : FPath) (b : PyStr)
    (tp : FPath) (F1 : FS) (flag : Bool)
    (hF1 : fs.copy2Run d sp b tp = (F1, flag)) :
    F1.copy2Run d sp b tp = (F1, flag) := by
  by_cases his : fs.isdir tp = true
  · by_cases hsf : resolveStep tp b = sp
    · have hc1 : fs.copy2Run d sp b tp = (fs, false) := by
        rw [FS.copy2Run]
        simp only [his, if_true, if_pos hsf]
      rw [hc1] at hF1
      injection hF1 with h1 h2
      subst h1
      subst h2
      exact hc1
    · have hc1 : fs.copy2Run d sp b tp =
          fs.openWrite (resolveStep tp b) d := by
        rw [FS.copy2Run]
        simp only [his, if_true, if_neg hsf]
      rcases openWrite_eq_cases fs (resolveStep tp b) d with
        how | ⟨hne, hnd, hpar, how⟩
      · rw [hc1, how] at hF1
        injection hF1 with h1 h2
        subst h1
        subst h2
        rw [hc1, how]
      · rw [hc1, how] at hF1
        injection hF1 with h1 h2
        have htne : resolveStep tp b ≠ tp := by
          intro he
          rw [FS.isdir] at his
          apply hnd
          rw [he]
          simpa using his
        have hisF : F1.isdir tp = true := by
          rw [← h1, FS.isdir, FS.lookup_set_ne _ _ _ _ (Ne.symm htne)]
          rw [FS.isdir] at his
          exact his
        have hvT : F1.lookup (resolveStep tp b) = some (Node.file d) := by
          rw [← h1]
          exact FS.lookup_set_self _ _ _ hne
        have hparF : F1.lookup (resolveStep tp b).dropLast =
            some Node.dir := by
          rw [← h1, FS.lookup_set_ne _ _ _ _ (dropLast_ne_self _ hne)]
          exact hpar
        have how2 : F1.openWrite (resolveStep tp b) d =
            (F1.set (resolveStep tp b) (Node.file d), true) := by
          rw [FS.openWrite, if_neg hne, hvT, hparF]
        have hc2 : F1.copy2Run d sp b tp =
            F1.openWrite (resolveStep tp b) d := by
          rw [FS.copy2Run]
          simp only [hisF, if_true, if_neg hsf]
        rw [hc2, how2, ← h1, set_set_self, ← h2]
  · rw [Bool.not_eq_true] at his
    by_cases hsf : tp = sp
    · have hc1 : fs.copy2Run d sp b tp = (fs, false) := by
        rw [FS.copy2Run]
        simp only [his, Bool.false_eq_true, if_false, if_pos hsf]
      rw [hc1] at hF1
      injection hF1 with h1 h2
      subst h1
      subst h2
      exact hc1
    · have hc1 : fs.copy2Run d sp b tp = fs.openWrite tp d := by
        rw [FS.copy2Run]
        simp only [his, Bool.false_eq_true, if_false, if_neg hsf]
      rcases openWrite_eq_cases fs tp d with how | ⟨hne, hnd, hpar, how⟩
      · rw [hc1, how] at hF1
        injection hF1 with h1 h2
        subst h1
        subst h2
        rw [hc1, how]
      · rw [hc1, how] at hF1
        injection hF1 with h1 h2
        have hisF : F1.isdir tp = false := by
          rw [← h1, FS.isdir, FS.lookup_set_self _ _ _ hne]
          rfl
        have hvT : F1.lookup tp = some (Node.file d) := by
          rw [← h1]
          exact FS.lookup_set_self _ _ _ hne
        have hparF : F1.lookup tp.dropLast = some Node.dir := by
          rw [← h1, FS.lookup_set_ne _ _ _ _ (dropLast_ne_self _ hne)]
          exact hpar
        have how2 : F1.openWrite tp d =
            (F1.set tp (Node.file d), true) := by
          rw [FS.openWrite, if_neg hne, hvT, hparF]
        have hc2 : F1.copy2Run d sp b tp = F1.openWrite tp d := by
          rw [FS.copy2Run]
          simp only [hisF, Bool.false_eq_true, if_false, if_neg hsf]
        rw [hc2, how2, ← h1, set_set_self, ← h2]

lemma copytreeRun_eq (g : FS) (sp : FPath) (dstS : PyStr) :
    g.copytreeRun sp dstS =
      (if (g.makedirsS dstS).2 = true then
        (g.reachableEntries sp).foldl (copyNode sp (toPath dstS))
          ((g.makedirsS dstS).1, true)
       else ((g.makedirsS dstS).1, false)) := rfl

lemma copytree_replay (fs : FS) (sp : FPath) (dstS : PyStr)
    (hdist : (fs.reachableEntries sp).Pairwise (fun x y => x.1 ≠ y.1))
    (hsep : ∀ e ∈ fs.reachableEntries sp, ∀ f ∈ fs.reachableEntries sp,
      (∃ df, f.2 = Node.file df) → e.1 ≠ f.1 ++ [f.1.getLastD []])
    (hchain : ∀ q : FPath, q <+: toPath dstS → ¬ sp <+: q)
    (hup : ∀ w : FPath, toPath dstS <+: w → ¬ sp <+: w)
    (F1 : FS) (flag : Bool)
    (hF1 : fs.copytreeRun sp dstS = (F1, flag)) :
    (F1.copytreeRun sp dstS).2 = flag ∧
      FS.Eqv (F1.copytreeRun sp dstS).1 F1 := by
  have hrelne : ∀ e ∈ fs.reachableEntries sp, e.1 ≠ ([] : FPath) := by
    intro e he
    exact subtreeEntries_rel_ne fs sp e (List.mem_of_mem_filter he)
  rw [copytreeRun_eq] at hF1
  by_cases hmk : (fs.makedirsS dstS).2 = true
  · rw [if_pos hmk] at hF1
    have hF1s : F1 = ((fs.reachableEntries sp).foldl
        (copyNode sp (toPath dstS)) ((fs.makedirsS dstS).1, true)).1 := by
      have h1 := congrArg Prod.fst hF1
      simp only [] at h1
      rw [← h1]
    have hfl : flag = ((fs.reachableEntries sp).foldl
        (copyNode sp (toPath dstS)) ((fs.makedirsS dstS).1, true)).2 := by
      have h2 := congrArg Prod.snd hF1
      simp only [] at h2
      rw [← h2]
    have hle : KindLE (fs.makedirsS dstS).1 F1 := by
      rw [hF1s]
      exact foldCN_kindLE sp (toPath dstS) (fs.reachableEntries sp)
        ((fs.makedirsS dstS).1, true)
    have hst := makedirsS_stable fs (fs.makedirsS dstS).1 dstS true
      (by rw [← hmk]) F1 hle
    have hsub1 : (fs.makedirsS dstS).1.subtreeEntries sp =
        fs.subtreeEntries sp := makedirsS_subtree sp fs dstS hchain
    have hsub2 : F1.subtreeEntries sp = fs.subtreeEntries sp := by
      rw [hF1s, foldCN_subtree sp sp (toPath dstS) _ hup _]
      exact hsub1
    have hlookpres : ∀ q : FPath, sp <+: q → F1.lookup q = fs.lookup q := by
      intro q hq
      have hq1 : ¬ q <+: toPath dstS := fun hc => hchain q hc hq
      have hq2 : ¬ toPath dstS <+: q := fun hc => hup q hc hq
      rw [hF1s, foldl_copyNode_frame _ _ _ _ _ hq2]
      exact makedirsS_frame fs dstS q hq1
    have hre : F1.reachableEntries sp = fs.reachableEntries sp :=
      reachableEntries_congr fs F1 sp hsub2 hlookpres
    rw [copytreeRun_eq, hst]
    simp only [if_pos]
    rw [hre]
    obtain ⟨hrfl, hreqv⟩ := foldCN_replay sp (toPath dstS)
      (fs.reachableEntries sp) hdist hrelne hsep (fs.makedirsS dstS).1
    constructor
    · rw [hF1s, hfl]
      exact hrfl
    · rw [hF1s]
      exact hreqv
  · rw [if_neg hmk] at hF1
    rw [Bool.not_eq_true] at hmk
    injection hF1 with h1 h2
    have hF1s : F1 = (fs.makedirsS dstS).1 := h1.symm
    have hfl : flag = false := h2.symm
    subst hfl
    have hst := makedirsS_stable fs (fs.makedirsS dstS).1 dstS false
      (by rw [← hmk]) F1 (by rw [hF1s]; exact kindLE_refl _)
    rw [copytreeRun_eq, hst]
    constructor
    · simp
    · simp only [Bool.false_eq_true, if_false]
      exact eqv_refl F1

lemma wStep_replay (fs : FS) (a : PyStr) (T : FPath) (v : FileData) :
    wStep (wStep fs a T v).1 a T v = wStep fs a T v := by
  have h := mkdirs_write_replay fs a T v (wStep fs a T v).1
    (wStep fs a T v).2 Prod.mk.eta.symm
  exact h.trans Prod.mk.eta

lemma eStep_replay (fs : FS) (a : PyStr) (ms : List ZipEntry) (now : Nat)
    (hdist : ms.Pairwise
      (fun x y => sanitizeName x.name ≠ sanitizeName y.name)) :
    (eStep (eStep fs a ms now).1 a ms now).2 = (eStep fs a ms now).2 ∧
      FS.Eqv (eStep (eStep fs a ms now).1 a ms now).1 (eStep fs a ms now).1 :=
  mkdirs_extract_replay fs a now ms hdist (eStep fs a ms now).1
    (eStep fs a ms now).2 Prod.mk.eta.symm

lemma zip_single_core (pz : Bytes → Option (List ZipEntry)) (now : Nat)
    (src unz : PyStr) (g : FS) (d : FileData) (e : ZipEntry)
    (hz : endsWithZip src = true)
    (hg : g.lookup (toPath src) = some (Node.file d))
    (hpz : pz d.content = some [e]) :
    process_file pz now src unz g =
      ((wStep g (pyDirname (pyJoin unz (pyBasename e.name)))
          (toPath (pyJoin unz (pyBasename e.name))) ⟨e.data, now⟩).1,
       if (wStep g (pyDirname (pyJoin unz (pyBasename e.name)))
          (toPath (pyJoin unz (pyBasename e.name))) ⟨e.data, now⟩).2 = true
       then [LogEvent.extractedSingle] else [LogEvent.failedToProcess]) := by
  rw [process_file_zip_single pz now src unz g d e hz hg hpz]
  rw [wStep]
  by_cases hmk : (g.makedirsS
      (pyDirname (pyJoin unz (pyBasename e.name)))).2 = true
  · simp only [hmk, if_pos]
    by_cases hw : ((g.makedirsS
        (pyDirname (pyJoin unz (pyBasename e.name)))).1.openWrite
        (toPath (pyJoin unz (pyBasename e.name))) ⟨e.data, now⟩).2 = true
    · simp only [hw, if_pos]
    · rw [Bool.not_eq_true] at hw
      simp only [hw]
      simp
  · rw [Bool.not_eq_true] at hmk
    simp only [hmk]
    simp
    rw [hmk]
    simp

lemma zip_multi_core (pz : Bytes → Option (List ZipEntry)) (now : Nat)
    (src unz : PyStr) (g : FS) (d : FileData) (ms : List ZipEntry)
    (hz : endsWithZip src = true)
    (hg : g.lookup (toPath src) = some (Node.file d))
    (hpz : pz d.content = some ms)
    (hnot1 : ∀ e : ZipEntry, ms ≠ [e]) :
    process_file pz now src unz g =
      ((eStep g (pyJoin unz (pySplitextStem (pyBasename src))) ms now).1,
       if (eStep g (pyJoin unz (pySplitextStem (pyBasename src)))
          ms now).2 = true
       then [LogEvent.extractedMulti] else [LogEvent.failedToProcess]) := by
  rw [process_file_zip_multi pz now src unz g d ms hz hg hpz hnot1]
  rw [eStep]
  by_cases hmk : (g.makedirsS
      (pyJoin unz (pySplitextStem (pyBasename src)))).2 = true
  · simp only [hmk, if_pos]
    by_cases hw : (extractAll (g.makedirsS
        (pyJoin unz (pySplitextStem (pyBasename src)))).1
        (toPath (pyJoin unz (pySplitextStem (pyBasename src)))) ms
        now).2 = true
    · simp only [hw, if_pos]
    · rw [Bool.not_eq_true] at hw
      simp only [hw]
      simp
  · rw [Bool.not_eq_true] at hmk
    simp only [hmk]
    simp
    rw [hmk]
    simp

lemma nonzip_dir_core (pz : Bytes → Option (List ZipEntry)) (now : Nat)
    (src unz : PyStr) (g : FS)
    (hz : endsWithZip src = false)
    (hg : g.lookup (toPath src) = some Node.dir) :
    process_file pz now src unz g =
      ((g.copytreeRun (toPath src) (pyJoin unz (pyBasename src))).1,
       if (g.copytreeRun (toPath src)
          (pyJoin unz (pyBasename src))).2 = true
       then [LogEvent.copied] else [LogEvent.failedToProcess]) := by
  rw [process_file_nonzip_dir pz now src unz g hz hg]
  by_cases hr : (g.copytreeRun (toPath src)
      (pyJoin unz (pyBasename src))).2 = true
  · simp only [hr, if_pos]
  · rw [Bool.not_eq_true] at hr
    simp only [hr]
    simp

lemma nonzip_file_core (pz : Bytes → Option (List ZipEntry)) (now : Nat)
    (src unz : PyStr) (g : FS) (d : FileData)
    (hz : endsWithZip src = false)
    (hg : g.lookup (toPath src) = some (Node.file d)) :
    process_file pz now src unz g =
      ((g.copy2Run d (toPath src) (pyBasename src)
          (toPath (pyJoin unz (pyBasename src)))).1,
       if (g.copy2Run d (toPath src) (pyBasename src)
          (toPath (pyJoin unz (pyBasename src)))).2 = true
       then [LogEvent.copied] else [LogEvent.failedToProcess]) := by
  rw [process_file_nonzip_file pz now src unz g d hz hg]
  by_cases hr : (g.copy2Run d (toPath src) (pyBasename src)
      (toPath (pyJoin unz (pyBasename src)))).2 = true
  · simp only [hr, if_pos]
  · rw [Bool.not_eq_true] at hr
    simp only [hr]
    simp

lemma process_file_idem_aux (pz : Bytes → Option (List ZipEntry))
    (now : Nat) (src unz : PyStr) (fs : FS)
    (hbn : pyBasename src ≠ ['.', '.'])
    (h1 : ¬ toPath unz <+: toPath src)
    (h2 : ¬ toPath src <+: toPath unz)
    (hwf : FS.Wf fs)
    (hdist : ∀ b ms, pz b = some ms →
      ms.Pairwise (fun x y => sanitizeName x.name ≠ sanitizeName y.name)) :
    (process_file pz now src unz
      (process_file pz now src unz fs).1).2 =
      (process_file pz now src unz fs).2 ∧
    FS.Eqv (process_file pz now src unz
      (process_file pz now src unz fs).1).1
      (process_file pz now src unz fs).1 := by
  have hsp : (process_file pz now src unz fs).1.lookup (toPath src) =
      fs.lookup (toPath src) :=
    process_file_frame pz now src unz fs (toPath src) hbn h1 h2
  by_cases hex : fs.existsP (toPath src) = true
  · cases hz : endsWithZip src with
    | true =>
      have hex2 := hex
      rw [FS.existsP] at hex2
      cases hl : fs.lookup (toPath src) with
      | none =>
        rw [hl] at hex2
        simp at hex2
      | some n =>
        cases n with
        | dir =>
          have hrun1 : process_file pz now src unz fs =
              (fs, [LogEvent.failedToProcess]) := by
            simp only [process_file, hex, hz, hl]
            simp
          have hF1 : (process_file pz now src unz fs).1 = fs := by
            rw [hrun1]
          have hrun2 : process_file pz now src unz
              (process_file pz now src unz fs).1 =
              (fs, [LogEvent.failedToProcess]) := by
            rw [hF1, hrun1]
          rw [hrun2, hrun1]
          exact ⟨rfl, eqv_refl _⟩
        | file d =>
          cases hpz : pz d.content with
          | none =>
            have hrun1 : process_file pz now src unz fs =
                (fs, [LogEvent.failedToProcess]) := by
              simp only [process_file, hex, hz, hl, hpz]
              simp
            have hF1 : (process_file pz now src unz fs).1 = fs := by
              rw [hrun1]
            have hrun2 : process_file pz now src unz
                (process_file pz now src unz fs).1 =
                (fs, [LogEvent.failedToProcess]) := by
              rw [hF1, hrun1]
            rw [hrun2, hrun1]
            exact ⟨rfl, eqv_refl _⟩
          | some ms =>
            cases hms : ms with
            | nil =>
              -- empty archive: multi branch
              have hrun1 := zip_multi_core pz now src unz fs d [] hz hl
                (by rw [hms] at hpz; exact hpz) (fun e => by simp)
              have hF1eq : (process_file pz now src unz fs).1 =
                  (eStep fs (pyJoin unz (pySplitextStem (pyBasename src)))
                    [] now).1 := by
                rw [hrun1]
              have hF1l : (process_file pz now src unz fs).1.lookup
                  (toPath src) = some (Node.file d) := by
                rw [hsp, hl]
              have hrun2 := zip_multi_core pz now src unz
                (process_file pz now src unz fs).1 d [] hz hF1l
                (by rw [hms] at hpz; exact hpz) (fun e => by simp)
              rw [hF1eq] at hrun2
              obtain ⟨hesf, hese⟩ := eStep_replay fs
                (pyJoin unz (pySplitextStem (pyBasename src))) [] now
                (by simp)
              rw [hF1eq, hrun2, hrun1]
              constructor
              · simp [hesf]
              · simp only []
                exact hese
            | cons m rest =>
              cases hrest : rest with
              | nil =>
                -- single member branch
                have hpz1 : pz d.content = some [m] := by
                  rw [hms, hrest] at hpz
                  exact hpz
                have hrun1 := zip_single_core pz now src unz fs d m hz hl
                  hpz1
                have hF1eq : (process_file pz now src unz fs).1 =
                    (wStep fs
                      (pyDirname (pyJoin unz (pyBasename m.name)))
                      (toPath (pyJoin unz (pyBasename m.name)))
                      ⟨m.data, now⟩).1 := by
                  rw [hrun1]
                have hF1l : (process_file pz now src unz fs).1.lookup
                    (toPath src) = some (Node.file d) := by
                  rw [hsp, hl]
                have hrun2 := zip_single_core pz now src unz
                  (process_file pz now src unz fs).1 d m hz hF1l hpz1
                rw [hF1eq] at hrun2
                have hws := wStep_replay fs
                  (pyDirname (pyJoin unz (pyBasename m.name)))
                  (toPath (pyJoin unz (pyBasename m.name))) ⟨m.data, now⟩
                rw [hws] at hrun2
                rw [hF1eq, hrun2, hrun1]
                exact ⟨rfl, eqv_refl _⟩
              | cons m2 rest2 =>
                have hpzm : pz d.content = some (m :: m2 :: rest2) := by
                  rw [hms, hrest] at hpz
                  exact hpz
                have hnot1 : ∀ e : ZipEntry, m :: m2 :: rest2 ≠ [e] := by
                  intro e he
                  simp at he
                have hdm : (m :: m2 :: rest2).Pairwise
                    (fun x y => sanitizeName x.name ≠ sanitizeName y.name) :=
                  hdist d.content (m :: m2 :: rest2) hpzm
                have hrun1 := zip_multi_core pz now src unz fs d
                  (m :: m2 :: rest2) hz hl hpzm hnot1
                have hF1eq : (process_file pz now src unz fs).1 =
                    (eStep fs (pyJoin unz (pySplitextStem (pyBasename src)))
                      (m :: m2 :: rest2) now).1 := by
                  rw [hrun1]
                have hF1l : (process_file pz now src unz fs).1.lookup
                    (toPath src) = some (Node.file d) := by
                  rw [hsp, hl]
                have hrun2 := zip_multi_core pz now src unz
                  (process_file pz now src unz fs).1 d
                  (m :: m2 :: rest2) hz hF1l hpzm hnot1
                rw [hF1eq] at hrun2
                obtain ⟨hesf, hese⟩ := eStep_replay fs
                  (pyJoin unz (pySplitextStem (pyBasename src)))
                  (m :: m2 :: rest2) now hdm
                rw [hF1eq, hrun2, hrun1]
                constructor
                · simp [hesf]
                · simp only []
                  exact hese
    | false =>
      have hex2 := hex
      rw [FS.existsP] at hex2
      cases hl : fs.lookup (toPath src) with
      | none =>
        rw [hl] at hex2
        simp at hex2
      | some n =>
        cases n with
        | dir =>
          have hbs : ∀ x ∈ pyBasename src, x ≠ '/' := pyBasename_no_slash src
          have htp : toPath (pyJoin unz (pyBasename src)) =
              resolveStep (toPath unz) (pyBasename src) :=
            toPath_pyJoin _ _ hbs
          have hDpre : toPath unz <+: toPath (pyJoin unz (pyBasename src)) := by
            rcases resolveStep_cases (toPath unz) (pyBasename src) with
              ⟨hh, hc⟩ | ⟨hh, hc⟩ | ⟨hh, hc⟩
            · rw [htp, hh]
              exact List.prefix_append _ _
            · rw [htp, hh]
            · exact absurd hc hbn
          have hchain : ∀ q : FPath,
              q <+: toPath (pyJoin unz (pyBasename src)) →
              ¬ toPath src <+: q := by
            intro q hq hsq
            have hsd : toPath src <+: toPath (pyJoin unz (pyBasename src)) :=
              hsq.trans hq
            rcases List.prefix_or_prefix_of_prefix hsd hDpre with hh | hh
            · exact h2 hh
            · exact h1 hh
          have hup : ∀ w : FPath,
              toPath (pyJoin unz (pyBasename src)) <+: w →
              ¬ toPath src <+: w := by
            intro w hw hsw
            have hD2 : toPath unz <+: w := hDpre.trans hw
            rcases List.prefix_or_prefix_of_prefix hsw hD2 with hh | hh
            · exact h2 hh
            · exact h1 hh
          have hkeys0 : (fs.subtreeEntries (toPath src)).Pairwise
              (fun x y => x.1 ≠ y.1) :=
            List.pairwise_map.mp (subtreeEntries_keys_nodup fs (toPath src) hwf)
          have hkeys : (fs.reachableEntries (toPath src)).Pairwise
              (fun x y => x.1 ≠ y.1) :=
            List.Pairwise.sublist (List.filter_sublist _) hkeys0
          have hsep : ∀ e ∈ fs.reachableEntries (toPath src),
              ∀ f ∈ fs.reachableEntries (toPath src),
              (∃ df, f.2 = Node.file df) →
              e.1 ≠ f.1 ++ [f.1.getLastD []] := by
            intro e he f hf hdf hc
            obtain ⟨df, hdf⟩ := hdf
            have hfmem : f ∈ fs.subtreeEntries (toPath src) :=
              List.mem_of_mem_filter hf
            have hflook : fs.lookup (toPath src ++ f.1) =
                some (Node.file df) := by
              rw [subtreeEntries_mem_lookup fs _ hwf f hfmem, hdf]
            have hreach := List.of_mem_filter he
            rw [entryReachable, List.all_eq_true] at hreach
            have hfne : f.1 ≠ [] := subtreeEntries_rel_ne fs _ f hfmem
            have hlen : 0 < f.1.length := List.length_pos.mpr hfne
            have hj : f.1.length - 1 ∈ List.range (e.1.length - 1) := by
              rw [List.mem_range, hc, List.length_append]
              simp
              omega
            have hd := hreach _ hj
            simp only [] at hd
            rw [hc] at hd
            have htake : (f.1 ++ [f.1.getLastD []]).take
                (f.1.length - 1 + 1) = f.1 := by
              have hx : f.1.length - 1 + 1 = f.1.length := by omega
              rw [hx, List.take_left]
            rw [htake] at hd
            rw [FS.isdir, hflook] at hd
            simp at hd
          have hcp := copytree_replay fs (toPath src)
            (pyJoin unz (pyBasename src)) hkeys hsep hchain hup
            (fs.copytreeRun (toPath src) (pyJoin unz (pyBasename src))).1
            (fs.copytreeRun (toPath src) (pyJoin unz (pyBasename src))).2
            Prod.mk.eta.symm
          have hrun1 := nonzip_dir_core pz now src unz fs hz hl
          have hF1eq : (process_file pz now src unz fs).1 =
              (fs.copytreeRun (toPath src)
                (pyJoin unz (pyBasename src))).1 := by
            rw [hrun1]
          have hF1l : (process_file pz now src unz fs).1.lookup
              (toPath src) = some Node.dir := by
            rw [hsp, hl]
          have hrun2 := nonzip_dir_core pz now src unz
            (process_file pz now src unz fs).1 hz hF1l
          rw [hF1eq] at hrun2
          rw [hF1eq, hrun2, hrun1]
          constructor
          · simp [hcp.1]
          · simp only []
            exact hcp.2
        | file d =>
          have hrun1 := nonzip_file_core pz now src unz fs d hz hl
          have hF1eq : (process_file pz now src unz fs).1 =
              (fs.copy2Run d (toPath src) (pyBasename src)
                (toPath (pyJoin unz (pyBasename src)))).1 := by
            rw [hrun1]
          have hF1l : (process_file pz now src unz fs).1.lookup
              (toPath src) = some (Node.file d) := by
            rw [hsp, hl]
          have hrun2 := nonzip_file_core pz now src unz
            (process_file pz now src unz fs).1 d hz hF1l
          rw [hF1eq] at hrun2
          have hc2 := copy2_replay fs d (toPath src) (pyBasename src)
            (toPath (pyJoin unz (pyBasename src)))
            (fs.copy2Run d (toPath src) (pyBasename src)
              (toPath (pyJoin unz (pyBasename src)))).1
            (fs.copy2Run d (toPath src) (pyBasename src)
              (toPath (pyJoin unz (pyBasename src)))).2
            Prod.mk.eta.symm
          rw [hc2] at hrun2
          rw [hF1eq, hrun2, hrun1]
          exact ⟨rfl, eqv_refl _⟩
  · have hrun1 : process_file pz now src unz fs = (fs, []) := by
      simp only [process_file]
      rw [Bool.not_eq_true] at hex
      rw [if_pos (by rw [hex]; simp)]
    have hF1 : (process_file pz now src unz fs).1 = fs := by
      rw [hrun1]
    have hrun2 : process_file pz now src unz
        (process_file pz now src unz fs).1 = (fs, []) := by
      rw [hF1, hrun1]
    rw [hrun2, hrun1]
    exact ⟨rfl, eqv_refl _⟩

/-- C5 counterexample: with the source inside the destination root, the first
run overwrites `/u/a.zip` with the inner archive's bytes, so the second run
extracts a different archive and creates `/u/b`, which did not exist after
the first run — the destination contents differ between the two calls. -/
theorem process_file_not_idempotent :
    (process_file pzNest 7 ('/' :: "u/a.zip".data) ('/' :: "u".data)
        fsNest).1.lookup ["u".data, "b".data] = none ∧
    (process_file pzNest 7 ('/' :: "u/a.zip".data) ('/' :: "u".data)
        (process_file pzNest 7 ('/' :: "u/a.zip".data) ('/' :: "u".data)
          fsNest).1).1.lookup ["u".data, "b".data] =
      some (Node.file ⟨[5], 7⟩) := by
  constructor
  · decide
  · decide

/-- C5 (amended): `process_file` is idempotent whenever the resolved source
path and destination root are not nested either way, the source's base name
is not `..`, the starting state binds each path once, and no archive the
oracle can yield has two members with the same sanitized path: the second
run returns the same log and leaves every path's binding exactly as the
first run did. -/
theorem process_file_idempotent (pz : Bytes → Option (List ZipEntry))
    (now : Nat) (src unz : PyStr) (fs : FS)
    (hbn : pyBasename src ≠ ['.', '.'])
    (h1 : ¬ toPath unz <+: toPath src)
    (h2 : ¬ toPath src <+: toPath unz)
    (hwf : FS.Wf fs)
    (hdist : ∀ b ms, pz b = some ms →
      ms.Pairwise (fun x y => sanitizeName x.name ≠ sanitizeName y.name)) :
    (process_file pz now src unz
      (process_file pz now src unz fs).1).2 =
      (process_file pz now src unz fs).2 ∧
    FS.Eqv (process_file pz now src unz
      (process_file pz now src unz fs).1).1
      (process_file pz now src unz fs).1 :=
  process_file_idem_aux pz now src unz fs hbn h1 h2 hwf hdist

theorem process_file_idempotent_witness :
    (process_file pzSingle 7 ('/' :: "d/one.zip".data) ('/' :: "u".data)
      (process_file pzSingle 7 ('/' :: "d/one.zip".data) ('/' :: "u".data)
        fsA).1).2 =
      (process_file pzSingle 7 ('/' :: "d/one.zip".data) ('/' :: "u".data)
        fsA).2 ∧
    FS.Eqv (process_file pzSingle 7 ('/' :: "d/one.zip".data)
      ('/' :: "u".data)
      (process_file pzSingle 7 ('/' :: "d/one.zip".data) ('/' :: "u".data)
        fsA).1).1
      (process_file pzSingle 7 ('/' :: "d/one.zip".data) ('/' :: "u".data)
        fsA).1 :=
  process_file_idempotent pzSingle 7 ('/' :: "d/one.zip".data)
    ('/' :: "u".data) fsA (by decide) (by decide) (by decide) (by decide)
    (by
      intro b ms h
      simp only [pzSingle] at h
      by_cases hb : b = [9]
      · rw [if_pos hb] at h
        cases h
        simp
      · rw [if_neg hb] at h
        cases h)
